import Mathlib

/-!
# Verification of the lisp-rpc parser, data layer and generator

A shallow embedding of the `lisp-rpc-rust-parser` and
`lisp-rpc-rust-generator` crates.  Rust strings and byte buffers are
modelled as `List Nat` (byte values); fallible operations return an
explicit result type; operations that can panic (slice indexing out of
bounds, `unwrap` on invalid UTF-8) return an explicit `panic` outcome.
The tokenizer is embedded at the byte level, exactly following
`Parser::tokenize` in `src/lib.rs`; the recursive-descent readers are
embedded with an explicit recursion budget (the Rust recursion
terminates by token consumption; the budget is chosen large enough and
the theorems quantify over sufficient budgets).
-/

namespace LispRpc

/-- Byte strings: Rust `String` / `&str` / `Vec<u8>` contents as byte lists. -/
abbrev Str := List Nat

/-- Bytes of an ASCII Lean string literal (used only to state concrete inputs). -/
def ascii (s : String) : Str := s.data.map Char.toNat

/-! ## Tokenizer (`Parser::tokenize`, src/parsers/lisp-rpc-rust-parser/src/lib.rs) -/

/-- The delimiter bytes matched by the tokenizer:
`(` `)` space `'` `"` `:` newline. -/
def isDelim (b : Nat) : Bool :=
  b = 40 || b = 32 || b = 41 || b = 39 || b = 34 || b = 58 || b = 10

/-- UTF-8 continuation byte (0x80–0xBF). -/
def isCont (b : Nat) : Bool := 128 ≤ b && b ≤ 191

/-- For a lead byte: number of continuation bytes and the allowed range of
the first continuation byte, per RFC 3629 (what `String::from_utf8` accepts). -/
def utf8Need (b : Nat) : Option (Nat × Nat × Nat) :=
  if b ≤ 127 then some (0, 0, 0)
  else if 194 ≤ b ∧ b ≤ 223 then some (1, 128, 191)
  else if b = 224 then some (2, 160, 191)
  else if 225 ≤ b ∧ b ≤ 236 then some (2, 128, 191)
  else if b = 237 then some (2, 128, 159)
  else if 238 ≤ b ∧ b ≤ 239 then some (2, 128, 191)
  else if b = 240 then some (3, 144, 191)
  else if 241 ≤ b ∧ b ≤ 243 then some (3, 128, 191)
  else if b = 244 then some (3, 128, 143)
  else none

/-- Whether a byte list is valid UTF-8 (`String::from_utf8` succeeds). -/
def validUtf8 : List Nat → Bool
  | [] => true
  | b :: r =>
    match utf8Need b with
    | none => false
    | some (0, _, _) => validUtf8 r
    | some (1, lo, hi) =>
      match r with
      | c1 :: r' => (lo ≤ c1 && c1 ≤ hi) && validUtf8 r'
      | _ => false
    | some (2, lo, hi) =>
      match r with
      | c1 :: c2 :: r' => (lo ≤ c1 && c1 ≤ hi) && isCont c2 && validUtf8 r'
      | _ => false
    | some (3, lo, hi) =>
      match r with
      | c1 :: c2 :: c3 :: r' =>
        (lo ≤ c1 && c1 ≤ hi) && isCont c2 && isCont c3 && validUtf8 r'
      | _ => false
    | some _ => false

/-- Tokenizer state: the pending non-delimiter run (`cache`) and the tokens
emitted so far (`res`), as in the Rust loop. -/
structure TState where
  cache : List Nat
  res : List Str
  deriving Repr, DecidableEq

/-- `String::from_utf8(cache).unwrap()` followed by pushing the token:
`none` is the panic on invalid UTF-8. -/
def flushCache (s : TState) : Option TState :=
  if s.cache = [] then some s
  else if validUtf8 s.cache then some ⟨[], s.res ++ [s.cache]⟩
  else none

/-- One iteration of the tokenizer loop on byte `b`. -/
def tokStep (s : TState) (b : Nat) : Option TState :=
  if isDelim b then
    match flushCache s with
    | none => none
    | some s' =>
      if s'.res.getLast? = some [32] ∧ b = 32 then some s'
      else some ⟨[], s'.res ++ [[b]]⟩
  else some ⟨s.cache ++ [b], s.res⟩

/-- The tokenizer loop over the whole input. -/
def tokFold : List Nat → TState → Option TState
  | [], s => some s
  | b :: bs, s =>
    match tokStep s b with
    | none => none
    | some s' => tokFold bs s'

/-- `Parser::tokenize`: `none` models the panic on an invalid UTF-8 run. -/
def tokenize (bs : List Nat) : Option (List Str) :=
  match tokFold bs ⟨[], []⟩ with
  | none => none
  | some s =>
    match flushCache s with
    | none => none
    | some s' => some s'.res

/-- Every maximal non-delimiter run of the input, continued from the current
cache, is valid UTF-8.  This is the exact condition under which no flush of
the tokenizer can panic. -/
def runsOk : List Nat → List Nat → Bool
  | cache, [] => cache.isEmpty || validUtf8 cache
  | cache, b :: rest =>
    if isDelim b then (cache.isEmpty || validUtf8 cache) && runsOk [] rest
    else runsOk (cache ++ [b]) rest

theorem flushCache_ok {s : TState} (h : (s.cache.isEmpty || validUtf8 s.cache) = true) :
    ∃ s', flushCache s = some s' ∧ s'.cache = [] := by
  rcases s with ⟨cache, res⟩
  rcases cache with _ | ⟨b, c⟩
  · exact ⟨⟨[], res⟩, rfl, rfl⟩
  · simp only [List.isEmpty_cons, Bool.false_or] at h
    exact ⟨⟨[], res ++ [b :: c]⟩, by simp [flushCache, h], rfl⟩

theorem tokFold_total_of_runsOk :
    ∀ (bs : List Nat) (cache : List Nat) (res : List Str),
    runsOk cache bs = true →
    ∃ s', tokFold bs ⟨cache, res⟩ = some s' ∧
      (s'.cache.isEmpty || validUtf8 s'.cache) = true := by
  intro bs
  induction bs with
  | nil =>
    intro cache res h
    exact ⟨⟨cache, res⟩, rfl, by simpa [runsOk] using h⟩
  | cons b bs ih =>
    intro cache res h
    by_cases hd : isDelim b
    · simp only [runsOk, hd, if_true, Bool.and_eq_true] at h
      obtain ⟨hc, hrest⟩ := h
      obtain ⟨sf, hf, hcf⟩ := flushCache_ok (s := ⟨cache, res⟩) hc
      by_cases hsp : sf.res.getLast? = some [32] ∧ b = 32
      · obtain ⟨s', h1, h2⟩ := ih [] sf.res hrest
        refine ⟨s', ?_, h2⟩
        simp only [tokFold, tokStep, hd, if_true, hf]
        rw [if_pos hsp]
        rcases sf with ⟨sfc, sfr⟩
        simp only at hcf
        subst hcf
        exact h1
      · obtain ⟨s', h1, h2⟩ := ih [] (sf.res ++ [[b]]) hrest
        refine ⟨s', ?_, h2⟩
        simp only [tokFold, tokStep, hd, if_true, hf]
        rw [if_neg hsp]
        exact h1
    · simp only [runsOk, hd, if_false] at h
      obtain ⟨s', h1, h2⟩ := ih (cache ++ [b]) res h
      refine ⟨s', ?_, h2⟩
      simpa [tokFold, tokStep, hd] using h1

/-- C6 counterexample: the single byte 0xFF is an invalid UTF-8 run; the
tokenizer panics (`String::from_utf8(...).unwrap()`) instead of logging and
skipping. -/
theorem c6_tokenize_panics_on_invalid_utf8 : tokenize [255] = none := by decide

/-- C6 (amended): tokenization never fails on an input all of whose maximal
non-delimiter byte runs are valid UTF-8; an invalid UTF-8 run makes the
tokenizer panic rather than being reported to the log and skipped. -/
theorem c6_tokenize_total_on_valid_runs (bs : List Nat) (h : runsOk [] bs = true) :
    ∃ ts, tokenize bs = some ts := by
  obtain ⟨s', h1, h2⟩ := tokFold_total_of_runsOk bs [] [] h
  obtain ⟨s'', hf, _⟩ := flushCache_ok h2
  exact ⟨s''.res, by simp [tokenize, h1, hf]⟩

/-- C6 witness: the amended theorem applied to the concrete input `(a b)`. -/
theorem c6_tokenize_total_on_valid_runs_witness :
    ∃ ts, tokenize (ascii "(a b)") = some ts :=
  c6_tokenize_total_on_valid_runs (ascii "(a b)") (by decide)

/-! ## Syntax tree (`TypeValue`, `Atom`, `Expr`) -/

inductive TypeValue where
  | symbol (s : Str)
  | string (s : Str)
  | keyword (s : Str)
  | number (n : Int)
  deriving Repr, DecidableEq

/-- `Atom` wraps exactly one `TypeValue`. -/
structure Atom where
  value : TypeValue
  deriving Repr, DecidableEq

inductive Expr where
  | atom (a : Atom)
  | list (es : List Expr)
  | quote (e : Expr)
  deriving Repr

inductive ParserError where
  | invalidStart
  | invalidToken (ctx : String)
  | corruptData (ctx : String)
  | unknownToken
  deriving Repr, DecidableEq

/-! ## Readers (`Parser::read_*`, src/parsers/lisp-rpc-rust-parser/src/lib.rs)

The Rust readers recurse while consuming tokens from a deque; the embedding
passes the token list explicitly and carries a recursion budget `fuel`
(budget exhaustion is an `invalidToken "fuel"` outcome that the theorems
show cannot occur at the budget the entry points use). -/

def tokOpen : Str := [40]
def tokClose : Str := [41]
def tokSpace : Str := [32]
def tokNewline : Str := [10]
def tokQuote : Str := [39]
def tokDq : Str := [34]
def tokColon : Str := [58]
def tokBackslash : Str := [92]

def isDigit (b : Nat) : Bool := 48 ≤ b && b ≤ 57

/-- Value of a nonempty all-digit byte run. -/
def natOfDigits (ds : List Nat) : Option Nat :=
  if ds = [] then none
  else if ds.all isDigit then some (ds.foldl (fun a b => a * 10 + (b - 48)) 0)
  else none

/-- Rust `str::parse::<i64>`: optional sign, one or more ASCII digits,
overflow-checked. -/
def parseI64 (t : Str) : Option Int :=
  match t with
  | [] => none
  | b :: rest =>
    if b = 43 then (natOfDigits rest).bind fun n =>
      if n ≤ 2 ^ 63 - 1 then some (n : Int) else none
    else if b = 45 then (natOfDigits rest).bind fun n =>
      if n ≤ 2 ^ 63 then some (-(n : Int)) else none
    else (natOfDigits (b :: rest)).bind fun n =>
      if n ≤ 2 ^ 63 - 1 then some (n : Int) else none

/-- `Parser::read_atom`. -/
def readAtom (cfg : Bool) (ts : List Str) : Except ParserError (Expr × List Str) :=
  match ts with
  | [] => .error (.invalidToken "in read_sym")
  | t :: rest =>
    if cfg then
      match parseI64 t with
      | some n => .ok (.atom ⟨.number n⟩, rest)
      | none => .ok (.atom ⟨.symbol t⟩, rest)
    else .ok (.atom ⟨.symbol t⟩, rest)

/-- `Parser::read_keyword`: consumes the `:` token and takes the next token
verbatim as the keyword text. -/
def readKeyword (ts : List Str) : Except ParserError (Expr × List Str) :=
  match ts with
  | _ :: t :: rest => .ok (.atom ⟨.keyword t⟩, rest)
  | _ => .error (.invalidToken "in read_keyword")

/-- The loop inside `Parser::read_string`. -/
def readStringLoop (escape : Bool) (acc : Str) :
    List Str → Except ParserError (Str × List Str)
  | [] => .error (.invalidToken "in read_string")
  | t :: rest =>
    if escape then readStringLoop false (acc ++ t) rest
    else if t = tokBackslash then readStringLoop true acc rest
    else if t = tokDq then .ok (acc, rest)
    else readStringLoop false (acc ++ t) rest

/-- `Parser::read_string`: consumes the opening `"` then loops. -/
def readString (ts : List Str) : Except ParserError (Expr × List Str) :=
  match readStringLoop false [] (ts.drop 1) with
  | .ok (s, rest) => .ok (.atom ⟨.string s⟩, rest)
  | .error e => .error e

mutual

/-- `Parser::read_router` followed by applying the chosen reader: `t` is the
front token, `ts` the full token stream (still containing `t`). -/
def dispatch (fuel : Nat) (cfg : Bool) (t : Str) (ts : List Str) :
    Except ParserError (Expr × List Str) :=
  match fuel with
  | 0 => .error (.invalidToken "fuel")
  | fuel + 1 =>
    if t = tokOpen then readExp fuel cfg ts
    else if t = tokQuote then readQuote fuel cfg ts
    else if t = tokDq then readString ts
    else if t = tokColon then readKeyword ts
    else readAtom cfg ts

/-- `Parser::read_exp`: consumes the `(` and loops until the matching `)`. -/
def readExp (fuel : Nat) (cfg : Bool) (ts : List Str) :
    Except ParserError (Expr × List Str) :=
  match fuel with
  | 0 => .error (.invalidToken "fuel")
  | fuel + 1 => readExpLoop fuel cfg (ts.drop 1) []

/-- The loop inside `Parser::read_exp`. -/
def readExpLoop (fuel : Nat) (cfg : Bool) (ts : List Str) (acc : List Expr) :
    Except ParserError (Expr × List Str) :=
  match fuel with
  | 0 => .error (.invalidToken "fuel")
  | fuel + 1 =>
    match ts with
    | [] => .error (.invalidToken "in read_exp, the tokens run out")
    | t :: rest =>
      if t = tokClose then .ok (.list acc, rest)
      else if t = tokSpace ∨ t = tokNewline then readExpLoop fuel cfg rest acc
      else
        match dispatch fuel cfg t (t :: rest) with
        | .error e => .error e
        | .ok (e, ts') => readExpLoop fuel cfg ts' (acc ++ [e])

/-- `Parser::read_quote`: consumes the `'` and reads exactly one form. -/
def readQuote (fuel : Nat) (cfg : Bool) (ts : List Str) :
    Except ParserError (Expr × List Str) :=
  match fuel with
  | 0 => .error (.invalidToken "fuel")
  | fuel + 1 =>
    match ts.drop 1 with
    | [] => .error (.invalidToken "in read_quote")
    | t :: rest =>
      match dispatch fuel cfg t (t :: rest) with
      | .error e => .error e
      | .ok (e, ts') => .ok (.quote e, ts')

end

/-- Budget that the entry points allot; ample for any token list. -/
def entryFuel (ts : List Str) : Nat := 3 * ts.length + 3

/-- The loop inside `Parser::parse_root`. -/
def parseRootLoop (fuel : Nat) (cfg : Bool) (ts : List Str) (acc : List Expr) :
    Except ParserError (List Expr) :=
  match fuel with
  | 0 => .error (.invalidToken "fuel")
  | fuel + 1 =>
    match ts with
    | [] => .ok acc
    | t :: rest =>
      if t = tokOpen then
        match readExp (fuel + 1) cfg (t :: rest) with
        | .error e => .error e
        | .ok (e, ts') => parseRootLoop fuel cfg ts' (acc ++ [e])
      else if t = tokSpace ∨ t = tokNewline then parseRootLoop fuel cfg rest acc
      else .error (.invalidToken "in read_root")

/-- The loop inside `Parser::parse_root_one`. -/
def parseRootOneLoop (fuel : Nat) (cfg : Bool) (ts : List Str) :
    Except ParserError Expr :=
  match fuel with
  | 0 => .error (.invalidToken "fuel")
  | fuel + 1 =>
    match ts with
    | [] => .error (.invalidToken "run out the tokens")
    | t :: rest =>
      if t = tokOpen then
        match readExp (fuel + 1) cfg (t :: rest) with
        | .error e => .error e
        | .ok (e, _) => .ok e
      else if t = tokSpace ∨ t = tokNewline then parseRootOneLoop fuel cfg rest
      else .error (.invalidToken "in read_root")

/-- `Parser::parse_root`: `none` models the tokenizer panic. -/
def parse_root (cfg : Bool) (bs : List Nat) :
    Option (Except ParserError (List Expr)) :=
  match tokenize bs with
  | none => none
  | some ts => some (parseRootLoop (entryFuel ts) cfg ts [])

/-- `Parser::parse_root_one`: `none` models the tokenizer panic. -/
def parse_root_one (cfg : Bool) (bs : List Nat) :
    Option (Except ParserError Expr) :=
  match tokenize bs with
  | none => none
  | some ts => some (parseRootOneLoop (entryFuel ts) cfg ts)

/-- A whitespace token, skipped at top level. -/
def isWsTok (t : Str) : Bool := t = tokSpace || t = tokNewline

theorem parseRootLoop_bad_lead :
    ∀ (ts : List Str) (fuel : Nat) (cfg : Bool) (acc : List Expr) (t : Str)
      (rest' : List Str),
    ts.length < fuel → ts.dropWhile isWsTok = t :: rest' → t ≠ tokOpen →
    parseRootLoop fuel cfg ts acc = .error (.invalidToken "in read_root") := by
  intro ts
  induction ts with
  | nil => intro fuel cfg acc t rest' _ hdw; simp [List.dropWhile] at hdw
  | cons u us ih =>
    intro fuel cfg acc t rest' hlen hdw ht
    rcases fuel with _ | fuel
    · omega
    by_cases hw : isWsTok u
    · rw [List.dropWhile_cons_of_pos hw] at hdw
      have hu : u ≠ tokOpen := by
        rcases (by simpa [isWsTok] using hw : u = tokSpace ∨ u = tokNewline) with h | h <;>
          simp [h, tokSpace, tokNewline, tokOpen]
      simp only [parseRootLoop, if_neg hu]
      rw [if_pos (by simpa [isWsTok] using hw)]
      exact ih fuel cfg acc t rest' (by simpa using Nat.lt_of_succ_lt_succ hlen) hdw ht
    · rw [List.dropWhile_cons_of_neg hw] at hdw
      obtain ⟨rfl, -⟩ : u = t ∧ us = rest' := by
        exact ⟨by injection hdw, by injection hdw⟩
      simp only [parseRootLoop, if_neg ht]
      rw [if_neg (by simpa [isWsTok] using hw)]

theorem parseRootOneLoop_bad_lead :
    ∀ (ts : List Str) (fuel : Nat) (cfg : Bool) (t : Str) (rest' : List Str),
    ts.length < fuel → ts.dropWhile isWsTok = t :: rest' → t ≠ tokOpen →
    parseRootOneLoop fuel cfg ts = .error (.invalidToken "in read_root") := by
  intro ts
  induction ts with
  | nil => intro fuel cfg t rest' _ hdw; simp [List.dropWhile] at hdw
  | cons u us ih =>
    intro fuel cfg t rest' hlen hdw ht
    rcases fuel with _ | fuel
    · omega
    by_cases hw : isWsTok u
    · rw [List.dropWhile_cons_of_pos hw] at hdw
      have hu : u ≠ tokOpen := by
        rcases (by simpa [isWsTok] using hw : u = tokSpace ∨ u = tokNewline) with h | h <;>
          simp [h, tokSpace, tokNewline, tokOpen]
      simp only [parseRootOneLoop, if_neg hu]
      rw [if_pos (by simpa [isWsTok] using hw)]
      exact ih fuel cfg t rest' (by simpa using Nat.lt_of_succ_lt_succ hlen) hdw ht
    · rw [List.dropWhile_cons_of_neg hw] at hdw
      obtain ⟨rfl, -⟩ : u = t ∧ us = rest' := by
        exact ⟨by injection hdw, by injection hdw⟩
      simp only [parseRootOneLoop, if_neg ht]
      rw [if_neg (by simpa [isWsTok] using hw)]

/-- C7 counterexample: on input `x` the top level fails with
`InvalidToken("in read_root")`, which is not the `InvalidStart` kind;
`InvalidStart` is declared but never raised. -/
theorem c7_top_level_error_is_invalid_token :
    parse_root_one true (ascii "x") =
      some (.error (.invalidToken "in read_root")) ∧
    ParserError.invalidToken "in read_root" ≠ ParserError.invalidStart :=
  ⟨rfl, by decide⟩

/-- C7 (amended): whenever the leading top-level token (after skipping
whitespace tokens) is not `(`, both `parse_root` and `parse_root_one` fail
with `InvalidToken("in read_root")` — not with `InvalidStart`. -/
theorem c7_top_level_rejects_non_paren (cfg : Bool) (bs : List Nat)
    (ts : List Str) (t : Str) (rest' : List Str)
    (htok : tokenize bs = some ts)
    (hlead : ts.dropWhile isWsTok = t :: rest')
    (ht : t ≠ tokOpen) :
    parse_root cfg bs = some (.error (.invalidToken "in read_root")) ∧
    parse_root_one cfg bs = some (.error (.invalidToken "in read_root")) := by
  have hlen : ts.length < entryFuel ts := by simp [entryFuel]; omega
  constructor
  · simp only [parse_root, htok]
    rw [parseRootLoop_bad_lead ts (entryFuel ts) cfg [] t rest' hlen hlead ht]
  · simp only [parse_root_one, htok]
    rw [parseRootOneLoop_bad_lead ts (entryFuel ts) cfg t rest' hlen hlead ht]

/-- C7 witness: the amended theorem applied to the concrete input `)`. -/
theorem c7_top_level_rejects_non_paren_witness :
    parse_root true (ascii ")") =
      some (.error (.invalidToken "in read_root")) ∧
    parse_root_one true (ascii ")") =
      some (.error (.invalidToken "in read_root")) :=
  c7_top_level_rejects_non_paren true (ascii ")") [[41]] [41] []
    (by rfl) (by rfl) (by decide)

/-! ## Data layer (src/parsers/lisp-rpc-rust-parser/src/data.rs)

`Data` is embedded as one inductive: the wrapper structs `ExprData`,
`ListData`, `MapData` of the source are inlined as constructor fields.
`DataMap`'s `HashMap<String, Data>` is modelled canonically as an
association list kept sorted by key, so that structural equality of the
model coincides with the order-independent equality of the hash map; the
lazily built `inner_map` cache of `ExprData` is modelled functionally
(it never influences observable results). -/

inductive DataErrorType where
  | invalidInput
  | corruptedData
  deriving Repr, DecidableEq

structure DataError where
  msg : String
  err_type : DataErrorType
  deriving Repr, DecidableEq

/-- `Box<dyn Error>`: either a parser error or a data error flows through. -/
inductive RpcError where
  | parser (e : ParserError)
  | data (e : DataError)
  deriving Repr, DecidableEq

/-- Rust panics surfaced by the embedding. -/
inductive PanicKind where
  | indexOutOfBounds
  | unwrapFailed
  deriving Repr, DecidableEq

/-- Result of a fallible, possibly panicking operation. -/
inductive DRes (α : Type) where
  | ok (a : α)
  | err (e : RpcError)
  | panic (p : PanicKind)
  deriving Repr

inductive Data where
  | data (name : Str) (rest_args : List (Expr × Data))
  | list (inner_data : List Data)
  | map (kwrds : List Str) (table : List (Str × Data))
  | value (v : TypeValue)
  | error (e : DataError)
  deriving Repr

/-- Strict lexicographic byte order, used only to keep the canonical
association-list model of `HashMap` sorted. -/
def strLt : Str → Str → Bool
  | [], [] => false
  | [], _ :: _ => true
  | _ :: _, [] => false
  | a :: as, b :: bs => a < b || (a = b && strLt as bs)

/-- `HashMap::insert` on the canonical model. -/
def mapInsert (k : Str) (v : Data) : List (Str × Data) → List (Str × Data)
  | [] => [(k, v)]
  | (k', v') :: rest =>
    if k = k' then (k, v) :: rest
    else if strLt k k' then (k, v) :: (k', v') :: rest
    else (k', v') :: mapInsert k v rest

/-- `HashMap::get` on the canonical model. -/
def mapGet (k : Str) : List (Str × Data) → Option Data
  | [] => none
  | (k', v') :: rest => if k = k' then some v' else mapGet k rest

/-- The keyword check of the first loop in `MapData::from_expr`
(`array_chunks` drops a trailing odd element). -/
def mapKwrdsOf : List Expr → Except DataError (List Str)
  | .atom ⟨.keyword k⟩ :: _ :: rest =>
    match mapKwrdsOf rest with
    | .ok ks => .ok (k :: ks)
    | .error e => .error e
  | _ :: _ :: _ =>
    .error ⟨"MapData has to be keyword pairs like '(:a 1 :b 2)", .invalidInput⟩
  | _ => .ok []

mutual

/-- `Data::from_expr`. -/
def dataFromExpr : Expr → DRes Data
  | .atom a =>
    match a.value with
    | .symbol _ =>
      .err (.data ⟨"cannot generate Data from the symbol", .invalidInput⟩)
    | v => .ok (.value v)
  | .list es =>
    match exprDataFromList es with
    | .ok (n, args) => .ok (.data n args)
    | .err e => .err e
    | .panic p => .panic p
  | .quote e =>
    match e with
    | .list exprs =>
      match exprs with
      | [] => .panic .indexOutOfBounds
      | e0 :: _ =>
        match e0 with
        | .atom ⟨.keyword _⟩ =>
          match mapKwrdsOf exprs with
          | .error er => .err (.data er)
          | .ok kw =>
            match dataMapFromExprs [] exprs with
            | .ok tb => .ok (.map kw tb)
            | .err er => .err er
            | .panic p => .panic p
        | .atom _ =>
          match dataListFromExprs exprs with
          | .ok ds => .ok (.list ds)
          | .err er => .err er
          | .panic p => .panic p
        | _ =>
          .err (.data ⟨"cannot generate Data from the expr", .invalidInput⟩)
    | .atom a => .ok (.value a.value)
    | .quote _ =>
      .err (.data ⟨"cannot generate Data from the expr", .invalidInput⟩)

/-- `ExprData::from_expr` after destructuring `Expr::List`. -/
def exprDataFromList (es : List Expr) : DRes (Str × List (Expr × Data)) :=
  if es.length < 1 then .err (.data ⟨"empty data", .invalidInput⟩)
  else if es.length % 2 ≠ 1 then
    .err (.data ⟨"rest data has to be odd length elements", .invalidInput⟩)
  else
    match es with
    | .atom ⟨.symbol s⟩ :: rest =>
      match pairsFromChunks rest with
      | .ok args => .ok (s, args)
      | .err e => .err e
      | .panic p => .panic p
    | _ => .err (.data ⟨"data's first element has to be symbol", .invalidInput⟩)

/-- The keyword/value pair loop of `ExprData::from_expr`
(`array_chunks` drops a trailing odd element). -/
def pairsFromChunks : List Expr → DRes (List (Expr × Data))
  | k :: v :: rest =>
    match k with
    | .atom ⟨.keyword _⟩ =>
      match dataFromExpr v with
      | .ok d =>
        match pairsFromChunks rest with
        | .ok ds => .ok ((k, d) :: ds)
        | .err e => .err e
        | .panic p => .panic p
      | .err e => .err e
      | .panic p => .panic p
    | _ => .err (.data ⟨"has to be keyword value pairs", .invalidInput⟩)
  | _ => .ok []

/-- The elementwise loop of `ListData::from_expr`. -/
def dataListFromExprs : List Expr → DRes (List Data)
  | [] => .ok []
  | e :: rest =>
    match dataFromExpr e with
    | .ok d =>
      match dataListFromExprs rest with
      | .ok ds => .ok (d :: ds)
      | .err er => .err er
      | .panic p => .panic p
    | .err er => .err er
    | .panic p => .panic p

/-- `DataMap::from_exprs`: successive `HashMap::insert`, so a duplicate key
keeps the value of its last occurrence (`array_chunks` drops a trailing odd
element). -/
def dataMapFromExprs (acc : List (Str × Data)) : List Expr → DRes (List (Str × Data))
  | k :: v :: rest =>
    match k with
    | .atom ⟨.keyword ks⟩ =>
      match dataFromExpr v with
      | .ok d => dataMapFromExprs (mapInsert ks d acc) rest
      | .err er => .err er
      | .panic p => .panic p
    | _ =>
      .err (.data ⟨"has to be keyword value pairs for making the data map", .invalidInput⟩)
  | _ => .ok acc

end

/-- `DataMap::new`: from already-converted `(Expr, Data)` pairs. -/
def dataMapNew (acc : List (Str × Data)) : List (Expr × Data) → Except DataError (List (Str × Data))
  | [] => .ok acc
  | (e, d) :: rest =>
    match e with
    | .atom ⟨.keyword k⟩ => dataMapNew (mapInsert k d acc) rest
    | _ => .error ⟨"has to be keyword value pairs for making the data map", .invalidInput⟩

/-- `ExprData::get`: `DataMap::new(&self.rest_args).unwrap()` then a hash
lookup; the `unwrap` panics when some key is not a keyword atom. -/
def edGet (rest_args : List (Expr × Data)) (k : Str) : DRes (Option Data) :=
  match dataMapNew [] rest_args with
  | .ok m => .ok (mapGet k m)
  | .error _ => .panic .unwrapFailed

/-- `<Data as GetAbleData>::get`. -/
def dataGet : Data → Str → DRes (Option Data)
  | .data _ args, k => edGet args k
  | .map _ tb, k => .ok (mapGet k tb)
  | _, _ => .ok none

/-! ### Serialization (`to_string`) -/

/-- Decimal digit bytes of a natural number, most significant first. -/
def natDigits (n : Nat) : List Nat := (Nat.digits 10 n).reverse.map (· + 48)

/-- Rust `i64` `Display`. -/
def intRender (n : Int) : Str :=
  if n < 0 then 45 :: natDigits (-n).toNat
  else if n = 0 then [48]
  else natDigits n.toNat

/-- `TypeValue::to_string`. -/
def typeValueToString : TypeValue → Str
  | .symbol s => s
  | .string s => [34] ++ s ++ [34]
  | .keyword s => [58] ++ s
  | .number n => intRender n

mutual

/-- `Expr::into_tokens` (also `Display for Expr`). -/
def exprIntoTokens : Expr → Str
  | .atom a => typeValueToString a.value
  | .list es => [40] ++ List.intercalate [32] (exprIntoTokensList es) ++ [41]
  | .quote e => [39] ++ exprIntoTokens e

/-- Elementwise `into_tokens` over a form's children. -/
def exprIntoTokensList : List Expr → List Str
  | [] => []
  | e :: es => exprIntoTokens e :: exprIntoTokensList es

end

/-- Debug rendering of a `DataError` (reached only through the
`unwrap_or(Data::Error(..))` fallback in `MapData::to_string`; its exact
text is irrelevant to every observable property proved here). -/
def dataErrorRender (_e : DataError) : Str := ascii "DataError"

mutual

/-- `Data::to_string` (with `ExprData`/`ListData`/`MapData::to_string`
inlined per constructor). -/
def dataToString : Data → Str
  | .data name args =>
    [40] ++ name ++ [32] ++ List.intercalate [32] (pairStrings args) ++ [41]
  | .list ds => [39, 40] ++ List.intercalate [32] (dataStrings ds) ++ [41]
  | .map kwrds tb => [39, 40] ++ List.intercalate [32] (kwRows kwrds tb) ++ [41]
  | .value v => typeValueToString v
  | .error e => dataErrorRender e

/-- The `rest_args` row renderer of `ExprData::to_string`. -/
def pairStrings : List (Expr × Data) → List Str
  | [] => []
  | (k, v) :: rest => (exprIntoTokens k ++ [32] ++ dataToString v) :: pairStrings rest

/-- The element renderer of `ListData::to_string`. -/
def dataStrings : List Data → List Str
  | [] => []
  | d :: rest => dataToString d :: dataStrings rest

/-- The per-keyword rows of `MapData::to_string`: each key in `kwrds` order,
with `map.get(k).unwrap_or(Data::Error(..)).to_string()`. -/
def kwRows : List Str → List (Str × Data) → List Str
  | [], _ => []
  | k :: ks, tb => ([58] ++ k ++ [32] ++ lookupRender k tb) :: kwRows ks tb

/-- `map.get(k).unwrap_or(Data::Error(corrupted)).to_string()`, with the
lookup unfolded so the recursion is structural in the table. -/
def lookupRender (k : Str) : List (Str × Data) → Str
  | [] => dataErrorRender ⟨"corrupted data", .corruptedData⟩
  | (k', v) :: rest => if k = k' then dataToString v else lookupRender k rest

end

/-- `<Data as FromStr>::from_str`: tokenize, route on the first token, read
one form, lift it through `Data::from_expr`. -/
def dataFromStr (cfg : Bool) (bs : List Nat) : DRes Data :=
  match tokenize bs with
  | none => .panic .unwrapFailed
  | some ts =>
    match ts with
    | [] => .err (.data ⟨"empty str", .invalidInput⟩)
    | t :: _ =>
      match dispatch (entryFuel ts) cfg t ts with
      | .error e => .err (.parser e)
      | .ok (e, _) => dataFromExpr e

/-! ## Claims about `Data::from_expr` and keyed access -/

/-- C10: `Data::from_expr` on a quoted empty list (source text `'()`)
indexes `exprs[0]` on an empty vector and panics; the Expr-to-Data
construction is not total. -/
theorem c10_from_expr_quoted_empty_list_panics :
    dataFromExpr (.quote (.list [])) = .panic .indexOutOfBounds := rfl

/-- `MapData::from_expr` applied to the inner list of a quoted form. -/
def mapDataFromList (es : List Expr) : DRes Data :=
  match mapKwrdsOf es with
  | .error er => .err (.data er)
  | .ok kw =>
    match dataMapFromExprs [] es with
    | .ok tb => .ok (.map kw tb)
    | .err er => .err er
    | .panic p => .panic p

/-- `ListData::from_expr` applied to the inner list of a quoted form. -/
def listDataFromList (es : List Expr) : DRes Data :=
  match dataListFromExprs es with
  | .ok ds => .ok (.list ds)
  | .err er => .err er
  | .panic p => .panic p

def isKeywordAtom : Expr → Bool
  | .atom ⟨.keyword _⟩ => true
  | _ => false

def isAtomExpr : Expr → Bool
  | .atom _ => true
  | _ => false

/-- C3 counterexample: for `'('1)` — a quoted list whose first element is a
quote, hence not a keyword — the claim predicts the elementwise List
conversion (which would succeed, second conjunct); the code instead
returns an `InvalidInput` error. -/
theorem c3_quoted_list_head_quote_is_error :
    dataFromExpr (.quote (.list [.quote (.atom ⟨.number 1⟩)])) =
      .err (.data ⟨"cannot generate Data from the expr", .invalidInput⟩) ∧
    dataListFromExprs [.quote (.atom ⟨.number 1⟩)] =
      .ok [.value (.number 1)] :=
  ⟨rfl, rfl⟩

/-- C3 (amended): on a quoted nonempty list, Data construction produces a
Map when the first element is a Keyword atom, the elementwise List
conversion when it is any other atom, and an `InvalidInput` error when the
first element is itself a list or a quote (the empty case panics, cf. the
C10 theorem). -/
theorem c3_quoted_list_dispatch (e0 : Expr) (rest : List Expr) :
    dataFromExpr (.quote (.list (e0 :: rest))) =
      if isKeywordAtom e0 then mapDataFromList (e0 :: rest)
      else if isAtomExpr e0 then listDataFromList (e0 :: rest)
      else .err (.data ⟨"cannot generate Data from the expr", .invalidInput⟩) := by
  match e0 with
  | .atom ⟨.keyword k⟩ => simp [dataFromExpr, isKeywordAtom, mapDataFromList]
  | .atom ⟨.symbol s⟩ => simp [dataFromExpr, isKeywordAtom, isAtomExpr, listDataFromList]
  | .atom ⟨.string s⟩ => simp [dataFromExpr, isKeywordAtom, isAtomExpr, listDataFromList]
  | .atom ⟨.number n⟩ => simp [dataFromExpr, isKeywordAtom, isAtomExpr, listDataFromList]
  | .list es => simp [dataFromExpr, isKeywordAtom, isAtomExpr]
  | .quote e => simp [dataFromExpr, isKeywordAtom, isAtomExpr]

/-! ### Keyed access (C2) -/

/-- The value of the last field whose key is `Keyword(k)` in a `rest_args`
sequence. -/
def lastKeyVal (k : Str) : List (Expr × Data) → Option Data
  | [] => none
  | (.atom ⟨.keyword ks⟩, d) :: rest =>
    match lastKeyVal k rest with
    | some v => some v
    | none => if ks = k then some d else none
  | _ :: rest => lastKeyVal k rest

/-- The value expression of the last chunk whose key is `Keyword(k)` in a
raw keyword/value expression sequence. -/
def lastChunkVal (k : Str) : List Expr → Option Expr
  | (.atom ⟨.keyword ks⟩) :: v :: rest =>
    (match lastChunkVal k rest with
     | some w => some w
     | none => if ks = k then some v else none)
  | _ :: _ :: rest => lastChunkVal k rest
  | _ => none

def allKeysKeywords : List (Expr × Data) → Bool
  | [] => true
  | (.atom ⟨.keyword _⟩, _) :: rest => allKeysKeywords rest
  | _ => false

theorem mapGet_insert_self (k : Str) (v : Data) (m : List (Str × Data)) :
    mapGet k (mapInsert k v m) = some v := by
  induction m with
  | nil => simp [mapInsert, mapGet]
  | cons p rest ih =>
    rcases p with ⟨k', v'⟩
    by_cases h : k = k'
    · simp [mapInsert, h, mapGet]
    · by_cases h2 : strLt k k'
      · simp [mapInsert, h, h2, mapGet]
      · simp [mapInsert, h, h2, mapGet, ih]

theorem mapGet_insert_other {k k' : Str} (h : k ≠ k') (v : Data)
    (m : List (Str × Data)) : mapGet k (mapInsert k' v m) = mapGet k m := by
  induction m with
  | nil => simp [mapInsert, mapGet, h]
  | cons p rest ih =>
    rcases p with ⟨k'', v''⟩
    by_cases h1 : k' = k''
    · subst h1
      simp [mapInsert, mapGet, h]
    · by_cases h2 : strLt k' k''
      · simp [mapInsert, h1, h2, mapGet, h]
      · simp [mapInsert, h1, h2, mapGet, ih]

theorem dataMapNew_get :
    ∀ (args : List (Expr × Data)) (acc tb : List (Str × Data)),
    dataMapNew acc args = .ok tb → ∀ k,
    mapGet k tb =
      (match lastKeyVal k args with
       | some v => some v
       | none => mapGet k acc) := by
  intro args
  induction args with
  | nil =>
    intro acc tb h k
    simp only [dataMapNew] at h
    injection h with h
    subst h
    simp [lastKeyVal]
  | cons p rest ih =>
    intro acc tb h k
    rcases p with ⟨e, d⟩
    match e with
    | .atom ⟨.keyword ks⟩ =>
      simp only [dataMapNew] at h
      have := ih (mapInsert ks d acc) tb h k
      rw [this]
      simp only [lastKeyVal]
      cases hl : lastKeyVal k rest with
      | some v => simp [hl]
      | none =>
        simp only [hl]
        by_cases hk : ks = k
        · subst hk
          simp [mapGet_insert_self]
        · simp [hk, mapGet_insert_other (fun hh => hk hh.symm)]
    | .atom ⟨.symbol s⟩ => simp [dataMapNew] at h
    | .atom ⟨.string s⟩ => simp [dataMapNew] at h
    | .atom ⟨.number n⟩ => simp [dataMapNew] at h
    | .list es => simp [dataMapNew] at h
    | .quote e' => simp [dataMapNew] at h

theorem dataMapNew_total :
    ∀ (args : List (Expr × Data)) (acc : List (Str × Data)),
    allKeysKeywords args = true → ∃ tb, dataMapNew acc args = .ok tb := by
  intro args
  induction args with
  | nil => intro acc _; exact ⟨acc, rfl⟩
  | cons p rest ih =>
    intro acc h
    rcases p with ⟨e, d⟩
    match e with
    | .atom ⟨.keyword ks⟩ =>
      simp only [allKeysKeywords] at h
      exact ih (mapInsert ks d acc) h
    | .atom ⟨.symbol s⟩ => simp [allKeysKeywords] at h
    | .atom ⟨.string s⟩ => simp [allKeysKeywords] at h
    | .atom ⟨.number n⟩ => simp [allKeysKeywords] at h
    | .list es => simp [allKeysKeywords] at h
    | .quote e' => simp [allKeysKeywords] at h

/-- C2 counterexample: on the record parsed from `(f :a 1 :a 2)`, whose two
fields both have key `:a`, `get("a")` returns the value of the LAST field
(`2`), not the first (`1`). -/
theorem c2_get_returns_last_not_first :
    (match dataFromStr true (ascii "(f :a 1 :a 2)") with
     | .ok d => dataGet d (ascii "a")
     | _ => .panic .unwrapFailed) = .ok (some (.value (.number 2))) ∧
    Data.value (.number 2) ≠ Data.value (.number 1) :=
  ⟨rfl, by simp⟩

theorem dataMapFromExprs_get (k : Str) :
    ∀ (es : List Expr) (acc tb : List (Str × Data)),
    dataMapFromExprs acc es = .ok tb →
    (∀ v, lastChunkVal k es = some v →
       ∃ d, dataFromExpr v = .ok d ∧ mapGet k tb = some d) ∧
    (lastChunkVal k es = none → mapGet k tb = mapGet k acc)
  | [], acc, tb, h => by
    simp only [dataMapFromExprs] at h
    injection h with h
    subst h
    exact ⟨fun v hv => by simp [lastChunkVal] at hv, fun _ => rfl⟩
  | [e], acc, tb, h => by
    simp only [dataMapFromExprs] at h
    injection h with h
    subst h
    refine ⟨?_, fun _ => rfl⟩
    intro v hv
    cases e with
    | atom a =>
      rcases a with ⟨va⟩
      cases va <;> simp [lastChunkVal] at hv
    | list es2 => simp [lastChunkVal] at hv
    | quote e2 => simp [lastChunkVal] at hv
  | e1 :: v0 :: rest, acc, tb, h => by
    match e1 with
    | .atom ⟨.keyword ks⟩ =>
      simp only [dataMapFromExprs] at h
      cases hd : dataFromExpr v0 with
      | ok d =>
        rw [hd] at h
        have ih := dataMapFromExprs_get k rest (mapInsert ks d acc) tb h
        constructor
        · intro v hv
          simp only [lastChunkVal] at hv
          cases hl : lastChunkVal k rest with
          | some w =>
            rw [hl] at hv
            simp only at hv
            injection hv with hv
            subst hv
            exact ih.1 _ hl
          | none =>
            rw [hl] at hv
            simp only at hv
            by_cases hk : ks = k
            · rw [if_pos hk] at hv
              injection hv with hv
              subst hv
              subst hk
              refine ⟨d, hd, ?_⟩
              rw [ih.2 hl, mapGet_insert_self]
            · rw [if_neg hk] at hv
              exact absurd hv (by simp)
        · intro hv
          simp only [lastChunkVal] at hv
          cases hl : lastChunkVal k rest with
          | some w => rw [hl] at hv; simp at hv
          | none =>
            rw [hl] at hv
            simp only at hv
            by_cases hk : ks = k
            · rw [if_pos hk] at hv; simp at hv
            · rw [ih.2 hl, mapGet_insert_other (fun hh => hk hh.symm)]
      | err er => rw [hd] at h; simp at h
      | panic p => rw [hd] at h; simp at h
    | .atom ⟨.symbol s⟩ => simp [dataMapFromExprs] at h
    | .atom ⟨.string s⟩ => simp [dataMapFromExprs] at h
    | .atom ⟨.number n⟩ => simp [dataMapFromExprs] at h
    | .list es' => simp [dataMapFromExprs] at h
    | .quote e' => simp [dataMapFromExprs] at h

/-- From a successful Map conversion, recover the success of the underlying
`DataMap::from_exprs` run. -/
theorem map_conv_success {es : List Expr} {kw : List Str} {tb : List (Str × Data)}
    (h : dataFromExpr (.quote (.list es)) = .ok (.map kw tb)) :
    dataMapFromExprs [] es = .ok tb := by
  match es with
  | [] => simp [dataFromExpr] at h
  | e0 :: rest =>
    match e0 with
    | .atom ⟨.keyword k0⟩ =>
      simp only [dataFromExpr] at h
      cases hkw : mapKwrdsOf (Expr.atom ⟨.keyword k0⟩ :: rest) with
      | error er => rw [hkw] at h; simp at h
      | ok kws =>
        rw [hkw] at h
        cases htb : dataMapFromExprs [] (Expr.atom ⟨.keyword k0⟩ :: rest) with
        | ok tb' =>
          rw [htb] at h
          simp only at h
          injection h with h
          injection h with h1 h2
          rw [h2]
        | err er => rw [htb] at h; simp at h
        | panic p => rw [htb] at h; simp at h
    | .atom ⟨.symbol s⟩ =>
      simp only [dataFromExpr] at h
      cases hc : dataListFromExprs (Expr.atom ⟨.symbol s⟩ :: rest) with
      | ok ds => rw [hc] at h; simp at h
      | err er => rw [hc] at h; simp at h
      | panic p => rw [hc] at h; simp at h
    | .atom ⟨.string s⟩ =>
      simp only [dataFromExpr] at h
      cases hc : dataListFromExprs (Expr.atom ⟨.string s⟩ :: rest) with
      | ok ds => rw [hc] at h; simp at h
      | err er => rw [hc] at h; simp at h
      | panic p => rw [hc] at h; simp at h
    | .atom ⟨.number n⟩ =>
      simp only [dataFromExpr] at h
      cases hc : dataListFromExprs (Expr.atom ⟨.number n⟩ :: rest) with
      | ok ds => rw [hc] at h; simp at h
      | err er => rw [hc] at h; simp at h
      | panic p => rw [hc] at h; simp at h
    | .list es' => simp [dataFromExpr] at h
    | .quote e' => simp [dataFromExpr] at h

/-- C2 (amended): on a Record whose field keys are all keyword atoms,
`get(k)` returns the value paired with the LAST field in insertion order
whose key is `Keyword(k)` (or nothing when no field has key `k`); a Map
constructed from a quoted keyword-pair list behaves the same (the last
occurrence of a key wins); on every other `Data` variant `get` always
returns nothing. -/
theorem c2_get_semantics :
    (∀ (args : List (Expr × Data)) (k : Str), allKeysKeywords args = true →
       edGet args k = .ok (lastKeyVal k args)) ∧
    (∀ (es : List Expr) (kw : List Str) (tb : List (Str × Data)) (k : Str),
       dataFromExpr (.quote (.list es)) = .ok (.map kw tb) →
       (∀ v, lastChunkVal k es = some v →
          ∃ d, dataFromExpr v = .ok d ∧ mapGet k tb = some d) ∧
       (lastChunkVal k es = none → mapGet k tb = none)) ∧
    (∀ (v : TypeValue) (k : Str), dataGet (.value v) k = .ok none) ∧
    (∀ (ds : List Data) (k : Str), dataGet (.list ds) k = .ok none) ∧
    (∀ (e : DataError) (k : Str), dataGet (.error e) k = .ok none) := by
  refine ⟨?_, ?_, fun _ _ => rfl, fun _ _ => rfl, fun _ _ => rfl⟩
  · intro args k h
    obtain ⟨tb, htb⟩ := dataMapNew_total args [] h
    have hg := dataMapNew_get args [] tb htb k
    simp only [edGet, htb]
    rw [hg]
    cases lastKeyVal k args <;> simp [mapGet]
  · intro es kw tb k hconv
    have hrun := map_conv_success hconv
    have main := dataMapFromExprs_get k es [] tb hrun
    exact ⟨main.1, fun hn => by rw [main.2 hn]; rfl⟩

/-- C2 witness: the amended theorem's record conjunct applied to the
duplicate-key record parsed from `(f :a 1 :a 2)`. -/
theorem c2_get_semantics_witness :
    edGet [(.atom ⟨.keyword (ascii "a")⟩, .value (.number 1)),
           (.atom ⟨.keyword (ascii "a")⟩, .value (.number 2))] (ascii "a") =
      .ok (lastKeyVal (ascii "a")
            [(.atom ⟨.keyword (ascii "a")⟩, .value (.number 1)),
             (.atom ⟨.keyword (ascii "a")⟩, .value (.number 2))]) :=
  c2_get_semantics.1 _ (ascii "a") (by rfl)

/-! ## Generator (src/generators/lisp-rpc-rust-generator) -/

inductive RPCDataType where
  | map
  | list
  | data
  deriving Repr, DecidableEq

/-- Uppercase an ASCII letter byte (`to_ascii_uppercase`). -/
def asciiUpper (b : Nat) : Nat := if 97 ≤ b ∧ b ≤ 122 then b - 32 else b

/-- Uppercase the first code point of a segment (the first byte of a
multi-byte code point is ≥ 0xC2 and unaffected by `to_ascii_uppercase`). -/
def pascalSegment : Str → Str
  | [] => []
  | c :: rest => asciiUpper c :: rest

/-- `kebab_to_pascal_case` (generator lib.rs). -/
def kebab_to_pascal_case (s : Str) : Str :=
  ((s.splitOn 45).map pascalSegment).flatten

/-- `kebab_to_snake_case` (generator lib.rs). -/
def kebab_to_snake_case (s : Str) : Str :=
  s.map fun b => if b = 45 then 95 else b

/-- `type_translate` (generator lib.rs). -/
def type_translate (sym : Str) : Str :=
  if kebab_to_pascal_case sym = ascii "Number" then ascii "i64"
  else kebab_to_pascal_case sym

structure GeneratedField where
  name : Str
  field_type : Str
  comment : Option Str
  key_name : Str
  deriving Repr, DecidableEq

/-- `GeneratedField::new`. -/
def GeneratedField.new (key_name field_type : Str) (comment : Option Str) :
    GeneratedField :=
  ⟨kebab_to_snake_case key_name, type_translate field_type, comment, key_name⟩

structure GeneratedStruct where
  name : Str
  derived_traits : Option (List Str)
  fields : List GeneratedField
  comment : Option Str
  data_name : Str
  rpc_type : RPCDataType
  deriving Repr, DecidableEq

/-- `GeneratedStruct::new`. -/
def GeneratedStruct.new (data_name : Str) (derived_traits : Option (List Str))
    (fields : List GeneratedField) (comment : Option Str) (ty : RPCDataType) :
    GeneratedStruct :=
  ⟨kebab_to_pascal_case data_name, derived_traits, fields, comment, data_name, ty⟩

structure DefMsg where
  msg_name : Str
  rest_expr : List Expr
  msg_ty : RPCDataType
  deriving Repr

/-- Result of generator operations (`anyhow::Result`, plus panics). -/
inductive GRes (α : Type) where
  | ok (a : α)
  | err (msg : String)
  | panic (p : PanicKind)
  deriving Repr

/-- `?` propagation for `GRes`. -/
def GRes.bind {α β : Type} : GRes α → (α → GRes β) → GRes β
  | .ok a, fn => fn a
  | .err m, _ => .err m
  | .panic p, _ => .panic p

/-- The `array_chunks().all(..)` validation of `DefMsg::new`: every chunk's
key must be a Keyword atom; a trailing odd element is skipped by
`array_chunks` and so never checked. -/
def defMsgPairsOk : List Expr → Bool
  | k :: _ :: rest => isKeywordAtom k && defMsgPairsOk rest
  | _ => true

/-- `DefMsg::new`. -/
def DefMsg.new (msg_name : Str) (rest_expr : List Expr) (ty : RPCDataType) :
    GRes DefMsg :=
  if defMsgPairsOk rest_expr then .ok ⟨msg_name, rest_expr, ty⟩
  else .err "parsing failed, msg name arguments should be keyword-value pairs"

/-- `DefMsg::from_expr` (with `if_def_msg_expr` inlined; `&e[0]` and
`&rest_expr[0]` panic on out-of-bounds). -/
def defMsgFromExpr : Expr → GRes DefMsg
  | .list [] => .panic .indexOutOfBounds
  | .list (e0 :: rest) =>
    match e0 with
    | .atom ⟨.symbol s⟩ =>
      if s = ascii "def-msg" then
        match rest with
        | [] => .panic .indexOutOfBounds
        | n :: rest2 =>
          match n with
          | .atom ⟨.symbol nm⟩ => DefMsg.new nm rest2 .data
          | _ => .err "parsing failed, msg name should be symbol"
      else .err "parsing failed, the first symbol should be def-msg"
    | _ => .err "parsing failed, the first symbol should be def-msg"
  | _ => .err "parsing failed, the first symbol should be def-msg"

/-- The body of the anonymous-form branch of `DefMsg::create_gen_structs`,
abstracted over the two recursive results (`inres`: the inner message's
structs/fields, `acc`: the remaining chunks): the `DefMsg::new` validation,
the keyword-head (Map) case, and the `(list 'T)` case. -/
def cgsNestedStep (msg_name f : Str) (e0 e1 : Expr) (tail : List Expr)
    (inres acc : GRes (List GeneratedStruct × List GeneratedField)) :
    GRes (List GeneratedStruct × List GeneratedField) :=
  if isKeywordAtom e0 then
    if defMsgPairsOk (e0 :: e1 :: tail) then
      inres.bind fun ir =>
        acc.bind fun ac =>
          .ok ((ir.1 ++
                 [GeneratedStruct.new (msg_name ++ [45] ++ f) none ir.2
                    none .map]) ++ ac.1,
               GeneratedField.new f (msg_name ++ [45] ++ f) none :: ac.2)
    else .err "parsing failed, msg name arguments should be keyword-value pairs"
  else
    match e0, e1 with
    | .atom ⟨.symbol l⟩, .quote (.atom ⟨.symbol t⟩) =>
      if l = ascii "list" then
        acc.bind fun ac =>
          .ok (ac.1,
               GeneratedField.new f (ascii "Vec<" ++ type_translate t ++ ascii ">")
                 none :: ac.2)
      else .err "create gen structs failed, anonymity type can only be the map or list"
    | _, _ =>
      .err "create gen structs failed, anonymity type can only be the map or list"

/-- The pair loop of `DefMsg::create_gen_structs`, returning the auxiliary
structs (in emission order) and the parent's fields; the recursive
`DefMsg::new(..)?.create_gen_structs()?` on a nested form goes through
`cgsNestedStep`.  `array_chunks` drops a trailing odd element; the
`(&inner_exprs[0], &inner_exprs[1])` indexing panics when the nested form
has fewer than two elements. -/
def cgsPairs (msg_name : Str) : List Expr →
    GRes (List GeneratedStruct × List GeneratedField)
  | k :: v :: rest =>
    match k, v with
    | .atom ⟨.keyword f⟩, .quote (.atom ⟨.symbol t⟩) =>
      (cgsPairs msg_name rest).bind fun acc =>
        .ok (acc.1, GeneratedField.new f t none :: acc.2)
    | .atom ⟨.keyword _f⟩, .quote (.list []) => .panic .indexOutOfBounds
    | .atom ⟨.keyword _f⟩, .quote (.list [_]) => .panic .indexOutOfBounds
    | .atom ⟨.keyword f⟩, .quote (.list (e0 :: e1 :: tail)) =>
      cgsNestedStep msg_name f e0 e1 tail
        (cgsPairs (msg_name ++ [45] ++ f) (e0 :: e1 :: tail))
        (cgsPairs msg_name rest)
    | .atom ⟨.keyword _f⟩, .list [] => .panic .indexOutOfBounds
    | .atom ⟨.keyword _f⟩, .list [_] => .panic .indexOutOfBounds
    | .atom ⟨.keyword f⟩, .list (e0 :: e1 :: tail) =>
      cgsNestedStep msg_name f e0 e1 tail
        (cgsPairs (msg_name ++ [45] ++ f) (e0 :: e1 :: tail))
        (cgsPairs msg_name rest)
    | _, _ =>
      .err "create gen structs failed, arguments has to be the keywords-value pair"
  | _ => .ok ([], [])
termination_by l => sizeOf l

/-- `DefMsg::create_gen_structs`: auxiliaries first, the struct for the
message itself appended last. -/
def DefMsg.create_gen_structs (m : DefMsg) : GRes (List GeneratedStruct) :=
  (cgsPairs m.msg_name m.rest_expr).bind fun acc =>
    .ok (acc.1 ++ [GeneratedStruct.new m.msg_name none acc.2 none m.msg_ty])

structure DefRPC where
  rpc_name : Str
  args : List Expr
  return_value : Option Str
  deriving Repr

/-- The pair loop of `DefRPC::create_gen_structs`: a scalar reference
field, or — for ANY (possibly quoted) list value — the anonymous-map
expansion through `DefMsg::new(.., RPCDataType::Map)?.create_gen_structs()?`
(inlined as the `DefMsg::new` validation followed by `cgsPairs` and the
inner parent struct). -/
def rpcPairs (rpc_name : Str) : List Expr →
    GRes (List GeneratedStruct × List GeneratedField)
  | k :: v :: rest =>
    match k, v with
    | .atom ⟨.keyword f⟩, .quote (.atom ⟨.symbol t⟩) =>
      (rpcPairs rpc_name rest).bind fun acc =>
        .ok (acc.1, GeneratedField.new f t none :: acc.2)
    | .atom ⟨.keyword f⟩, .quote (.list inner) =>
      if defMsgPairsOk inner then
        (cgsPairs (rpc_name ++ [45] ++ f) inner).bind fun inres =>
          (rpcPairs rpc_name rest).bind fun acc =>
            .ok ((inres.1 ++
                   [GeneratedStruct.new (rpc_name ++ [45] ++ f) none inres.2
                      none .map]) ++ acc.1,
                 GeneratedField.new f (rpc_name ++ [45] ++ f) none :: acc.2)
      else .err "parsing failed, msg name arguments should be keyword-value pairs"
    | .atom ⟨.keyword f⟩, .list inner =>
      if defMsgPairsOk inner then
        (cgsPairs (rpc_name ++ [45] ++ f) inner).bind fun inres =>
          (rpcPairs rpc_name rest).bind fun acc =>
            .ok ((inres.1 ++
                   [GeneratedStruct.new (rpc_name ++ [45] ++ f) none inres.2
                      none .map]) ++ acc.1,
                 GeneratedField.new f (rpc_name ++ [45] ++ f) none :: acc.2)
      else .err "parsing failed, msg name arguments should be keyword-value pairs"
    | _, _ =>
      .err "create gen structs failed, arguments has to be the keywords-value pair"
  | _ => .ok ([], [])
termination_by l => sizeOf l

/-- `DefRPC::create_gen_structs`: auxiliaries first, the struct for the rpc
itself (always `RPCDataType::Data`) appended last. -/
def DefRPC.create_gen_structs (r : DefRPC) : GRes (List GeneratedStruct) :=
  (rpcPairs r.rpc_name r.args).bind fun acc =>
    .ok (acc.1 ++ [GeneratedStruct.new r.rpc_name none acc.2 none .data])

/-! ## C4/C5: anonymous expansion and shape validation -/

/-- `array_chunks::<2>` as a pure pairing (the remainder is dropped). -/
def chunk2 {α : Type} : List α → List (α × α)
  | a :: b :: rest => (a, b) :: chunk2 rest
  | _ => []

/-- The inner expression list of a (possibly quoted) list-shaped field
value — the shapes that take the anonymous-expansion branch. -/
def nestedMapArg : Expr → Option (List Expr)
  | .quote (.list inner) => some inner
  | .list inner => some inner
  | _ => none


theorem GRes.bind_ok {α β : Type} {x : GRes α} {fn : α → GRes β} {b : β}
    (h : x.bind fn = .ok b) : ∃ a, x = .ok a ∧ fn a = .ok b := by
  cases x with
  | ok a => exact ⟨a, rfl, h⟩
  | err m => simp [GRes.bind] at h
  | panic p => simp [GRes.bind] at h

theorem cgsPairs_spec (msg_name : Str) :
    ∀ (l : List Expr) (structs : List GeneratedStruct)
      (fields : List GeneratedField),
    cgsPairs msg_name l = .ok (structs, fields) →
    ∀ (f : Str) (v : Expr), (Expr.atom ⟨.keyword f⟩, v) ∈ chunk2 l →
    ∀ (e0 e1 : Expr) (tl : List Expr), nestedMapArg v = some (e0 :: e1 :: tl) →
    isKeywordAtom e0 = true →
    GeneratedField.new f (msg_name ++ [45] ++ f) none ∈ fields ∧
    ∃ g ∈ structs, g.data_name = msg_name ++ [45] ++ f ∧ g.rpc_type = .map
  | [], _, _, h, f, v, hmem, _, _, _, _, _ => by simp [chunk2] at hmem
  | [x], _, _, h, f, v, hmem, _, _, _, _, _ => by simp [chunk2] at hmem
  | k :: v' :: rest, structs, fields, h, f, v, hmem, e0, e1, tl, hn, hkw => by
    simp only [chunk2, List.mem_cons] at hmem
    match k, v' with
    | .atom ⟨.keyword kf⟩, .quote (.atom ⟨.symbol t⟩) =>
      simp only [cgsPairs] at h
      obtain ⟨acc, hr, hok⟩ := GRes.bind_ok h
      injection hok with hok
      cases hok
      rcases hmem with heq | htail
      · have hv : v = .quote (.atom ⟨.symbol t⟩) := congrArg Prod.snd heq
        subst hv
        simp [nestedMapArg] at hn
      · obtain ⟨h1, g, hg, hd, hrt⟩ :=
          cgsPairs_spec msg_name rest acc.1 acc.2 (by rw [hr]) f v htail e0 e1 tl hn hkw
        exact ⟨List.mem_cons_of_mem _ h1, g, hg, hd, hrt⟩
    | .atom ⟨.keyword kf⟩, .quote (.list []) =>
      simp only [cgsPairs] at h
      exact absurd h (by simp)
    | .atom ⟨.keyword kf⟩, .quote (.list [x]) =>
      unfold cgsPairs at h
      simp at h
    | .atom ⟨.keyword kf⟩, .quote (.list (i0 :: i1 :: itl)) =>
      simp only [cgsPairs, cgsNestedStep] at h
      by_cases hkw0 : isKeywordAtom i0
      · rw [if_pos hkw0] at h
        by_cases hok2 : defMsgPairsOk (i0 :: i1 :: itl)
        · rw [if_pos hok2] at h
          obtain ⟨inres, hin, h2⟩ := GRes.bind_ok h
          obtain ⟨acc, hr, h3⟩ := GRes.bind_ok h2
          injection h3 with h3
          cases h3
          rcases hmem with heq | htail
          · have hf : f = kf := by
              have h4 := congrArg Prod.fst heq
              simp only at h4
              injection h4 with h5
              injection h5 with h6
              injection h6
            subst hf
            refine ⟨List.mem_cons_self _ _, ?_⟩
            exact ⟨GeneratedStruct.new (msg_name ++ [45] ++ f) none inres.2 none .map,
              List.mem_append_left _ (List.mem_append_right _ (by simp)), rfl, rfl⟩
          · obtain ⟨h1, g, hg, hd, hrt⟩ :=
              cgsPairs_spec msg_name rest acc.1 acc.2 (by rw [hr]) f v htail e0 e1 tl hn hkw
            exact ⟨List.mem_cons_of_mem _ h1, g, List.mem_append_right _ hg, hd, hrt⟩
        · rw [if_neg hok2] at h
          exact absurd h (by simp)
      · rw [if_neg hkw0] at h
        match i0, i1 with
        | .atom ⟨.symbol ls⟩, .quote (.atom ⟨.symbol t⟩) =>
          simp only at h
          by_cases hl : ls = ascii "list"
          · rw [if_pos hl] at h
            obtain ⟨acc, hr, hok⟩ := GRes.bind_ok h
            injection hok with hok
            cases hok
            rcases hmem with heq | htail
            · have hv : v = .quote (.list
                  (Expr.atom ⟨.symbol ls⟩ :: .quote (.atom ⟨.symbol t⟩) :: itl)) :=
                congrArg Prod.snd heq
              subst hv
              simp only [nestedMapArg] at hn
              injection hn with hn
              injection hn with hn1 hn2
              rw [← hn1] at hkw
              simp [isKeywordAtom] at hkw
            · obtain ⟨h1, g, hg, hd, hrt⟩ :=
                cgsPairs_spec msg_name rest acc.1 acc.2 (by rw [hr]) f v htail e0 e1 tl hn hkw
              exact ⟨List.mem_cons_of_mem _ h1, g, hg, hd, hrt⟩
          · rw [if_neg hl] at h
            exact absurd h (by simp)
        | .atom ⟨.symbol ls⟩, .atom a2 => simp at h
        | .atom ⟨.symbol ls⟩, .list es2 => simp at h
        | .atom ⟨.symbol ls⟩, .quote (.atom ⟨.string s2⟩) => simp at h
        | .atom ⟨.symbol ls⟩, .quote (.atom ⟨.keyword s2⟩) => simp at h
        | .atom ⟨.symbol ls⟩, .quote (.atom ⟨.number n2⟩) => simp at h
        | .atom ⟨.symbol ls⟩, .quote (.list es2) => simp at h
        | .atom ⟨.symbol ls⟩, .quote (.quote e2) => simp at h
        | .atom ⟨.string s1⟩, _ => simp at h
        | .atom ⟨.number n1⟩, _ => simp at h
        | .atom ⟨.keyword k1⟩, _ => simp [isKeywordAtom] at hkw0
        | .list es1, _ => simp at h
        | .quote e1', _ => simp at h
    | .atom ⟨.keyword kf⟩, .list [] =>
      simp only [cgsPairs] at h
      exact absurd h (by simp)
    | .atom ⟨.keyword kf⟩, .list [x] =>
      unfold cgsPairs at h
      simp at h
    | .atom ⟨.keyword kf⟩, .list (i0 :: i1 :: itl) =>
      simp only [cgsPairs, cgsNestedStep] at h
      by_cases hkw0 : isKeywordAtom i0
      · rw [if_pos hkw0] at h
        by_cases hok2 : defMsgPairsOk (i0 :: i1 :: itl)
        · rw [if_pos hok2] at h
          obtain ⟨inres, hin, h2⟩ := GRes.bind_ok h
          obtain ⟨acc, hr, h3⟩ := GRes.bind_ok h2
          injection h3 with h3
          cases h3
          rcases hmem with heq | htail
          · have hf : f = kf := by
              have h4 := congrArg Prod.fst heq
              simp only at h4
              injection h4 with h5
              injection h5 with h6
              injection h6
            subst hf
            refine ⟨List.mem_cons_self _ _, ?_⟩
            exact ⟨GeneratedStruct.new (msg_name ++ [45] ++ f) none inres.2 none .map,
              List.mem_append_left _ (List.mem_append_right _ (by simp)), rfl, rfl⟩
          · obtain ⟨h1, g, hg, hd, hrt⟩ :=
              cgsPairs_spec msg_name rest acc.1 acc.2 (by rw [hr]) f v htail e0 e1 tl hn hkw
            exact ⟨List.mem_cons_of_mem _ h1, g, List.mem_append_right _ hg, hd, hrt⟩
        · rw [if_neg hok2] at h
          exact absurd h (by simp)
      · rw [if_neg hkw0] at h
        match i0, i1 with
        | .atom ⟨.symbol ls⟩, .quote (.atom ⟨.symbol t⟩) =>
          simp only at h
          by_cases hl : ls = ascii "list"
          · rw [if_pos hl] at h
            obtain ⟨acc, hr, hok⟩ := GRes.bind_ok h
            injection hok with hok
            cases hok
            rcases hmem with heq | htail
            · have hv : v = .list
                  (Expr.atom ⟨.symbol ls⟩ :: .quote (.atom ⟨.symbol t⟩) :: itl) :=
                congrArg Prod.snd heq
              subst hv
              simp only [nestedMapArg] at hn
              injection hn with hn
              injection hn with hn1 hn2
              rw [← hn1] at hkw
              simp [isKeywordAtom] at hkw
            · obtain ⟨h1, g, hg, hd, hrt⟩ :=
                cgsPairs_spec msg_name rest acc.1 acc.2 (by rw [hr]) f v htail e0 e1 tl hn hkw
              exact ⟨List.mem_cons_of_mem _ h1, g, hg, hd, hrt⟩
          · rw [if_neg hl] at h
            exact absurd h (by simp)
        | .atom ⟨.symbol ls⟩, .atom a2 => simp at h
        | .atom ⟨.symbol ls⟩, .list es2 => simp at h
        | .atom ⟨.symbol ls⟩, .quote (.atom ⟨.string s2⟩) => simp at h
        | .atom ⟨.symbol ls⟩, .quote (.atom ⟨.keyword s2⟩) => simp at h
        | .atom ⟨.symbol ls⟩, .quote (.atom ⟨.number n2⟩) => simp at h
        | .atom ⟨.symbol ls⟩, .quote (.list es2) => simp at h
        | .atom ⟨.symbol ls⟩, .quote (.quote e2) => simp at h
        | .atom ⟨.string s1⟩, _ => simp at h
        | .atom ⟨.number n1⟩, _ => simp at h
        | .atom ⟨.keyword k1⟩, _ => simp [isKeywordAtom] at hkw0
        | .list es1, _ => simp at h
        | .quote e1', _ => simp at h
    | .atom ⟨.keyword kf⟩, .quote (.atom ⟨.string s2⟩) => simp [cgsPairs] at h
    | .atom ⟨.keyword kf⟩, .quote (.atom ⟨.keyword s2⟩) => simp [cgsPairs] at h
    | .atom ⟨.keyword kf⟩, .quote (.atom ⟨.number n2⟩) => simp [cgsPairs] at h
    | .atom ⟨.keyword kf⟩, .quote (.quote e2) => simp [cgsPairs] at h
    | .atom ⟨.keyword kf⟩, .atom a2 => simp [cgsPairs] at h
    | .atom ⟨.symbol s1⟩, _ => simp [cgsPairs] at h
    | .atom ⟨.string s1⟩, _ => simp [cgsPairs] at h
    | .atom ⟨.number n1⟩, _ => simp [cgsPairs] at h
    | .list es1, _ => simp [cgsPairs] at h
    | .quote e1', _ => simp [cgsPairs] at h

theorem rpcPairs_spec (rpc_name : Str) :
    ∀ (l : List Expr) (structs : List GeneratedStruct)
      (fields : List GeneratedField),
    rpcPairs rpc_name l = .ok (structs, fields) →
    ∀ (f : Str) (v : Expr), (Expr.atom ⟨.keyword f⟩, v) ∈ chunk2 l →
    ∀ (inner : List Expr), nestedMapArg v = some inner →
    GeneratedField.new f (rpc_name ++ [45] ++ f) none ∈ fields ∧
    ∃ g ∈ structs, g.data_name = rpc_name ++ [45] ++ f ∧ g.rpc_type = .map
  | [], _, _, h, f, v, hmem, _, _ => by simp [chunk2] at hmem
  | [x], _, _, h, f, v, hmem, _, _ => by simp [chunk2] at hmem
  | k :: v' :: rest, structs, fields, h, f, v, hmem, inner, hn => by
    simp only [chunk2, List.mem_cons] at hmem
    match k, v' with
    | .atom ⟨.keyword kf⟩, .quote (.atom ⟨.symbol t⟩) =>
      simp only [rpcPairs] at h
      obtain ⟨acc, hr, hok⟩ := GRes.bind_ok h
      injection hok with hok
      cases hok
      rcases hmem with heq | htail
      · have hv : v = .quote (.atom ⟨.symbol t⟩) := congrArg Prod.snd heq
        subst hv
        simp [nestedMapArg] at hn
      · obtain ⟨h1, g, hg, hd, hrt⟩ :=
          rpcPairs_spec rpc_name rest acc.1 acc.2 (by rw [hr]) f v htail inner hn
        exact ⟨List.mem_cons_of_mem _ h1, g, hg, hd, hrt⟩
    | .atom ⟨.keyword kf⟩, .quote (.list inner') =>
      simp only [rpcPairs] at h
      by_cases hok2 : defMsgPairsOk inner'
      · rw [if_pos hok2] at h
        obtain ⟨inres, hin, h2⟩ := GRes.bind_ok h
        obtain ⟨acc, hr, h3⟩ := GRes.bind_ok h2
        injection h3 with h3
        cases h3
        rcases hmem with heq | htail
        · have hf : f = kf := by
            have h4 := congrArg Prod.fst heq
            simp only at h4
            injection h4 with h5
            injection h5 with h6
            injection h6
          subst hf
          refine ⟨List.mem_cons_self _ _, ?_⟩
          exact ⟨GeneratedStruct.new (rpc_name ++ [45] ++ f) none inres.2 none .map,
            List.mem_append_left _ (List.mem_append_right _ (by simp)), rfl, rfl⟩
        · obtain ⟨h1, g, hg, hd, hrt⟩ :=
            rpcPairs_spec rpc_name rest acc.1 acc.2 (by rw [hr]) f v htail inner hn
          exact ⟨List.mem_cons_of_mem _ h1, g, List.mem_append_right _ hg, hd, hrt⟩
      · rw [if_neg hok2] at h
        exact absurd h (by simp)
    | .atom ⟨.keyword kf⟩, .list inner' =>
      simp only [rpcPairs] at h
      by_cases hok2 : defMsgPairsOk inner'
      · rw [if_pos hok2] at h
        obtain ⟨inres, hin, h2⟩ := GRes.bind_ok h
        obtain ⟨acc, hr, h3⟩ := GRes.bind_ok h2
        injection h3 with h3
        cases h3
        rcases hmem with heq | htail
        · have hf : f = kf := by
            have h4 := congrArg Prod.fst heq
            simp only at h4
            injection h4 with h5
            injection h5 with h6
            injection h6
          subst hf
          refine ⟨List.mem_cons_self _ _, ?_⟩
          exact ⟨GeneratedStruct.new (rpc_name ++ [45] ++ f) none inres.2 none .map,
            List.mem_append_left _ (List.mem_append_right _ (by simp)), rfl, rfl⟩
        · obtain ⟨h1, g, hg, hd, hrt⟩ :=
            rpcPairs_spec rpc_name rest acc.1 acc.2 (by rw [hr]) f v htail inner hn
          exact ⟨List.mem_cons_of_mem _ h1, g, List.mem_append_right _ hg, hd, hrt⟩
      · rw [if_neg hok2] at h
        exact absurd h (by simp)
    | .atom ⟨.keyword kf⟩, .quote (.atom ⟨.string s2⟩) => simp [rpcPairs] at h
    | .atom ⟨.keyword kf⟩, .quote (.atom ⟨.keyword s2⟩) => simp [rpcPairs] at h
    | .atom ⟨.keyword kf⟩, .quote (.atom ⟨.number n2⟩) => simp [rpcPairs] at h
    | .atom ⟨.keyword kf⟩, .quote (.quote e2) => simp [rpcPairs] at h
    | .atom ⟨.keyword kf⟩, .atom a2 => simp [rpcPairs] at h
    | .atom ⟨.symbol s1⟩, _ => simp [rpcPairs] at h
    | .atom ⟨.string s1⟩, _ => simp [rpcPairs] at h
    | .atom ⟨.number n1⟩, _ => simp [rpcPairs] at h
    | .list es1, _ => simp [rpcPairs] at h
    | .quote e1', _ => simp [rpcPairs] at h

/-- C4: on a DefMsg, `create_gen_structs` emits all auxiliary structs
followed by the parent struct last; for every keyword field `f` whose value
is a nested keyword-pair form, some auxiliary struct whose original (kebab)
name is `parent-f` with `rpc_type = Map` appears among the auxiliaries (so
before the parent), and the parent's field for `f` references the new name.
On a DefRpc the same holds (there for every list-shaped field value, which
is always lowered as an anonymous Map message).  Hence every synthesized
field-type dependency appears earlier in the output sequence than the
struct whose field references it. -/
theorem c4_anonymous_expansion :
    (∀ (m : DefMsg) (l : List GeneratedStruct),
       m.create_gen_structs = .ok l →
       ∃ aux fields,
         l = aux ++ [GeneratedStruct.new m.msg_name none fields none m.msg_ty] ∧
         ∀ (f : Str) (v : Expr), (Expr.atom ⟨.keyword f⟩, v) ∈ chunk2 m.rest_expr →
           ∀ (e0 e1 : Expr) (tl : List Expr),
             nestedMapArg v = some (e0 :: e1 :: tl) → isKeywordAtom e0 = true →
             GeneratedField.new f (m.msg_name ++ [45] ++ f) none ∈ fields ∧
             ∃ g ∈ aux, g.data_name = m.msg_name ++ [45] ++ f ∧
               g.rpc_type = .map) ∧
    (∀ (r : DefRPC) (l : List GeneratedStruct),
       r.create_gen_structs = .ok l →
       ∃ aux fields,
         l = aux ++ [GeneratedStruct.new r.rpc_name none fields none .data] ∧
         ∀ (f : Str) (v : Expr), (Expr.atom ⟨.keyword f⟩, v) ∈ chunk2 r.args →
           ∀ (inner : List Expr), nestedMapArg v = some inner →
             GeneratedField.new f (r.rpc_name ++ [45] ++ f) none ∈ fields ∧
             ∃ g ∈ aux, g.data_name = r.rpc_name ++ [45] ++ f ∧
               g.rpc_type = .map) := by
  constructor
  · intro m l h
    obtain ⟨acc, hr, h2⟩ := GRes.bind_ok h
    injection h2 with h2
    subst h2
    exact ⟨acc.1, acc.2, rfl, fun f v hmem e0 e1 tl hn hkw =>
      cgsPairs_spec m.msg_name m.rest_expr acc.1 acc.2 (by rw [hr]) f v hmem
        e0 e1 tl hn hkw⟩
  · intro r l h
    obtain ⟨acc, hr, h2⟩ := GRes.bind_ok h
    injection h2 with h2
    subst h2
    exact ⟨acc.1, acc.2, rfl, fun f v hmem inner hn =>
      rpcPairs_spec r.rpc_name r.args acc.1 acc.2 (by rw [hr]) f v hmem inner hn⟩

/-- C4 witness: the DefMsg conjunct applied to
`(def-msg p :f '(:a 'n))` (names as byte strings: `p` = 112, `f` = 102,
`a` = 97, `n` = 110, `-` = 45). -/
theorem c4_anonymous_expansion_witness :
    ∃ aux fields,
      [GeneratedStruct.new [112, 45, 102] none [GeneratedField.new [97] [110] none]
         none .map,
       GeneratedStruct.new [112] none [GeneratedField.new [102] [112, 45, 102] none]
         none .data] =
        aux ++ [GeneratedStruct.new [112] none fields none .data] ∧
      ∀ (f : Str) (v : Expr),
        (Expr.atom ⟨.keyword f⟩, v) ∈ chunk2 [Expr.atom ⟨.keyword [102]⟩,
          .quote (.list [.atom ⟨.keyword [97]⟩, .quote (.atom ⟨.symbol [110]⟩)])] →
        ∀ (e0 e1 : Expr) (tl : List Expr),
          nestedMapArg v = some (e0 :: e1 :: tl) → isKeywordAtom e0 = true →
          GeneratedField.new f ([112] ++ [45] ++ f) none ∈ fields ∧
          ∃ g ∈ aux, g.data_name = [112] ++ [45] ++ f ∧ g.rpc_type = .map :=
  c4_anonymous_expansion.1
    ⟨[112], [.atom ⟨.keyword [102]⟩,
      .quote (.list [.atom ⟨.keyword [97]⟩, .quote (.atom ⟨.symbol [110]⟩)])], .data⟩
    [GeneratedStruct.new [112, 45, 102] none [GeneratedField.new [97] [110] none]
       none .map,
     GeneratedStruct.new [112] none [GeneratedField.new [102] [112, 45, 102] none]
       none .data]
    (by simp [DefMsg.create_gen_structs, cgsPairs, cgsNestedStep, GRes.bind,
      isKeywordAtom, defMsgPairsOk])

/-- C5: the code bug.  The DefMsg decoded from
`(def-msg foo :a 'string :b)` — whose keyword-value argument list has odd
length 3, ending in a trailing keyword with no value — is ACCEPTED by
`DefMsg::new` (the `array_chunks` validation never sees the trailing
element), and `create_gen_structs` silently drops `:b`, emitting a single
struct with only the field `a`; no `InvalidInput` error is produced. -/
theorem c5_odd_defmsg_silently_dropped :
    parse_root_one true (ascii "(def-msg foo :a 'string :b)") =
      some (.ok (.list [.atom ⟨.symbol (ascii "def-msg")⟩,
        .atom ⟨.symbol (ascii "foo")⟩,
        .atom ⟨.keyword (ascii "a")⟩, .quote (.atom ⟨.symbol (ascii "string")⟩),
        .atom ⟨.keyword (ascii "b")⟩])) ∧
    defMsgFromExpr (.list [.atom ⟨.symbol (ascii "def-msg")⟩,
        .atom ⟨.symbol (ascii "foo")⟩,
        .atom ⟨.keyword (ascii "a")⟩, .quote (.atom ⟨.symbol (ascii "string")⟩),
        .atom ⟨.keyword (ascii "b")⟩]) =
      .ok ⟨ascii "foo",
        [.atom ⟨.keyword (ascii "a")⟩, .quote (.atom ⟨.symbol (ascii "string")⟩),
         .atom ⟨.keyword (ascii "b")⟩], .data⟩ ∧
    [Expr.atom ⟨.keyword (ascii "a")⟩, .quote (.atom ⟨.symbol (ascii "string")⟩),
     .atom ⟨.keyword (ascii "b")⟩].length % 2 = 1 ∧
    DefMsg.create_gen_structs ⟨ascii "foo",
        [.atom ⟨.keyword (ascii "a")⟩, .quote (.atom ⟨.symbol (ascii "string")⟩),
         .atom ⟨.keyword (ascii "b")⟩], .data⟩ =
      .ok [GeneratedStruct.new (ascii "foo") none
             [GeneratedField.new (ascii "a") (ascii "string") none] none .data] := by
  have htok : tokenize (ascii "(def-msg foo :a 'string :b)") =
      some [[40], ascii "def-msg", [32], ascii "foo", [32], [58], [97], [32],
        [39], ascii "string", [32], [58], [98], [41]] := by rfl
  refine ⟨?_, rfl, rfl, ?_⟩
  · simp only [parse_root_one, htok]
    rfl
  · simp [DefMsg.create_gen_structs, cgsPairs, cgsNestedStep, GRes.bind]


/-! ## SpecFile (src/generators/lisp-rpc-rust-generator/src/lib.rs)

`record_one` only inspects a declaration through `symbol_name()`, so a
recorded spec is modelled by its symbol name; the `sym_table`
(`HashMap<String, bool>` whose values are always `true`) is modelled by its
key list. -/

structure SpecFile where
  specs : List Str
  sym_table : List Str
  deriving Repr, DecidableEq

/-- `SpecFile::record_one`: the spec is pushed onto `specs` FIRST; only then
is the duplicate check performed, and on a duplicate the function bails with
the error before updating `sym_table`.  Returns (errored?, new state). -/
def record_one (sf : SpecFile) (s : Str) : Bool × SpecFile :=
  let specs' := sf.specs ++ [s]
  if s ∈ sf.sym_table then (true, ⟨specs', sf.sym_table⟩)
  else (false, ⟨specs', sf.sym_table ++ [s]⟩)

/-- States reachable from `SpecFile::new()` by `record_one` calls. -/
inductive SpecFile.Reachable : SpecFile → Prop
  | empty : SpecFile.Reachable ⟨[], []⟩
  | step (sf : SpecFile) (s : Str) :
      SpecFile.Reachable sf → SpecFile.Reachable (record_one sf s).2

theorem SpecFile.reachable_sym_table {sf : SpecFile}
    (h : SpecFile.Reachable sf) : ∀ n, n ∈ sf.sym_table ↔ n ∈ sf.specs := by
  induction h with
  | empty => intro n; simp
  | step sf s _ ih =>
    intro n
    by_cases hs : s ∈ sf.sym_table
    · simp only [record_one, if_pos hs]
      rw [List.mem_append, ih n]
      constructor
      · intro hn; exact Or.inl hn
      · rintro (hn | hn)
        · exact hn
        · simp only [List.mem_singleton] at hn
          subst hn
          exact (ih n).mp hs
    · simp only [record_one, if_neg hs]
      rw [List.mem_append, List.mem_append, ih n]

/-- C8: in every reachable `SpecFile`, `record_one` returns an error exactly
when the inserted declaration's symbol name equals the symbol name of a
previously recorded declaration, and succeeds otherwise. -/
theorem c8_record_one_duplicate_check {sf : SpecFile}
    (h : SpecFile.Reachable sf) (s : Str) :
    (record_one sf s).1 = true ↔ s ∈ sf.specs := by
  rw [← SpecFile.reachable_sym_table h s]
  by_cases hs : s ∈ sf.sym_table
  · simp [record_one, hs]
  · simp [record_one, hs]

/-- C8 witness: recording `foo` (bytes `[102, 111, 111]`) twice — the second
call errs, in the state reached after the first call. -/
theorem c8_record_one_duplicate_check_witness :
    (record_one (record_one ⟨[], []⟩ [102, 111, 111]).2 [102, 111, 111]).1 = true :=
  (c8_record_one_duplicate_check
    (SpecFile.Reachable.step ⟨[], []⟩ [102, 111, 111] SpecFile.Reachable.empty)
    [102, 111, 111]).mpr (by decide)

/-- C9: when `record_one` is called with an already-recorded symbol name,
the declaration is appended to `specs` before the duplicate check, so after
the returned error the state contains both the original and the duplicate —
the failed insertion is not atomic. -/
theorem c9_record_one_not_atomic {sf : SpecFile}
    (h : SpecFile.Reachable sf) (s : Str) (hdup : s ∈ sf.sym_table) :
    (record_one sf s).1 = true ∧
    (record_one sf s).2.specs = sf.specs ++ [s] ∧
    s ∈ sf.specs := by
  refine ⟨by simp [record_one, hdup], by simp [record_one, hdup], ?_⟩
  exact (SpecFile.reachable_sym_table h s).mp hdup

/-- C9 witness: the theorem applied to the duplicate of `foo`. -/
theorem c9_record_one_not_atomic_witness :
    (record_one (record_one ⟨[], []⟩ [102, 111, 111]).2 [102, 111, 111]).1 = true ∧
    (record_one (record_one ⟨[], []⟩ [102, 111, 111]).2
        [102, 111, 111]).2.specs =
      (record_one ⟨[], []⟩ [102, 111, 111]).2.specs ++ [[102, 111, 111]] ∧
    [102, 111, 111] ∈ (record_one ⟨[], []⟩ [102, 111, 111]).2.specs :=
  c9_record_one_not_atomic
    (SpecFile.Reachable.step ⟨[], []⟩ [102, 111, 111] SpecFile.Reachable.empty)
    [102, 111, 111] (by decide)


/-! ## C1: the parse/serialize round trip

Ghost infrastructure for the round-trip theorem: lexicographic order facts
for the canonical map model, decimal round trip, a goodness predicate on
`Data`, token-stream descriptions of rendered values, and the tokenizer and
reader lemmas. -/

theorem strLt_irrefl : ∀ s : Str, strLt s s = false
  | [] => rfl
  | b :: r => by simp [strLt, strLt_irrefl r]

theorem strLt_trans : ∀ a b c : Str,
    strLt a b = true → strLt b c = true → strLt a c = true
  | [], [] , _, hab, _ => by simp [strLt] at hab
  | [], _ :: _, [], _, hbc => by simp [strLt] at hbc
  | [], _ :: _, _ :: _, _, _ => by simp [strLt]
  | _ :: _, [], _, hab, _ => by simp [strLt] at hab
  | _ :: _, _ :: _, [], _, hbc => by simp [strLt] at hbc
  | x :: xs, y :: ys, z :: zs, hab, hbc => by
    simp only [strLt, Bool.or_eq_true, Bool.and_eq_true, decide_eq_true_eq] at hab hbc ⊢
    rcases hab with h1 | ⟨h1, h1'⟩ <;> rcases hbc with h2 | ⟨h2, h2'⟩
    · exact Or.inl (lt_trans h1 h2)
    · exact Or.inl (h2 ▸ h1)
    · exact Or.inl (h1 ▸ h2)
    · exact Or.inr ⟨h1.trans h2, strLt_trans xs ys zs h1' h2'⟩

theorem strLt_total_ne : ∀ a b : Str, a ≠ b →
    strLt a b = true ∨ strLt b a = true
  | [], [], h => absurd rfl h
  | [], _ :: _, _ => Or.inl (by simp [strLt])
  | _ :: _, [], _ => Or.inr (by simp [strLt])
  | x :: xs, y :: ys, h => by
    by_cases hxy : x = y
    · subst hxy
      have hne : xs ≠ ys := fun hh => h (hh ▸ rfl)
      rcases strLt_total_ne xs ys hne with h1 | h1
      · exact Or.inl (by simp [strLt, h1])
      · exact Or.inr (by simp [strLt, h1])
    · rcases Nat.lt_or_ge x y with h1 | h1
      · exact Or.inl (by simp [strLt, h1])
      · have h2 : y < x := lt_of_le_of_ne h1 (fun hh => hxy hh.symm)
        exact Or.inr (by simp [strLt, h2])

theorem strLt_ne : ∀ a b : Str, strLt a b = true → a ≠ b := by
  intro a b h hab
  subst hab
  rw [strLt_irrefl] at h
  exact Bool.noConfusion h

/-- The canonical map model is kept sorted strictly by key. -/
def sortedKeys : List (Str × Data) → Bool
  | (k, _) :: (k', v') :: r => strLt k k' && sortedKeys ((k', v') :: r)
  | _ => true

theorem mapGet_none_of_lt_head :
    ∀ (r : List (Str × Data)) (k1 k2 : Str) (v2 : Data),
    sortedKeys ((k2, v2) :: r) = true → strLt k1 k2 = true →
    mapGet k1 ((k2, v2) :: r) = none
  | [], k1, k2, v2, _, hlt => by
    simp [mapGet, strLt_ne k1 k2 hlt]
  | (k3, v3) :: r', k1, k2, v2, hs, hlt => by
    simp only [sortedKeys, Bool.and_eq_true] at hs
    have := mapGet_none_of_lt_head r' k1 k3 v3 hs.2 (strLt_trans _ _ _ hlt hs.1)
    simpa [mapGet, strLt_ne k1 k2 hlt] using this

theorem sorted_ext :
    ∀ (tb tb' : List (Str × Data)),
    sortedKeys tb = true → sortedKeys tb' = true →
    (∀ k, mapGet k tb = mapGet k tb') → tb = tb'
  | [], [], _, _, _ => rfl
  | [], (k, v) :: r, _, _, hext => by
    have := hext k
    simp [mapGet] at this
  | (k, v) :: r, [], _, _, hext => by
    have := hext k
    simp [mapGet] at this
  | (k1, v1) :: r1, (k2, v2) :: r2, hs1, hs2, hext => by
    have hk : k1 = k2 := by
      by_contra hne
      rcases strLt_total_ne k1 k2 hne with hlt | hlt
      · have h1 := hext k1
        rw [mapGet_none_of_lt_head r2 k1 k2 v2 hs2 hlt] at h1
        simp [mapGet] at h1
      · have h1 := hext k2
        rw [mapGet_none_of_lt_head r1 k2 k1 v1 hs1 hlt] at h1
        simp [mapGet] at h1
    subst hk
    have hv : v1 = v2 := by
      have h1 := hext k1
      simp [mapGet] at h1
      exact h1
    subst hv
    have hr : r1 = r2 := by
      have hs1' : sortedKeys r1 = true := by
        match r1, hs1 with
        | [], _ => rfl
        | (k3, v3) :: r3, hs1 => exact (Bool.and_eq_true .. ▸ hs1).2
      have hs2' : sortedKeys r2 = true := by
        match r2, hs2 with
        | [], _ => rfl
        | (k3, v3) :: r3, hs2 => exact (Bool.and_eq_true .. ▸ hs2).2
      refine sorted_ext r1 r2 hs1' hs2' ?_
      intro k
      by_cases hk1 : k = k1
      · subst hk1
        have hn1 : mapGet k r1 = none := by
          match r1, hs1 with
          | [], _ => rfl
          | (k3, v3) :: r3, hs1 =>
            simp only [sortedKeys, Bool.and_eq_true] at hs1
            exact mapGet_none_of_lt_head r3 k k3 v3 hs1.2 hs1.1
        have hn2 : mapGet k r2 = none := by
          match r2, hs2 with
          | [], _ => rfl
          | (k3, v3) :: r3, hs2 =>
            simp only [sortedKeys, Bool.and_eq_true] at hs2
            exact mapGet_none_of_lt_head r3 k k3 v3 hs2.2 hs2.1
        rw [hn1, hn2]
      · have := hext k
        simpa [mapGet, hk1] using this
    rw [hr]


/-- Lower bound on all keys of a map fragment. -/
def keyLB (b : Str) : List (Str × Data) → Bool
  | [] => true
  | (k, _) :: _ => strLt b k

theorem sortedKeys_cons :
    ∀ (k' : Str) (v' : Data) (m : List (Str × Data)),
    sortedKeys ((k', v') :: m) = (keyLB k' m && sortedKeys m)
  | _, _, [] => by simp [sortedKeys, keyLB]
  | _, _, (k2, v2) :: r => by simp [sortedKeys, keyLB]

theorem keyLB_insert :
    ∀ (m : List (Str × Data)) (b k : Str) (v : Data),
    keyLB b m = true → strLt b k = true → keyLB b (mapInsert k v m) = true
  | [], b, k, v, _, hbk => by simpa [mapInsert, keyLB] using hbk
  | (k', v') :: rest, b, k, v, hlb, hbk => by
    by_cases h1 : k = k'
    · simpa [mapInsert, h1, keyLB] using hbk
    · by_cases h2 : strLt k k'
      · simpa [mapInsert, h1, h2, keyLB] using hbk
      · simpa [mapInsert, h1, h2, keyLB] using hlb

theorem sortedKeys_insert :
    ∀ (m : List (Str × Data)) (k : Str) (v : Data),
    sortedKeys m = true → sortedKeys (mapInsert k v m) = true
  | [], k, v, _ => by simp [mapInsert, sortedKeys]
  | (k', v') :: rest, k, v, hs => by
    rw [sortedKeys_cons, Bool.and_eq_true] at hs
    by_cases h1 : k = k'
    · subst h1
      have hins : mapInsert k v ((k, v') :: rest) = (k, v) :: rest := by
        simp [mapInsert]
      rw [hins, sortedKeys_cons, Bool.and_eq_true]
      exact ⟨hs.1, hs.2⟩
    · by_cases h2 : strLt k k'
      · simp only [mapInsert, if_neg h1, if_pos h2]
        rw [sortedKeys_cons, Bool.and_eq_true]
        refine ⟨by simpa [keyLB] using h2, ?_⟩
        rw [sortedKeys_cons, Bool.and_eq_true]
        exact ⟨hs.1, hs.2⟩
      · have h3 : strLt k' k = true := by
          rcases strLt_total_ne k k' h1 with hh | hh
          · exact absurd hh h2
          · exact hh
        simp only [mapInsert, if_neg h1, if_neg h2]
        rw [sortedKeys_cons, Bool.and_eq_true]
        exact ⟨keyLB_insert rest k' k v hs.1 h3, sortedKeys_insert rest k v hs.2⟩

theorem dataMapFromExprs_sorted :
    ∀ (es : List Expr) (acc tb : List (Str × Data)),
    sortedKeys acc = true → dataMapFromExprs acc es = .ok tb →
    sortedKeys tb = true
  | [], acc, tb, hs, h => by
    simp only [dataMapFromExprs] at h
    injection h with h
    subst h
    exact hs
  | [e], acc, tb, hs, h => by
    simp only [dataMapFromExprs] at h
    injection h with h
    subst h
    exact hs
  | e1 :: v0 :: rest, acc, tb, hs, h => by
    match e1 with
    | .atom ⟨.keyword ks⟩ =>
      simp only [dataMapFromExprs] at h
      cases hd : dataFromExpr v0 with
      | ok d =>
        rw [hd] at h
        exact dataMapFromExprs_sorted rest (mapInsert ks d acc) tb
          (sortedKeys_insert acc ks d hs) h
      | err er => rw [hd] at h; simp at h
      | panic p => rw [hd] at h; simp at h
    | .atom ⟨.symbol s⟩ => simp [dataMapFromExprs] at h
    | .atom ⟨.string s⟩ => simp [dataMapFromExprs] at h
    | .atom ⟨.number n⟩ => simp [dataMapFromExprs] at h
    | .list es2 => simp [dataMapFromExprs] at h
    | .quote e2 => simp [dataMapFromExprs] at h

/-! ### Decimal round trip -/

theorem foldl_digits_horner :
    ∀ (l : List Nat) (acc : Nat),
    List.foldl (fun a d => a * 10 + d) acc l =
      acc * 10 ^ l.length + Nat.ofDigits 10 l.reverse
  | [], acc => by simp [Nat.ofDigits]
  | d :: t, acc => by
    rw [List.foldl_cons, foldl_digits_horner t (acc * 10 + d)]
    rw [List.reverse_cons, Nat.ofDigits_append]
    simp [Nat.ofDigits_singleton, pow_succ]
    ring

theorem natDigits_all_digit (n : Nat) : (natDigits n).all isDigit = true := by
  rw [natDigits, List.all_eq_true]
  intro b hb
  simp only [List.mem_map, List.mem_reverse] at hb
  obtain ⟨d, hd, rfl⟩ := hb
  have := Nat.digits_lt_base (by norm_num) hd
  simp only [isDigit, Bool.and_eq_true, decide_eq_true_eq]
  omega

theorem natOfDigits_natDigits (n : Nat) (hn : 0 < n) :
    natOfDigits (natDigits n) = some n := by
  have hne : natDigits n ≠ [] := by
    rw [natDigits]
    simp only [ne_eq, List.map_eq_nil_iff, List.reverse_eq_nil_iff]
    exact Nat.digits_ne_nil_iff_ne_zero.mpr (Nat.pos_iff_ne_zero.mp hn)
  rw [natOfDigits, if_neg hne, if_pos (natDigits_all_digit n)]
  congr 1
  have hmap : (natDigits n).map (fun b => b - 48) = (Nat.digits 10 n).reverse := by
    rw [natDigits, List.map_map]
    have : ((fun b => b - 48) ∘ fun d => d + 48) = id := by
      funext d; simp
    rw [this, List.map_id]
  have hfold : ∀ (l : List Nat), (∀ b ∈ l, 48 ≤ b) →
      List.foldl (fun a b => a * 10 + (b - 48)) 0 l =
      List.foldl (fun a d => a * 10 + d) 0 (l.map (fun b => b - 48)) := by
    intro l _
    rw [List.foldl_map]
  rw [hfold (natDigits n) ?hb]
  case hb =>
    intro b hb
    rw [natDigits] at hb
    simp only [List.mem_map] at hb
    obtain ⟨d, _, rfl⟩ := hb
    omega
  rw [hmap, foldl_digits_horner, List.reverse_reverse, Nat.ofDigits_digits]
  simp

theorem parseI64_intRender (n : Int) (hlo : -(2 ^ 63) ≤ n) (hhi : n < 2 ^ 63) :
    parseI64 (intRender n) = some n := by
  by_cases hneg : n < 0
  · rw [intRender, if_pos hneg]
    have hmag : 0 < (-n).toNat := by omega
    rw [parseI64]
    rw [if_neg (by norm_num), if_pos rfl]
    rw [natOfDigits_natDigits _ hmag]
    simp only [Option.some_bind]
    rw [if_pos (by omega)]
    congr 1
    omega
  · rw [intRender, if_neg hneg]
    by_cases h0 : n = 0
    · subst h0
      simp [parseI64, natOfDigits, isDigit]
    · rw [if_neg h0]
      have hpos : 0 < n.toNat := by omega
      have := natOfDigits_natDigits n.toNat hpos
      match hd : natDigits n.toNat with
      | [] => rw [hd] at this; simp [natOfDigits] at this
      | b :: rest =>
        rw [hd] at this
        have hb48 : 48 ≤ b := by
          have : (b :: rest).all isDigit = true := by
            rw [← hd]; exact natDigits_all_digit _
          simp only [List.all_cons, Bool.and_eq_true, isDigit,
            decide_eq_true_eq] at this
          omega
        rw [parseI64]
        rw [if_neg (by omega), if_neg (by omega)]
        rw [this]
        simp only [Option.some_bind]
        rw [if_pos (by omega)]
        congr 1
        omega


/-! ### Goodness: the round-trippable fragment of `Data` -/

/-- No two consecutive space bytes. -/
def noDoubleSpace : Str → Bool
  | a :: b :: r => !(a = 32 && b = 32) && noDoubleSpace (b :: r)
  | _ => true

/-- A lexically safe token: nonempty, delimiter-free, valid UTF-8 —
exactly what a flushed tokenizer run can be. -/
def goodTok (t : Str) : Bool :=
  !t.isEmpty && t.all (fun b => !isDelim b) && validUtf8 t

/-- A record name additionally must not lex as an integer when
`read_number` is on. -/
def goodName (cfg : Bool) (t : Str) : Bool :=
  goodTok t && (!cfg || (parseI64 t).isNone)

/-- String contents must not contain `"` (terminates early) or `\\`
(re-read as an escape), nor two consecutive spaces (collapsed); their
non-delimiter runs must be valid UTF-8. -/
def goodStrContent (s : Str) : Bool :=
  s.all (fun b => !(b = 34) && !(b = 92)) && noDoubleSpace s && runsOk [] s

/-- A re-parsed List keeps the List interpretation only when its first
element re-reads as a non-keyword atom: a string or number value. -/
def isGoodListHead : Data → Bool
  | .value (.string _) => true
  | .value (.number _) => true
  | _ => false

mutual

/-- The fragment of `Data` for which `parse(serialize(d)) = d` is proved:
no Symbol scalars, lexically safe scalars and names, Lists nonempty with a
string/number head, Maps nonempty with a canonical table matching the key
list. -/
def goodData (cfg : Bool) : Data → Bool
  | .value (.symbol _) => false
  | .value (.string s) => goodStrContent s
  | .value (.keyword k) => goodTok k
  | .value (.number n) => cfg && decide (-(2 ^ 63) ≤ n) && decide (n < 2 ^ 63)
  | .data name args => goodName cfg name && goodPairs cfg args
  | .list ds =>
    (match ds with
     | [] => false
     | d0 :: _ => isGoodListHead d0) && goodItems cfg ds
  | .map kwrds tb =>
    !kwrds.isEmpty && kwrds.all goodTok && sortedKeys tb &&
      goodTable cfg kwrds tb && tb.all (fun p => decide (p.1 ∈ kwrds))
  | .error _ => false

def goodPairs (cfg : Bool) : List (Expr × Data) → Bool
  | [] => true
  | (k, v) :: rest =>
    (match k with
     | .atom ⟨.keyword kt⟩ => goodTok kt
     | _ => false) && goodData cfg v && goodPairs cfg rest

def goodItems (cfg : Bool) : List Data → Bool
  | [] => true
  | d :: ds => goodData cfg d && goodItems cfg ds

/-- Every key of the key list is present and its value is good. -/
def goodTable (cfg : Bool) : List Str → List (Str × Data) → Bool
  | [], _ => true
  | k :: ks, tb => lookupGood cfg k tb && goodTable cfg ks tb

def lookupGood (cfg : Bool) (k : Str) : List (Str × Data) → Bool
  | [] => false
  | (k', v) :: rest => if k = k' then goodData cfg v else lookupGood cfg k rest

end

/-! ### Token streams of rendered values -/

/-- Tokens produced while scanning a byte segment with an explicit cache
(delimiters emit themselves; runs are flushed at delimiters). -/
def splitToksC : Str → List Nat → List Str
  | [], _ => []
  | b :: r, cache =>
    if isDelim b then (if cache = [] then [] else [cache]) ++ [[b]] ++ splitToksC r []
    else splitToksC r (cache ++ [b])

/-- The run left pending after scanning a byte segment. -/
def finalCacheC : Str → List Nat → List Nat
  | [], cache => cache
  | b :: r, cache =>
    if isDelim b then finalCacheC r []
    else finalCacheC r (cache ++ [b])

def flushT (c : List Nat) : List Str := if c = [] then [] else [c]

/-- All tokens of a string body, including the final pending run. -/
def contentToks (s : Str) : List Str :=
  splitToksC s [] ++ flushT (finalCacheC s [])

/-- Tokens of a rendered record key (a keyword atom). -/
def keyToks : Expr → List Str
  | .atom ⟨.keyword kt⟩ => [[58], kt]
  | _ => []

mutual

/-- The token sequence produced by tokenizing `dataToString d` (as a
closed segment: the final run flushed). -/
def toksOf : Data → List Str
  | .data name args => [[40], name, [32]] ++ pairsFlat args ++ [[41]]
  | .list ds => [[39], [40]] ++ itemsFlat ds ++ [[41]]
  | .map kwrds tb => [[39], [40]] ++ rowsFlat kwrds tb ++ [[41]]
  | .value (.number n) => [intRender n]
  | .value (.keyword k) => [[58], k]
  | .value (.string s) => [[34]] ++ contentToks s ++ [[34]]
  | .value (.symbol s) => [s]
  | .error _ => []

def pairsFlat : List (Expr × Data) → List Str
  | [] => []
  | [(k, v)] => keyToks k ++ [[32]] ++ toksOf v
  | (k, v) :: rest => keyToks k ++ [[32]] ++ toksOf v ++ [[32]] ++ pairsFlat rest

def itemsFlat : List Data → List Str
  | [] => []
  | [d] => toksOf d
  | d :: ds => toksOf d ++ [[32]] ++ itemsFlat ds

def rowsFlat : List Str → List (Str × Data) → List Str
  | [], _ => []
  | [k], tb => [[58], k, [32]] ++ lookupToks k tb
  | k :: ks, tb => [[58], k, [32]] ++ lookupToks k tb ++ [[32]] ++ rowsFlat ks tb

def lookupToks (k : Str) : List (Str × Data) → List Str
  | [] => []
  | (k', v) :: rest => if k = k' then toksOf v else lookupToks k rest

end

mutual

/-- The `Expr` that re-parsing the rendered text produces. -/
def exprOf : Data → Expr
  | .value v => .atom ⟨v⟩
  | .data name args => .list (.atom ⟨.symbol name⟩ :: pairsExprOf args)
  | .list ds => .quote (.list (itemsExprOf ds))
  | .map kwrds tb => .quote (.list (rowsExprOf kwrds tb))
  | .error _ => .atom ⟨.symbol []⟩

def pairsExprOf : List (Expr × Data) → List Expr
  | [] => []
  | (k, v) :: rest => k :: exprOf v :: pairsExprOf rest

def itemsExprOf : List Data → List Expr
  | [] => []
  | d :: ds => exprOf d :: itemsExprOf ds

def rowsExprOf : List Str → List (Str × Data) → List Expr
  | [], _ => []
  | k :: ks, tb => .atom ⟨.keyword k⟩ :: lookupExprOf k tb :: rowsExprOf ks tb

def lookupExprOf (k : Str) : List (Str × Data) → Expr
  | [] => .atom ⟨.symbol []⟩
  | (k', v) :: rest => if k = k' then exprOf v else lookupExprOf k rest

end


/-! ### Tokenizer lemmas for rendered text -/

theorem tokFold_append :
    ∀ (xs ys : List Nat) (s : TState),
    tokFold (xs ++ ys) s =
      match tokFold xs s with
      | none => none
      | some s1 => tokFold ys s1
  | [], ys, s => by simp [tokFold]
  | x :: xs, ys, s => by
    simp only [List.cons_append, tokFold]
    cases tokStep s x with
    | none => rfl
    | some s' => exact tokFold_append xs ys s'

theorem tokFold_run :
    ∀ (t : Str) (cache : List Nat) (res : List Str),
    t.all (fun b => !isDelim b) = true →
    tokFold t ⟨cache, res⟩ = some ⟨cache ++ t, res⟩
  | [], cache, res, _ => by simp [tokFold]
  | b :: t, cache, res, h => by
    simp only [List.all_cons, Bool.and_eq_true, Bool.not_eq_true'] at h
    simp only [tokFold, tokStep, h.1, Bool.false_eq_true, if_false]
    rw [tokFold_run t (cache ++ [b]) res (by simpa using h.2)]
    simp

theorem tokFold_append_some {xs ys : List Nat} {s s1 : TState}
    (h : tokFold xs s = some s1) : tokFold (xs ++ ys) s = tokFold ys s1 := by
  rw [tokFold_append, h]

theorem tokFold_delim_flush (b : Nat) (cache : List Nat) (res : List Str)
    (hd : isDelim b = true) (hne : cache ≠ [])
    (hdf : cache.all (fun b => !isDelim b) = true)
    (hv : validUtf8 cache = true) :
    tokFold [b] ⟨cache, res⟩ = some ⟨[], res ++ ([cache] ++ [[b]])⟩ := by
  have hflush : flushCache ⟨cache, res⟩ = some ⟨[], res ++ [cache]⟩ := by
    simp [flushCache, hne, hv]
  have hcne : cache ≠ [32] := by
    intro hh
    subst hh
    simp [isDelim] at hdf
  have hcond : ¬((⟨[], res ++ [cache]⟩ : TState).res.getLast? = some [32] ∧ b = 32) := by
    rintro ⟨h1, -⟩
    simp only [List.getLast?_append, List.getLast?_singleton, Option.or_some] at h1
    exact hcne (by injection h1)
  simp only [tokFold, tokStep, hd, if_true, hflush, if_neg hcond]
  simp [tokFold, List.append_assoc]

theorem tokFold_delim_nocache (b : Nat) (res : List Str)
    (hd : isDelim b = true)
    (hsp : b = 32 → res.getLast? ≠ some [32]) :
    tokFold [b] ⟨[], res⟩ = some ⟨[], res ++ [[b]]⟩ := by
  have hflush : flushCache ⟨[], res⟩ = some ⟨[], res⟩ := by simp [flushCache]
  have hcond : ¬((⟨[], res⟩ : TState).res.getLast? = some [32] ∧ b = 32) := by
    rintro ⟨h1, h2⟩
    exact hsp h2 h1
  simp only [tokFold, tokStep, hd, if_true, hflush, if_neg hcond]

theorem noDoubleSpace_tail : ∀ (a : Nat) (l : Str),
    noDoubleSpace (a :: l) = true → noDoubleSpace l = true
  | _, [], _ => rfl
  | a, b :: r, h => by
    simp only [noDoubleSpace, Bool.and_eq_true] at h
    exact h.2

/-- Scanning a string body: the tokenizer follows `splitToksC` and
`finalCacheC` exactly, provided no two spaces are adjacent, runs are valid
UTF-8, the cache holds no delimiter, and a leading space cannot collapse. -/
theorem tokFold_content :
    ∀ (s : Str) (cache : List Nat) (res : List Str),
    noDoubleSpace s = true → runsOk cache s = true →
    cache.all (fun b => !isDelim b) = true →
    (s.head? = some 32 → cache ≠ [] ∨ res.getLast? ≠ some [32]) →
    tokFold s ⟨cache, res⟩ = some ⟨finalCacheC s cache, res ++ splitToksC s cache⟩
  | [], cache, res, _, _, _, _ => by simp [tokFold, finalCacheC, splitToksC]
  | b :: r, cache, res, hnds, hro, hdf, hsp => by
    by_cases hd : isDelim b
    · have hro' : ((cache.isEmpty || validUtf8 cache) && runsOk [] r) = true := by
        simpa [runsOk, hd] using hro
      rw [Bool.and_eq_true] at hro'
      have step1 : tokFold [b] ⟨cache, res⟩ =
          some ⟨[], res ++ ((if cache = [] then [] else [cache]) ++ [[b]])⟩ := by
        rcases Decidable.em (cache = []) with hc | hc
        · subst hc
          rw [if_pos rfl]
          have hcc := tokFold_delim_nocache b res hd (fun hb32 => by
            rcases hsp (by simp [hb32]) with h1 | h1
            · exact absurd rfl h1
            · exact h1)
          simpa using hcc
        · rw [if_neg hc]
          have hv : validUtf8 cache = true := by
            rcases Bool.or_eq_true .. ▸ hro'.1 with h1 | h1
            · exact absurd (List.isEmpty_iff.mp h1) hc
            · exact h1
          exact tokFold_delim_flush b cache res hd hc hdf hv
      have hsp2 : r.head? = some 32 →
          ([] : List Nat) ≠ [] ∨
          (res ++ ((if cache = [] then [] else [cache]) ++ [[b]])).getLast? ≠
            some [32] := by
        intro hh
        right
        simp only [List.getLast?_append, List.getLast?_singleton, Option.or_some]
        intro hcon
        have hb : b = 32 := by
          have h1 : [b] = [32] := by injection hcon
          injection h1
        subst hb
        match r, hh with
        | c :: r', hh =>
          have hc : c = 32 := by
            simp only [List.head?_cons] at hh
            injection hh
          subst hc
          simp [noDoubleSpace] at hnds
      have hrest := tokFold_content r []
        (res ++ ((if cache = [] then [] else [cache]) ++ [[b]]))
        (noDoubleSpace_tail b r hnds) hro'.2 (by simp) hsp2
      rw [show (b :: r) = [b] ++ r from rfl, tokFold_append_some step1, hrest]
      simp only [finalCacheC, splitToksC, hd, if_true, List.singleton_append]
      simp [List.append_assoc]
    · have hro' : runsOk (cache ++ [b]) r = true := by
        simpa [runsOk, hd] using hro
      have hdf' : ((cache ++ [b]).all fun b => !isDelim b) = true := by
        simp only [List.all_append, Bool.and_eq_true]
        exact ⟨hdf, by simp [hd]⟩
      have hrest := tokFold_content r (cache ++ [b]) res
        (noDoubleSpace_tail b r hnds) hro' hdf' (fun _ => Or.inl (by simp))
      have hstep : tokStep ⟨cache, res⟩ b = some ⟨cache ++ [b], res⟩ := by
        simp [tokStep, hd]
      simp only [tokFold, hstep]
      rw [hrest]
      simp [finalCacheC, splitToksC, hd]

/-! ### Main/trail decomposition of rendered token streams -/

def trailOf : Data → List Nat
  | .value (.number n) => intRender n
  | .value (.keyword k) => k
  | .value (.symbol s) => s
  | _ => []

def mainToksOf : Data → List Str
  | .value (.number _) => []
  | .value (.keyword _) => [[58]]
  | .value (.symbol _) => []
  | d => toksOf d

def lookupData (k : Str) (tb : List (Str × Data)) : Data :=
  (mapGet k tb).getD (.error ⟨"corrupted data", .corruptedData⟩)

def pairsTrail : List (Expr × Data) → List Nat
  | [] => []
  | [(_, v)] => trailOf v
  | _ :: rest => pairsTrail rest

def pairsMain : List (Expr × Data) → List Str
  | [] => []
  | [(k, v)] => keyToks k ++ [[32]] ++ mainToksOf v
  | (k, v) :: rest => keyToks k ++ [[32]] ++ toksOf v ++ [[32]] ++ pairsMain rest

def itemsTrail : List Data → List Nat
  | [] => []
  | [d] => trailOf d
  | _ :: ds => itemsTrail ds

def itemsMain : List Data → List Str
  | [] => []
  | [d] => mainToksOf d
  | d :: ds => toksOf d ++ [[32]] ++ itemsMain ds

def rowsTrail : List Str → List (Str × Data) → List Nat
  | [], _ => []
  | [k], tb => trailOf (lookupData k tb)
  | _ :: ks, tb => rowsTrail ks tb

def rowsMain : List Str → List (Str × Data) → List Str
  | [], _ => []
  | [k], tb => [[58], k, [32]] ++ mainToksOf (lookupData k tb)
  | k :: ks, tb => [[58], k, [32]] ++ lookupToks k tb ++ [[32]] ++ rowsMain ks tb


/-! ### Segment toolkit for the render proof -/

theorem tokFold_chain {xs ys : List Nat} {s s1 s2 : TState}
    (h1 : tokFold xs s = some s1) (h2 : tokFold ys s1 = some s2) :
    tokFold (xs ++ ys) s = some s2 := by
  rw [tokFold_append_some h1, h2]

theorem intercalate_nil (s : Str) : List.intercalate s ([] : List Str) = [] := by
  simp [List.intercalate]

theorem intercalate_single (s x : Str) : List.intercalate s [x] = x := by
  simp [List.intercalate]

theorem intercalate_cons_cons (s x y : Str) (r : List Str) :
    List.intercalate s (x :: y :: r) = x ++ s ++ List.intercalate s (y :: r) := by
  simp [List.intercalate, List.intersperse_cons_cons, List.append_assoc]

theorem validUtf8_ascii : ∀ l : Str, l.all (fun b => decide (b ≤ 127)) = true →
    validUtf8 l = true
  | [], _ => rfl
  | b :: r, h => by
    simp only [List.all_cons, Bool.and_eq_true, decide_eq_true_eq] at h
    have : utf8Need b = some (0, 0, 0) := by simp [utf8Need, h.1]
    simp only [validUtf8, this]
    exact validUtf8_ascii r (by simpa using h.2)

theorem isDigit_not_delim {b : Nat} (h : isDigit b = true) :
    isDelim b = false ∧ b ≤ 127 := by
  simp only [isDigit, Bool.and_eq_true, decide_eq_true_eq] at h
  refine ⟨?_, by omega⟩
  simp only [isDelim]
  simp only [Bool.or_eq_false_iff, decide_eq_false_iff_not]
  omega

theorem intRender_goodTok (n : Int) : goodTok (intRender n) = true := by
  have hdig : ∀ m : Nat, ((natDigits m).all fun b => !isDelim b) = true ∧
      ((natDigits m).all fun b => decide (b ≤ 127)) = true := by
    intro m
    have h := natDigits_all_digit m
    constructor
    · rw [List.all_eq_true] at h ⊢
      intro x hx
      simp [(isDigit_not_delim (h x hx)).1]
    · rw [List.all_eq_true] at h ⊢
      intro x hx
      simpa using (isDigit_not_delim (h x hx)).2
  have hne : ∀ m : Nat, m ≠ 0 → natDigits m ≠ [] := by
    intro m hm
    simp [natDigits, Nat.digits_ne_nil_iff_ne_zero, hm]
  rcases lt_trichotomy n 0 with hn | hn | hn
  · have : intRender n = 45 :: natDigits (-n).toNat := by simp [intRender, hn]
    rw [this]
    simp only [goodTok, List.all_cons, Bool.and_eq_true]
    refine ⟨⟨by simp, by simp [isDelim], (hdig _).1⟩, ?_⟩
    apply validUtf8_ascii
    simp only [List.all_cons, Bool.and_eq_true, decide_eq_true_eq]
    exact ⟨by omega, (hdig _).2⟩
  · subst hn
    decide
  · have h0 : n.toNat ≠ 0 := by omega
    have : intRender n = natDigits n.toNat := by
      rw [intRender, if_neg (by omega), if_neg (by omega)]
    rw [this]
    simp only [goodTok, Bool.and_eq_true]
    exact ⟨⟨by simpa [List.isEmpty_iff] using hne _ h0, (hdig _).1⟩,
      validUtf8_ascii _ (hdig _).2⟩

theorem goodTok_spec {t : Str} (h : goodTok t = true) :
    t ≠ [] ∧ (t.all fun b => !isDelim b) = true ∧ validUtf8 t = true := by
  simp only [goodTok, Bool.and_eq_true] at h
  exact ⟨by simpa [List.isEmpty_iff] using h.1.1, h.1.2, h.2⟩

theorem goodTok_ne_space {t : Str} (h : goodTok t = true) : t ≠ [32] := by
  intro hh
  subst hh
  simp [goodTok, isDelim] at h

/-- After a rendered value leaves pending run `trail`, any delimiter byte
flushes it and emits itself (for a space, the previous token must not be a
lone space when the trail is empty). -/
theorem tokFold_delim_after (b : Nat) (trail : List Nat) (res : List Str)
    (hd : isDelim b = true)
    (hgt : trail = [] ∨ goodTok trail = true)
    (hsp : b = 32 → trail ≠ [] ∨ res.getLast? ≠ some [32]) :
    tokFold [b] ⟨trail, res⟩ = some ⟨[], res ++ (flushT trail ++ [[b]])⟩ := by
  rcases hgt with hnil | hgt
  · subst hnil
    have := tokFold_delim_nocache b res hd (fun h32 => by
      rcases hsp h32 with h | h
      · exact absurd rfl h
      · exact h)
    simpa [flushT] using this
  · rcases goodTok_spec hgt with ⟨hne, hdf, hv⟩
    have := tokFold_delim_flush b trail res hd hne hdf hv
    simpa [flushT, hne] using this

theorem finalCacheC_delimFree :
    ∀ (s : Str) (cache : List Nat), (cache.all fun b => !isDelim b) = true →
    ((finalCacheC s cache).all fun b => !isDelim b) = true
  | [], cache, h => h
  | b :: r, cache, h => by
    by_cases hd : isDelim b
    · simp only [finalCacheC, hd, if_true]
      exact finalCacheC_delimFree r [] rfl
    · simp only [finalCacheC, hd, if_false]
      exact finalCacheC_delimFree r (cache ++ [b])
        (by simp [List.all_append, h, hd])

theorem finalCacheC_ok :
    ∀ (s : Str) (cache : List Nat), runsOk cache s = true →
    ((finalCacheC s cache).isEmpty || validUtf8 (finalCacheC s cache)) = true
  | [], cache, h => by simpa [finalCacheC, runsOk] using h
  | b :: r, cache, h => by
    by_cases hd : isDelim b
    · simp only [finalCacheC, hd, if_true]
      have h' : runsOk [] r = true := by
        simp only [runsOk, hd, if_true, Bool.and_eq_true] at h
        exact h.2
      exact finalCacheC_ok r [] h'
    · simp only [finalCacheC, hd, if_false]
      have h' : runsOk (cache ++ [b]) r = true := by
        simpa [runsOk, hd] using h
      exact finalCacheC_ok r (cache ++ [b]) h'

/-- Rendering a good string literal: the double quotes delimit, the body
splits into `contentToks`. -/
theorem render_string (s : Str) (res : List Str)
    (hg : goodStrContent s = true) :
    tokFold ([34] ++ s ++ [34]) ⟨[], res⟩ =
      some ⟨[], res ++ ([[34]] ++ contentToks s ++ [[34]])⟩ := by
  simp only [goodStrContent, Bool.and_eq_true] at hg
  have h1 : tokFold [34] (⟨[], res⟩ : TState) = some ⟨[], res ++ [[34]]⟩ :=
    tokFold_delim_nocache 34 res (by decide) (by omega)
  have h2 : tokFold s ⟨[], res ++ [[34]]⟩ =
      some ⟨finalCacheC s [], (res ++ [[34]]) ++ splitToksC s []⟩ :=
    tokFold_content s [] (res ++ [[34]]) hg.1.2 hg.2 rfl
      (fun _ => Or.inr (by simp))
  have h3 : tokFold [34] ⟨finalCacheC s [], (res ++ [[34]]) ++ splitToksC s []⟩ =
      some ⟨[], ((res ++ [[34]]) ++ splitToksC s []) ++
        (flushT (finalCacheC s []) ++ [[34]])⟩ := by
    refine tokFold_delim_after 34 _ _ (by decide) ?_ (by omega)
    rcases Decidable.em (finalCacheC s [] = []) with hc | hc
    · exact Or.inl hc
    · right
      have hv : validUtf8 (finalCacheC s []) = true := by
        rcases Bool.or_eq_true .. ▸ finalCacheC_ok s [] hg.2 with h | h
        · exact absurd (List.isEmpty_iff.mp h) hc
        · exact h
      simp [goodTok, List.isEmpty_iff, hc, finalCacheC_delimFree s [] rfl, hv]
  have := tokFold_chain h1 (tokFold_chain h2 h3)
  simp only [List.append_assoc]
  rw [this]
  simp [contentToks, List.append_assoc]


/-! ### Main/trail linking lemmas -/

/-- Splitting a value's closed token stream into its main part and the
pending run the tokenizer holds at its end. -/
theorem toks_decomp (cfg : Bool) :
    ∀ d : Data, goodData cfg d = true →
    toksOf d = mainToksOf d ++ flushT (trailOf d)
  | .value (.number n), _ => by
    have hne := (goodTok_spec (intRender_goodTok n)).1
    simp [toksOf, mainToksOf, trailOf, flushT, hne]
  | .value (.keyword k), hg => by
    have hk : goodTok k = true := by simpa [goodData] using hg
    have hne := (goodTok_spec hk).1
    simp [toksOf, mainToksOf, trailOf, flushT, hne]
  | .value (.string s), _ => by simp [toksOf, mainToksOf, trailOf, flushT]
  | .value (.symbol s), hg => by simp [goodData] at hg
  | .data name args, _ => by simp [mainToksOf, trailOf, flushT]
  | .list ds, _ => by simp [mainToksOf, trailOf, flushT]
  | .map kwrds tb, _ => by simp [mainToksOf, trailOf, flushT]
  | .error e, hg => by simp [goodData] at hg

/-- A good value's pending run is either a flushable good token, or empty
with the main tokens ending in `)` or `"` (never a lone space). -/
theorem good_trail (cfg : Bool) :
    ∀ d : Data, goodData cfg d = true →
    (goodTok (trailOf d) = true ∧ trailOf d ≠ []) ∨
    (trailOf d = [] ∧ ∀ res : List Str, (res ++ mainToksOf d).getLast? ≠ some [32])
  | .value (.number n), _ =>
    Or.inl ⟨intRender_goodTok n, (goodTok_spec (intRender_goodTok n)).1⟩
  | .value (.keyword k), hg => by
    have hk : goodTok k = true := by simpa [goodData] using hg
    exact Or.inl ⟨hk, (goodTok_spec hk).1⟩
  | .value (.string s), _ => by
    refine Or.inr ⟨rfl, fun res => ?_⟩
    have hshape : res ++ mainToksOf (.value (.string s)) =
        (res ++ ([[34]] ++ contentToks s)) ++ [[34]] := by
      simp [mainToksOf, toksOf, List.append_assoc]
    rw [hshape, List.getLast?_concat]
    simp
  | .value (.symbol s), hg => by simp [goodData] at hg
  | .data name args, _ => by
    refine Or.inr ⟨rfl, fun res => ?_⟩
    have hshape : res ++ mainToksOf (.data name args) =
        (res ++ ([[40], name, [32]] ++ pairsFlat args)) ++ [[41]] := by
      simp [mainToksOf, toksOf, List.append_assoc]
    rw [hshape, List.getLast?_concat]
    simp
  | .list ds, _ => by
    refine Or.inr ⟨rfl, fun res => ?_⟩
    have hshape : res ++ mainToksOf (.list ds) =
        (res ++ ([[39], [40]] ++ itemsFlat ds)) ++ [[41]] := by
      simp [mainToksOf, toksOf, List.append_assoc]
    rw [hshape, List.getLast?_concat]
    simp
  | .map kwrds tb, _ => by
    refine Or.inr ⟨rfl, fun res => ?_⟩
    have hshape : res ++ mainToksOf (.map kwrds tb) =
        (res ++ ([[39], [40]] ++ rowsFlat kwrds tb)) ++ [[41]] := by
      simp [mainToksOf, toksOf, List.append_assoc]
    rw [hshape, List.getLast?_concat]
    simp
  | .error e, hg => by simp [goodData] at hg

/-- A found good map entry: the rendered/ghost lookups all agree with
`lookupData` and the value is good. -/
theorem lookup_found (cfg : Bool) (k : Str) :
    ∀ tb : List (Str × Data), lookupGood cfg k tb = true →
    goodData cfg (lookupData k tb) = true ∧
    lookupRender k tb = dataToString (lookupData k tb) ∧
    lookupToks k tb = toksOf (lookupData k tb) ∧
    lookupExprOf k tb = exprOf (lookupData k tb)
  | [], hg => by simp [lookupGood] at hg
  | (k', v) :: rest, hg => by
    by_cases hk : k = k'
    · subst hk
      have hv : goodData cfg v = true := by simpa [lookupGood] using hg
      refine ⟨?_, ?_, ?_, ?_⟩ <;>
        simp [lookupData, mapGet, lookupRender, lookupToks, lookupExprOf, hv]
    · have hg' : lookupGood cfg k rest = true := by
        simpa [lookupGood, hk] using hg
      have ih := lookup_found cfg k rest hg'
      have h1 : lookupData k ((k', v) :: rest) = lookupData k rest := by
        simp [lookupData, mapGet, hk]
      refine ⟨by rw [h1]; exact ih.1,
        by rw [h1]; simp only [lookupRender, if_neg hk]; exact ih.2.1,
        by rw [h1]; simp only [lookupToks, if_neg hk]; exact ih.2.2.1,
        by rw [h1]; simp only [lookupExprOf, if_neg hk]; exact ih.2.2.2⟩

/-- Eliminator for a good pair: the key is a good keyword atom and value
and tail are good (the `goodPairs` equations split on the key's shape). -/
theorem goodPairs_elim (cfg : Bool) (k : Expr) (v : Data) (rest : List (Expr × Data))
    (hg : goodPairs cfg ((k, v) :: rest) = true) :
    ∃ kt, k = .atom ⟨.keyword kt⟩ ∧ goodTok kt = true ∧ goodData cfg v = true ∧
      goodPairs cfg rest = true := by
  match k with
  | .atom ⟨.keyword kt⟩ =>
    simp only [goodPairs, Bool.and_eq_true] at hg
    exact ⟨kt, rfl, hg.1.1, hg.1.2, hg.2⟩
  | .atom ⟨.symbol s⟩ => simp [goodPairs] at hg
  | .atom ⟨.string s⟩ => simp [goodPairs] at hg
  | .atom ⟨.number n⟩ => simp [goodPairs] at hg
  | .list es => simp [goodPairs] at hg
  | .quote e => simp [goodPairs] at hg

/-- The flat pair tokens split into main tokens plus the flushed trail. -/
theorem pairsFlat_decomp (cfg : Bool) :
    ∀ args : List (Expr × Data), goodPairs cfg args = true →
    pairsFlat args = pairsMain args ++ flushT (pairsTrail args)
  | [], _ => by simp [pairsFlat, pairsMain, pairsTrail, flushT]
  | [(k, v)], hg => by
    obtain ⟨kt, hk, hkt, hv, -⟩ := goodPairs_elim cfg k v [] hg
    simp [pairsFlat, pairsMain, pairsTrail, toks_decomp cfg v hv,
      List.append_assoc]
  | (k, v) :: e :: rest, hg => by
    obtain ⟨kt, hk, hkt, hv, hg'⟩ := goodPairs_elim cfg k v (e :: rest) hg
    simp [pairsFlat, pairsMain, pairsTrail,
      pairsFlat_decomp cfg (e :: rest) hg', List.append_assoc]

theorem itemsFlat_decomp (cfg : Bool) :
    ∀ ds : List Data, goodItems cfg ds = true →
    itemsFlat ds = itemsMain ds ++ flushT (itemsTrail ds)
  | [], _ => by simp [itemsFlat, itemsMain, itemsTrail, flushT]
  | [d], hg => by
    have hd : goodData cfg d = true := by
      simp only [goodItems, Bool.and_eq_true] at hg
      exact hg.1
    simp [itemsFlat, itemsMain, itemsTrail, toks_decomp cfg d hd]
  | d :: e :: rest, hg => by
    have hg' : goodItems cfg (e :: rest) = true := by
      simp only [goodItems, Bool.and_eq_true] at hg ⊢
      exact hg.2
    simp [itemsFlat, itemsMain, itemsTrail,
      itemsFlat_decomp cfg (e :: rest) hg', List.append_assoc]

theorem rowsFlat_decomp (cfg : Bool) :
    ∀ (ks : List Str) (tb : List (Str × Data)), goodTable cfg ks tb = true →
    rowsFlat ks tb = rowsMain ks tb ++ flushT (rowsTrail ks tb)
  | [], tb, _ => by simp [rowsFlat, rowsMain, rowsTrail, flushT]
  | [k], tb, hg => by
    have hl : lookupGood cfg k tb = true := by
      simp only [goodTable, Bool.and_eq_true] at hg
      exact hg.1
    have hf := lookup_found cfg k tb hl
    simp [rowsFlat, rowsMain, rowsTrail, hf.2.2.1,
      toks_decomp cfg _ hf.1, List.append_assoc]
  | k :: k2 :: ks, tb, hg => by
    have hg' : goodTable cfg (k2 :: ks) tb = true := by
      simp only [goodTable, Bool.and_eq_true] at hg ⊢
      exact hg.2
    simp [rowsFlat, rowsMain, rowsTrail,
      rowsFlat_decomp cfg (k2 :: ks) tb hg', List.append_assoc]

/-- Pending-run goodness for pair sequences. -/
theorem pairsTrail_good (cfg : Bool) :
    ∀ args : List (Expr × Data), goodPairs cfg args = true →
    pairsTrail args = [] ∨ goodTok (pairsTrail args) = true
  | [], _ => Or.inl rfl
  | [(k, v)], hg => by
    obtain ⟨kt, hk, hkt, hv, -⟩ := goodPairs_elim cfg k v [] hg
    rcases good_trail cfg v hv with h | h
    · exact Or.inr (by simpa [pairsTrail] using h.1)
    · exact Or.inl (by simpa [pairsTrail] using h.1)
  | (k, v) :: e :: rest, hg => by
    obtain ⟨kt, hk, hkt, hv, hg'⟩ := goodPairs_elim cfg k v (e :: rest) hg
    simpa [pairsTrail] using pairsTrail_good cfg (e :: rest) hg'

theorem itemsTrail_good (cfg : Bool) :
    ∀ ds : List Data, goodItems cfg ds = true →
    itemsTrail ds = [] ∨ goodTok (itemsTrail ds) = true
  | [], _ => Or.inl rfl
  | [d], hg => by
    have hd : goodData cfg d = true := by
      simp only [goodItems, Bool.and_eq_true] at hg
      exact hg.1
    rcases good_trail cfg d hd with h | h
    · exact Or.inr (by simpa [itemsTrail] using h.1)
    · exact Or.inl (by simpa [itemsTrail] using h.1)
  | d :: e :: rest, hg => by
    have hg' : goodItems cfg (e :: rest) = true := by
      simp only [goodItems, Bool.and_eq_true] at hg ⊢
      exact hg.2
    simpa [itemsTrail] using itemsTrail_good cfg (e :: rest) hg'

theorem rowsTrail_good (cfg : Bool) :
    ∀ (ks : List Str) (tb : List (Str × Data)), goodTable cfg ks tb = true →
    rowsTrail ks tb = [] ∨ goodTok (rowsTrail ks tb) = true
  | [], _, _ => Or.inl rfl
  | [k], tb, hg => by
    have hl : lookupGood cfg k tb = true := by
      simp only [goodTable, Bool.and_eq_true] at hg
      exact hg.1
    have hf := lookup_found cfg k tb hl
    rcases good_trail cfg _ hf.1 with h | h
    · exact Or.inr (by simpa [rowsTrail] using h.1)
    · exact Or.inl (by simpa [rowsTrail] using h.1)
  | k :: k2 :: ks, tb, hg => by
    have hg' : goodTable cfg (k2 :: ks) tb = true := by
      simp only [goodTable, Bool.and_eq_true] at hg ⊢
      exact hg.2
    simpa [rowsTrail] using rowsTrail_good cfg (k2 :: ks) tb hg'


/-! ### The render theorem: tokenizing `dataToString` yields the ghost
token stream, with the value's trail left pending -/

mutual

/-- Tokenizing a good value's rendering from an empty cache produces its
main tokens and leaves its trail pending. -/
theorem render_data :
    ∀ (cfg : Bool) (d : Data), goodData cfg d = true → ∀ res : List Str,
    tokFold (dataToString d) ⟨[], res⟩ = some ⟨trailOf d, res ++ mainToksOf d⟩
  | cfg, .value (.number n), _, res => by
    have hdf := (goodTok_spec (intRender_goodTok n)).2.1
    have h := tokFold_run (intRender n) [] res hdf
    simp only [List.nil_append] at h
    simpa [dataToString, typeValueToString, mainToksOf, trailOf] using h
  | cfg, .value (.keyword k), hg, res => by
    have hk : goodTok k = true := by simpa [goodData] using hg
    have hdf := (goodTok_spec hk).2.1
    have h1 : tokFold [58] (⟨[], res⟩ : TState) = some ⟨[], res ++ [[58]]⟩ :=
      tokFold_delim_nocache 58 res (by decide) (by omega)
    have h2 : tokFold k ⟨[], res ++ [[58]]⟩ = some ⟨k, res ++ [[58]]⟩ := by
      simpa using tokFold_run k [] (res ++ [[58]]) hdf
    have h := tokFold_chain h1 h2
    simpa [dataToString, typeValueToString, mainToksOf, trailOf] using h
  | cfg, .value (.string s), hg, res => by
    have hs : goodStrContent s = true := by simpa [goodData] using hg
    have h := render_string s res hs
    simpa [dataToString, typeValueToString, mainToksOf, toksOf, trailOf,
      List.append_assoc] using h
  | cfg, .value (.symbol s), hg, res => by simp [goodData] at hg
  | cfg, .error e, hg, res => by simp [goodData] at hg
  | cfg, .data name args, hg, res => by
    simp only [goodData, Bool.and_eq_true] at hg
    obtain ⟨hn, hp⟩ := hg
    simp only [goodName, Bool.and_eq_true] at hn
    obtain ⟨hne, hdf, hv⟩ := goodTok_spec hn.1
    have h1 : tokFold [40] (⟨[], res⟩ : TState) = some ⟨[], res ++ [[40]]⟩ :=
      tokFold_delim_nocache 40 res (by decide) (by omega)
    have h2 : tokFold name ⟨[], res ++ [[40]]⟩ = some ⟨name, res ++ [[40]]⟩ := by
      simpa using tokFold_run name [] (res ++ [[40]]) hdf
    have h3 := tokFold_delim_flush 32 name (res ++ [[40]]) (by decide) hne hdf hv
    have h4 := render_pairs cfg args hp ((res ++ [[40]]) ++ ([name] ++ [[32]]))
    have h5 := tokFold_delim_after 41 (pairsTrail args)
      (((res ++ [[40]]) ++ ([name] ++ [[32]])) ++ pairsMain args)
      (by decide) (pairsTrail_good cfg args hp) (by omega)
    have hall := tokFold_chain h1 (tokFold_chain h2 (tokFold_chain h3
      (tokFold_chain h4 h5)))
    have hds : dataToString (.data name args) =
        [40] ++ (name ++ ([32] ++
          (List.intercalate [32] (pairStrings args) ++ [41]))) := by
      simp [dataToString, List.append_assoc]
    rw [hds, hall]
    simp [mainToksOf, trailOf, toksOf, pairsFlat_decomp cfg args hp,
      List.append_assoc]
  | cfg, .list [], hg, res => by simp [goodData] at hg
  | cfg, .list (d0 :: ds), hg, res => by
    have hgi : goodItems cfg (d0 :: ds) = true := by
      simp only [goodData, goodItems, Bool.and_eq_true] at hg ⊢
      exact hg.2
    have h1 : tokFold [39] (⟨[], res⟩ : TState) = some ⟨[], res ++ [[39]]⟩ :=
      tokFold_delim_nocache 39 res (by decide) (by omega)
    have h2 : tokFold [40] ⟨[], res ++ [[39]]⟩ =
        some ⟨[], (res ++ [[39]]) ++ [[40]]⟩ :=
      tokFold_delim_nocache 40 (res ++ [[39]]) (by decide) (by omega)
    have h3 := render_items cfg (d0 :: ds) hgi ((res ++ [[39]]) ++ [[40]])
    have h4 := tokFold_delim_after 41 (itemsTrail (d0 :: ds))
      (((res ++ [[39]]) ++ [[40]]) ++ itemsMain (d0 :: ds))
      (by decide) (itemsTrail_good cfg (d0 :: ds) hgi) (by omega)
    have hall := tokFold_chain h1 (tokFold_chain h2 (tokFold_chain h3 h4))
    have hds : dataToString (.list (d0 :: ds)) =
        [39] ++ ([40] ++
          (List.intercalate [32] (dataStrings (d0 :: ds)) ++ [41])) := by
      simp [dataToString, List.append_assoc]
    rw [hds, hall]
    simp [mainToksOf, trailOf, toksOf, itemsFlat_decomp cfg (d0 :: ds) hgi,
      List.append_assoc]
  | cfg, .map kwrds tb, hg, res => by
    simp only [goodData, Bool.and_eq_true] at hg
    obtain ⟨⟨⟨⟨hke, hka⟩, hsort⟩, htab⟩, hmem⟩ := hg
    have h1 : tokFold [39] (⟨[], res⟩ : TState) = some ⟨[], res ++ [[39]]⟩ :=
      tokFold_delim_nocache 39 res (by decide) (by omega)
    have h2 : tokFold [40] ⟨[], res ++ [[39]]⟩ =
        some ⟨[], (res ++ [[39]]) ++ [[40]]⟩ :=
      tokFold_delim_nocache 40 (res ++ [[39]]) (by decide) (by omega)
    have h3 := render_rows cfg kwrds tb hka htab ((res ++ [[39]]) ++ [[40]])
    have h4 := tokFold_delim_after 41 (rowsTrail kwrds tb)
      (((res ++ [[39]]) ++ [[40]]) ++ rowsMain kwrds tb)
      (by decide) (rowsTrail_good cfg kwrds tb htab) (by omega)
    have hall := tokFold_chain h1 (tokFold_chain h2 (tokFold_chain h3 h4))
    have hds : dataToString (.map kwrds tb) =
        [39] ++ ([40] ++
          (List.intercalate [32] (kwRows kwrds tb) ++ [41])) := by
      simp [dataToString, List.append_assoc]
    rw [hds, hall]
    simp [mainToksOf, trailOf, toksOf, rowsFlat_decomp cfg kwrds tb htab,
      List.append_assoc]

termination_by cfg d _ _ => sizeOf d

/-- Tokenizing the space-separated pair rows of a record body. -/
theorem render_pairs :
    ∀ (cfg : Bool) (args : List (Expr × Data)), goodPairs cfg args = true →
    ∀ res : List Str,
    tokFold (List.intercalate [32] (pairStrings args)) ⟨[], res⟩ =
      some ⟨pairsTrail args, res ++ pairsMain args⟩
  | cfg, [], _, res => by
    simp [pairStrings, intercalate_nil, tokFold, pairsTrail, pairsMain]
  | cfg, [(k, v)], hg, res => by
    obtain ⟨kt, hk, hkt, hv, -⟩ := goodPairs_elim cfg k v [] hg
    subst hk
    obtain ⟨hne, hdf, hvv⟩ := goodTok_spec hkt
    have h1 : tokFold [58] (⟨[], res⟩ : TState) = some ⟨[], res ++ [[58]]⟩ :=
      tokFold_delim_nocache 58 res (by decide) (by omega)
    have h2 : tokFold kt ⟨[], res ++ [[58]]⟩ = some ⟨kt, res ++ [[58]]⟩ := by
      simpa using tokFold_run kt [] (res ++ [[58]]) hdf
    have h3 := tokFold_delim_flush 32 kt (res ++ [[58]]) (by decide) hne hdf hvv
    have h4 := render_data cfg v hv ((res ++ [[58]]) ++ ([kt] ++ [[32]]))
    have hall := tokFold_chain h1 (tokFold_chain h2 (tokFold_chain h3 h4))
    have hseg : List.intercalate [32]
        (pairStrings [((.atom ⟨.keyword kt⟩ : Expr), v)]) =
        [58] ++ (kt ++ ([32] ++ dataToString v)) := by
      simp [pairStrings, intercalate_single, exprIntoTokens, typeValueToString,
        List.append_assoc]
    rw [hseg, hall]
    simp [pairsTrail, pairsMain, keyToks, List.append_assoc]
  | cfg, (k, v) :: (ek, ev) :: rest, hg, res => by
    obtain ⟨kt, hk, hkt, hv, hg'⟩ := goodPairs_elim cfg k v ((ek, ev) :: rest) hg
    subst hk
    obtain ⟨hne, hdf, hvv⟩ := goodTok_spec hkt
    have h1 : tokFold [58] (⟨[], res⟩ : TState) = some ⟨[], res ++ [[58]]⟩ :=
      tokFold_delim_nocache 58 res (by decide) (by omega)
    have h2 : tokFold kt ⟨[], res ++ [[58]]⟩ = some ⟨kt, res ++ [[58]]⟩ := by
      simpa using tokFold_run kt [] (res ++ [[58]]) hdf
    have h3 := tokFold_delim_flush 32 kt (res ++ [[58]]) (by decide) hne hdf hvv
    have h4 := render_data cfg v hv ((res ++ [[58]]) ++ ([kt] ++ [[32]]))
    have hgt : trailOf v = [] ∨ goodTok (trailOf v) = true := by
      rcases good_trail cfg v hv with h | h
      · exact Or.inr h.1
      · exact Or.inl h.1
    have hsp : (32 : Nat) = 32 → trailOf v ≠ [] ∨
        ((((res ++ [[58]]) ++ ([kt] ++ [[32]])) ++ mainToksOf v).getLast? ≠
          some [32]) := by
      intro _
      rcases good_trail cfg v hv with h | h
      · exact Or.inl h.2
      · exact Or.inr (h.2 ((res ++ [[58]]) ++ ([kt] ++ [[32]])))
    have h5 := tokFold_delim_after 32 (trailOf v)
      (((res ++ [[58]]) ++ ([kt] ++ [[32]])) ++ mainToksOf v)
      (by decide) hgt hsp
    have h6 := render_pairs cfg ((ek, ev) :: rest) hg'
      ((((res ++ [[58]]) ++ ([kt] ++ [[32]])) ++ mainToksOf v) ++
        (flushT (trailOf v) ++ [[32]]))
    have hall := tokFold_chain h1 (tokFold_chain h2 (tokFold_chain h3
      (tokFold_chain h4 (tokFold_chain h5 h6))))
    have hseg : List.intercalate [32]
        (pairStrings (((.atom ⟨.keyword kt⟩ : Expr), v) :: (ek, ev) :: rest)) =
        [58] ++ (kt ++ ([32] ++ (dataToString v ++ ([32] ++
          List.intercalate [32] (pairStrings ((ek, ev) :: rest)))))) := by
      simp [pairStrings, intercalate_cons_cons, exprIntoTokens,
        typeValueToString, List.append_assoc]
    rw [hseg, hall]
    simp [pairsTrail, pairsMain, keyToks, toks_decomp cfg v hv,
      List.append_assoc]

termination_by cfg args _ _ => sizeOf args

/-- Tokenizing the space-separated elements of a list body. -/
theorem render_items :
    ∀ (cfg : Bool) (ds : List Data), goodItems cfg ds = true →
    ∀ res : List Str,
    tokFold (List.intercalate [32] (dataStrings ds)) ⟨[], res⟩ =
      some ⟨itemsTrail ds, res ++ itemsMain ds⟩
  | cfg, [], _, res => by
    simp [dataStrings, intercalate_nil, tokFold, itemsTrail, itemsMain]
  | cfg, [d], hg, res => by
    have hd : goodData cfg d = true := by simpa [goodItems] using hg
    have h := render_data cfg d hd res
    have hseg : List.intercalate [32] (dataStrings [d]) = dataToString d := by
      simp [dataStrings, intercalate_single]
    rw [hseg, h]
    simp [itemsTrail, itemsMain]
  | cfg, d :: e :: rest, hg, res => by
    have hd : goodData cfg d = true := by
      simp only [goodItems, Bool.and_eq_true] at hg
      exact hg.1
    have hg' : goodItems cfg (e :: rest) = true := by
      simp only [goodItems, Bool.and_eq_true] at hg ⊢
      exact hg.2
    have h1 := render_data cfg d hd res
    have hgt : trailOf d = [] ∨ goodTok (trailOf d) = true := by
      rcases good_trail cfg d hd with h | h
      · exact Or.inr h.1
      · exact Or.inl h.1
    have hsp : (32 : Nat) = 32 → trailOf d ≠ [] ∨
        ((res ++ mainToksOf d).getLast? ≠ some [32]) := by
      intro _
      rcases good_trail cfg d hd with h | h
      · exact Or.inl h.2
      · exact Or.inr (h.2 res)
    have h2 := tokFold_delim_after 32 (trailOf d) (res ++ mainToksOf d)
      (by decide) hgt hsp
    have h3 := render_items cfg (e :: rest) hg'
      ((res ++ mainToksOf d) ++ (flushT (trailOf d) ++ [[32]]))
    have hall := tokFold_chain h1 (tokFold_chain h2 h3)
    have hseg : List.intercalate [32] (dataStrings (d :: e :: rest)) =
        dataToString d ++ ([32] ++
          List.intercalate [32] (dataStrings (e :: rest))) := by
      simp [dataStrings, intercalate_cons_cons, List.append_assoc]
    rw [hseg, hall]
    simp [itemsTrail, itemsMain, toks_decomp cfg d hd, List.append_assoc]

termination_by cfg ds _ _ => sizeOf ds

/-- Tokenizing the rendered `:key value` rows of a map body. -/
theorem render_rows :
    ∀ (cfg : Bool) (ks : List Str) (tb : List (Str × Data)),
    ks.all goodTok = true → goodTable cfg ks tb = true →
    ∀ res : List Str,
    tokFold (List.intercalate [32] (kwRows ks tb)) ⟨[], res⟩ =
      some ⟨rowsTrail ks tb, res ++ rowsMain ks tb⟩
  | cfg, [], tb, _, _, res => by
    simp [kwRows, intercalate_nil, tokFold, rowsTrail, rowsMain]
  | cfg, [k], tb, hks, htab, res => by
    have hkt : goodTok k = true := by simpa using hks
    have hl : lookupGood cfg k tb = true := by simpa [goodTable] using htab
    obtain ⟨hne, hdf, hvv⟩ := goodTok_spec hkt
    have h1 : tokFold [58] (⟨[], res⟩ : TState) = some ⟨[], res ++ [[58]]⟩ :=
      tokFold_delim_nocache 58 res (by decide) (by omega)
    have h2 : tokFold k ⟨[], res ++ [[58]]⟩ = some ⟨k, res ++ [[58]]⟩ := by
      simpa using tokFold_run k [] (res ++ [[58]]) hdf
    have h3 := tokFold_delim_flush 32 k (res ++ [[58]]) (by decide) hne hdf hvv
    have h4 := render_lookup cfg k tb hl ((res ++ [[58]]) ++ ([k] ++ [[32]]))
    have hall := tokFold_chain h1 (tokFold_chain h2 (tokFold_chain h3 h4))
    have hseg : List.intercalate [32] (kwRows [k] tb) =
        [58] ++ (k ++ ([32] ++ lookupRender k tb)) := by
      simp [kwRows, intercalate_single, List.append_assoc]
    rw [hseg, hall]
    simp [rowsTrail, rowsMain, List.append_assoc]
  | cfg, k :: k2 :: ks, tb, hks, htab, res => by
    have hkt : goodTok k = true := by
      simp only [List.all_cons, Bool.and_eq_true] at hks
      exact hks.1
    have hks' : (k2 :: ks).all goodTok = true := by
      simp only [List.all_cons, Bool.and_eq_true] at hks ⊢
      exact hks.2
    have hl : lookupGood cfg k tb = true := by
      simp only [goodTable, Bool.and_eq_true] at htab
      exact htab.1
    have htab' : goodTable cfg (k2 :: ks) tb = true := by
      simp only [goodTable, Bool.and_eq_true] at htab ⊢
      exact htab.2
    have hf := lookup_found cfg k tb hl
    obtain ⟨hne, hdf, hvv⟩ := goodTok_spec hkt
    have h1 : tokFold [58] (⟨[], res⟩ : TState) = some ⟨[], res ++ [[58]]⟩ :=
      tokFold_delim_nocache 58 res (by decide) (by omega)
    have h2 : tokFold k ⟨[], res ++ [[58]]⟩ = some ⟨k, res ++ [[58]]⟩ := by
      simpa using tokFold_run k [] (res ++ [[58]]) hdf
    have h3 := tokFold_delim_flush 32 k (res ++ [[58]]) (by decide) hne hdf hvv
    have h4 := render_lookup cfg k tb hl ((res ++ [[58]]) ++ ([k] ++ [[32]]))
    have hgt : trailOf (lookupData k tb) = [] ∨
        goodTok (trailOf (lookupData k tb)) = true := by
      rcases good_trail cfg _ hf.1 with h | h
      · exact Or.inr h.1
      · exact Or.inl h.1
    have hsp : (32 : Nat) = 32 → trailOf (lookupData k tb) ≠ [] ∨
        ((((res ++ [[58]]) ++ ([k] ++ [[32]])) ++
          mainToksOf (lookupData k tb)).getLast? ≠ some [32]) := by
      intro _
      rcases good_trail cfg _ hf.1 with h | h
      · exact Or.inl h.2
      · exact Or.inr (h.2 ((res ++ [[58]]) ++ ([k] ++ [[32]])))
    have h5 := tokFold_delim_after 32 (trailOf (lookupData k tb))
      (((res ++ [[58]]) ++ ([k] ++ [[32]])) ++ mainToksOf (lookupData k tb))
      (by decide) hgt hsp
    have h6 := render_rows cfg (k2 :: ks) tb hks' htab'
      ((((res ++ [[58]]) ++ ([k] ++ [[32]])) ++ mainToksOf (lookupData k tb)) ++
        (flushT (trailOf (lookupData k tb)) ++ [[32]]))
    have hall := tokFold_chain h1 (tokFold_chain h2 (tokFold_chain h3
      (tokFold_chain h4 (tokFold_chain h5 h6))))
    have hseg : List.intercalate [32] (kwRows (k :: k2 :: ks) tb) =
        [58] ++ (k ++ ([32] ++ (lookupRender k tb ++ ([32] ++
          List.intercalate [32] (kwRows (k2 :: ks) tb))))) := by
      simp [kwRows, intercalate_cons_cons, List.append_assoc]
    rw [hseg, hall]
    simp [rowsTrail, rowsMain, hf.2.2.1, toks_decomp cfg _ hf.1,
      List.append_assoc]

termination_by cfg ks tb _ _ _ => sizeOf ks + sizeOf tb

/-- Tokenizing a rendered map entry found under key `k`. -/
theorem render_lookup :
    ∀ (cfg : Bool) (k : Str) (tb : List (Str × Data)),
    lookupGood cfg k tb = true → ∀ res : List Str,
    tokFold (lookupRender k tb) ⟨[], res⟩ =
      some ⟨trailOf (lookupData k tb), res ++ mainToksOf (lookupData k tb)⟩
  | cfg, k, [], hg, res => by simp [lookupGood] at hg
  | cfg, k, (k', v) :: rest, hg, res => by
    by_cases hk : k = k'
    · subst hk
      have hv : goodData cfg v = true := by simpa [lookupGood] using hg
      have h := render_data cfg v hv res
      have h1 : lookupRender k ((k, v) :: rest) = dataToString v := by
        simp [lookupRender]
      have h2 : lookupData k ((k, v) :: rest) = v := by
        simp [lookupData, mapGet]
      rw [h1, h2]
      exact h
    · have hg' : lookupGood cfg k rest = true := by
        simpa [lookupGood, hk] using hg
      have h := render_lookup cfg k rest hg' res
      have h1 : lookupRender k ((k', v) :: rest) = lookupRender k rest := by
        simp [lookupRender, hk]
      have h2 : lookupData k ((k', v) :: rest) = lookupData k rest := by
        simp [lookupData, mapGet, hk]
      rw [h1, h2]
      exact h
termination_by cfg k tb _ _ => sizeOf tb

end


/-- Tokenizing the full rendering of a good value (the Rust `tokenize`,
final flush included) produces exactly its ghost token stream. -/
theorem tokenize_render (cfg : Bool) (d : Data) (hg : goodData cfg d = true) :
    tokenize (dataToString d) = some (toksOf d) := by
  have h := render_data cfg d hg []
  simp only [List.nil_append] at h
  simp only [tokenize, h]
  rcases good_trail cfg d hg with ht | ht
  · obtain ⟨hne, hdf, hv⟩ := goodTok_spec ht.1
    simp [flushCache, hne, hv, toks_decomp cfg d hg, flushT]
  · simp [flushCache, ht.1, toks_decomp cfg d hg, flushT]

/-! ### Reading the rendered tokens back -/

/-- A good token is never one of the delimiter singleton tokens. -/
theorem goodTok_ne_tok {t : Str} (h : goodTok t = true) :
    t ≠ [40] ∧ t ≠ [39] ∧ t ≠ [34] ∧ t ≠ [58] ∧ t ≠ [41] ∧ t ≠ [32] ∧
      t ≠ [10] := by
  obtain ⟨hne, hdf, -⟩ := goodTok_spec h
  refine ⟨?_, ?_, ?_, ?_, ?_, ?_, ?_⟩ <;>
    · intro hh
      subst hh
      simp [isDelim] at hdf

/-- The first token of a good value's stream: present and neither a closing
paren nor whitespace. -/
theorem toksOf_head (cfg : Bool) (d : Data) (hg : goodData cfg d = true) :
    ∃ t0 ts0, toksOf d = t0 :: ts0 ∧ t0 ≠ [41] ∧ t0 ≠ [32] ∧ t0 ≠ [10] := by
  match d with
  | .value (.number n) =>
    obtain ⟨-, -, -, -, h41, h32, h10⟩ := goodTok_ne_tok (intRender_goodTok n)
    exact ⟨intRender n, [], by simp [toksOf], h41, h32, h10⟩
  | .value (.keyword k) =>
    exact ⟨[58], [k], by simp [toksOf], by decide, by decide, by decide⟩
  | .value (.string s) =>
    exact ⟨[34], contentToks s ++ [[34]], by simp [toksOf], by decide,
      by decide, by decide⟩
  | .value (.symbol s) => simp [goodData] at hg
  | .error e => simp [goodData] at hg
  | .data name args =>
    exact ⟨[40], [name, [32]] ++ pairsFlat args ++ [[41]], by simp [toksOf],
      by decide, by decide, by decide⟩
  | .list ds =>
    exact ⟨[39], [[40]] ++ itemsFlat ds ++ [[41]], by simp [toksOf],
      by decide, by decide, by decide⟩
  | .map kwrds tb =>
    exact ⟨[39], [[40]] ++ rowsFlat kwrds tb ++ [[41]], by simp [toksOf],
      by decide, by decide, by decide⟩

/-- Flattening the split tokens and the pending run recovers the scanned
bytes. -/
theorem splitToksC_flatten :
    ∀ (s : Str) (cache : List Nat),
    (splitToksC s cache).flatten ++ finalCacheC s cache = cache ++ s
  | [], cache => by simp [splitToksC, finalCacheC]
  | b :: r, cache => by
    by_cases hd : isDelim b
    · have ih := splitToksC_flatten r []
      rcases Decidable.em (cache = []) with hc | hc <;>
        simp [splitToksC, finalCacheC, hd, hc, ih, List.append_assoc]
    · have ih := splitToksC_flatten r (cache ++ [b])
      simp only [splitToksC, finalCacheC, if_neg hd]
      rw [ih]
      simp [List.append_assoc]

theorem contentToks_flatten (s : Str) : (contentToks s).flatten = s := by
  simp [contentToks, flushT]
  rcases Decidable.em (finalCacheC s [] = []) with hc | hc
  · have := splitToksC_flatten s []
    simpa [hc] using this
  · have := splitToksC_flatten s []
    simp [hc]
    simpa using this

/-- Generic preservation of a byte predicate by the pending run. -/
theorem finalCacheC_all (p : Nat → Bool) :
    ∀ (s : Str) (cache : List Nat), cache.all p = true → s.all p = true →
    (finalCacheC s cache).all p = true
  | [], cache, hc, _ => hc
  | b :: r, cache, hc, hs => by
    simp only [List.all_cons, Bool.and_eq_true] at hs
    by_cases hd : isDelim b
    · simp only [finalCacheC, hd, if_true]
      exact finalCacheC_all p r [] rfl hs.2
    · simp only [finalCacheC, hd, if_false]
      exact finalCacheC_all p r (cache ++ [b])
        (by simp [List.all_append, hc, hs.1]) hs.2

/-- A nonempty token whose bytes exclude `"` and `\` is neither the
backslash token nor the double-quote token. -/
theorem tok_safe {c : Str} (hne : c ≠ [])
    (hall : (c.all fun b => !decide (b = 34) && !decide (b = 92)) = true) :
    (!decide (c = [92]) && !decide (c = [34])) = true := by
  simp only [Bool.and_eq_true, Bool.not_eq_true', decide_eq_false_iff_not]
  constructor
  · intro hh
    subst hh
    simp at hall
  · intro hh
    subst hh
    simp at hall

/-- All content tokens of the scanned body avoid `\` and `"`. -/
theorem splitToksC_safe :
    ∀ (s : Str) (cache : List Nat),
    (s.all fun b => !decide (b = 34) && !decide (b = 92)) = true →
    (cache.all fun b => !decide (b = 34) && !decide (b = 92)) = true →
    ((splitToksC s cache).all fun t =>
      !decide (t = [92]) && !decide (t = [34])) = true
  | [], _, _, _ => rfl
  | b :: r, cache, hs, hc => by
    simp only [List.all_cons, Bool.and_eq_true] at hs
    by_cases hd : isDelim b
    · have ih := splitToksC_safe r [] hs.2 rfl
      have hb : (!decide (([b] : Str) = [92]) && !decide (([b] : Str) = [34])) = true := by
        simp only [Bool.and_eq_true, Bool.not_eq_true', decide_eq_false_iff_not] at hs ⊢
        exact ⟨by simpa using fun hh => hs.1.2 (by simp [hh]),
          by simpa using fun hh => hs.1.1 (by simp [hh])⟩
      rcases Decidable.em (cache = []) with hce | hce
      · simp [splitToksC, hd, hce, List.all_append, hb, ih]
        exact ⟨by simpa using hs.1.2, by simpa using hs.1.1⟩
      · simp [splitToksC, hd, hce, List.all_append, hb, ih, tok_safe hce hc]
        exact ⟨by simpa using hs.1.2, by simpa using hs.1.1⟩
    · have ih := splitToksC_safe r (cache ++ [b]) hs.2
        (by simp [List.all_append, hc, hs.1])
      simpa [splitToksC, hd] using ih

theorem contentToks_safe (s : Str) (hg : goodStrContent s = true) :
    ((contentToks s).all fun t =>
      !decide (t = [92]) && !decide (t = [34])) = true := by
  simp only [goodStrContent, Bool.and_eq_true] at hg
  have hbytes : (s.all fun b => !decide (b = 34) && !decide (b = 92)) = true :=
    hg.1.1
  simp only [contentToks, List.all_append, Bool.and_eq_true]
  refine ⟨splitToksC_safe s [] hbytes rfl, ?_⟩
  rcases Decidable.em (finalCacheC s [] = []) with hc | hc
  · simp [flushT, hc]
  · simp only [flushT, if_neg hc, List.all_cons, List.all_nil, Bool.and_true]
    exact tok_safe hc (finalCacheC_all _ s [] rfl hbytes)

/-- The string-body loop consumes safe tokens verbatim up to the closing
quote. -/
theorem readStringLoop_content :
    ∀ (toks : List Str) (acc : Str) (rest : List Str),
    (toks.all fun t => !decide (t = [92]) && !decide (t = [34])) = true →
    readStringLoop false acc (toks ++ ([[34]] ++ rest)) =
      .ok (acc ++ toks.flatten, rest)
  | [], acc, rest, _ => by
    simp [readStringLoop, tokBackslash, tokDq]
  | t :: toks, acc, rest, h => by
    simp only [List.all_cons, Bool.and_eq_true, Bool.not_eq_true',
      decide_eq_false_iff_not] at h
    have hbs : ¬ t = tokBackslash := by simpa [tokBackslash] using h.1.1
    have hdq : ¬ t = tokDq := by simpa [tokDq] using h.1.2
    have ih := readStringLoop_content toks (acc ++ t) rest h.2
    simp only [List.cons_append, List.nil_append] at ih
    simp [readStringLoop, hbs, hdq, ih, List.append_assoc]


theorem not_ws {t : Str} (h32 : t ≠ [32]) (h10 : t ≠ [10]) :
    ¬(t = tokSpace ∨ t = tokNewline) := by
  rintro (hh | hh)
  · exact h32 (by simpa [tokSpace] using hh)
  · exact h10 (by simpa [tokNewline] using hh)

mutual

/-- Reading a good value's token stream back: the dispatcher consumes
exactly the value's tokens and returns its ghost expression. -/
theorem parse_data :
    ∀ (fuel : Nat) (cfg : Bool) (d : Data) (rest : List Str),
    goodData cfg d = true → 3 * (toksOf d).length ≤ fuel →
    dispatch fuel cfg ((toksOf d).headD []) (toksOf d ++ rest) =
      .ok (exprOf d, rest)
  | fuel, cfg, .value (.number n), rest, hg, hf => by
    simp only [goodData, Bool.and_eq_true, decide_eq_true_eq] at hg
    obtain ⟨⟨hcfg, hlo⟩, hhi⟩ := hg
    subst hcfg
    obtain ⟨h40, h39, h34, h58, -, -, -⟩ := goodTok_ne_tok (intRender_goodTok n)
    have hlen : (toksOf (Data.value (TypeValue.number n))).length = 1 := by
      simp [toksOf]
    rw [hlen] at hf
    obtain ⟨f, rfl⟩ : ∃ f, fuel = f + 1 := ⟨fuel - 1, by omega⟩
    rw [show toksOf (Data.value (TypeValue.number n)) = [intRender n] from
      by simp [toksOf]]
    simp only [List.headD_cons, List.singleton_append, dispatch]
    rw [if_neg (by simpa [tokOpen] using h40),
      if_neg (by simpa [tokQuote] using h39),
      if_neg (by simpa [tokDq] using h34),
      if_neg (by simpa [tokColon] using h58)]
    simp [readAtom, parseI64_intRender n hlo hhi, exprOf]
  | fuel, cfg, .value (.keyword k), rest, hg, hf => by
    have hlen : (toksOf (Data.value (TypeValue.keyword k))).length = 2 := by
      simp [toksOf]
    rw [hlen] at hf
    obtain ⟨f, rfl⟩ : ∃ f, fuel = f + 1 := ⟨fuel - 1, by omega⟩
    rw [show toksOf (Data.value (TypeValue.keyword k)) = [[58], k] from
      by simp [toksOf]]
    simp [dispatch, tokOpen, tokQuote, tokDq, tokColon, readKeyword, exprOf]
  | fuel, cfg, .value (.string s), rest, hg, hf => by
    have hs : goodStrContent s = true := by simpa [goodData] using hg
    have hlen : (toksOf (Data.value (TypeValue.string s))).length =
        (contentToks s).length + 2 := by
      simp only [toksOf, List.length_append, List.length_cons, List.length_nil]
      omega
    rw [hlen] at hf
    obtain ⟨f, rfl⟩ : ∃ f, fuel = f + 1 := ⟨fuel - 1, by omega⟩
    have hloop := readStringLoop_content (contentToks s) [] rest
      (contentToks_safe s hs)
    rw [contentToks_flatten s] at hloop
    simp only [List.nil_append] at hloop
    rw [show toksOf (Data.value (TypeValue.string s)) ++ rest =
      [34] :: (contentToks s ++ ([[34]] ++ rest)) from
      by simp [toksOf, List.append_assoc]]
    rw [show (toksOf (Data.value (TypeValue.string s))).headD [] = [34] from
      by simp [toksOf]]
    simp only [dispatch]
    rw [if_neg (by decide), if_neg (by decide), if_pos (by decide)]
    simp only [readString, List.drop_succ_cons, List.drop_zero, hloop]
    simp [exprOf]
  | fuel, cfg, .value (.symbol s), rest, hg, hf => by simp [goodData] at hg
  | fuel, cfg, .error e, rest, hg, hf => by simp [goodData] at hg
  | fuel, cfg, .data name args, rest, hg, hf => by
    simp only [goodData, Bool.and_eq_true] at hg
    obtain ⟨hn, hp⟩ := hg
    simp only [goodName, Bool.and_eq_true] at hn
    obtain ⟨h40, h39, h34, h58, h41, h32, h10⟩ := goodTok_ne_tok hn.1
    have hlen : (toksOf (Data.data name args)).length =
        (pairsFlat args).length + 4 := by
      simp only [toksOf, List.length_append, List.length_cons, List.length_nil]
      omega
    rw [hlen] at hf
    obtain ⟨g, rfl⟩ : ∃ g, fuel = g + 1 := ⟨fuel - 1, by omega⟩
    rw [show toksOf (Data.data name args) ++ rest =
      [40] :: (name :: ([32] :: (pairsFlat args ++ ([[41]] ++ rest)))) from
      by simp [toksOf, List.append_assoc]]
    rw [show (toksOf (Data.data name args)).headD [] = [40] from
      by simp [toksOf]]
    simp only [dispatch]
    rw [if_pos (by decide)]
    obtain ⟨g1, rfl⟩ : ∃ g1, g = g1 + 1 := ⟨g - 1, by omega⟩
    simp only [readExp, List.drop_succ_cons, List.drop_zero]
    obtain ⟨g2, rfl⟩ : ∃ g2, g1 = g2 + 1 := ⟨g1 - 1, by omega⟩
    simp only [readExpLoop]
    rw [if_neg (by simpa [tokClose] using h41), if_neg (not_ws h32 h10)]
    obtain ⟨g3, rfl⟩ : ∃ g3, g2 = g3 + 1 := ⟨g2 - 1, by omega⟩
    have hatom : readAtom cfg
        (name :: ([32] :: (pairsFlat args ++ ([[41]] ++ rest)))) =
        .ok (.atom ⟨.symbol name⟩,
          [32] :: (pairsFlat args ++ ([[41]] ++ rest))) := by
      cases cfg with
      | false => simp [readAtom]
      | true =>
        have h2 := hn.2
        simp only [Bool.not_true, Bool.false_or] at h2
        rw [Option.isNone_iff_eq_none] at h2
        simp [readAtom, h2]
    have hdisp : dispatch (g3 + 1) cfg name
        (name :: ([32] :: (pairsFlat args ++ ([[41]] ++ rest)))) =
        .ok (.atom ⟨.symbol name⟩,
          [32] :: (pairsFlat args ++ ([[41]] ++ rest))) := by
      simp only [dispatch]
      rw [if_neg (by simpa [tokOpen] using h40),
        if_neg (by simpa [tokQuote] using h39),
        if_neg (by simpa [tokDq] using h34),
        if_neg (by simpa [tokColon] using h58)]
      exact hatom
    simp only [hdisp]
    simp only [readExpLoop]
    rw [if_neg (by decide), if_pos (Or.inl (by decide))]
    rw [parse_pairs g3 cfg args ([] ++ [Expr.atom ⟨.symbol name⟩]) rest hp
      (by omega)]
    simp [exprOf]
  | fuel, cfg, .list [], rest, hg, hf => by simp [goodData] at hg
  | fuel, cfg, .list (d0 :: ds), rest, hg, hf => by
    have hgi : goodItems cfg (d0 :: ds) = true := by
      simp only [goodData, goodItems, Bool.and_eq_true] at hg ⊢
      exact hg.2
    have hlen : (toksOf (Data.list (d0 :: ds))).length =
        (itemsFlat (d0 :: ds)).length + 3 := by
      simp only [toksOf, List.length_append, List.length_cons, List.length_nil]
      omega
    rw [hlen] at hf
    obtain ⟨g, rfl⟩ : ∃ g, fuel = g + 1 := ⟨fuel - 1, by omega⟩
    rw [show toksOf (Data.list (d0 :: ds)) ++ rest =
      [39] :: ([40] :: (itemsFlat (d0 :: ds) ++ ([[41]] ++ rest))) from
      by simp [toksOf, List.append_assoc]]
    rw [show (toksOf (Data.list (d0 :: ds))).headD [] = [39] from
      by simp [toksOf]]
    simp only [dispatch]
    rw [if_neg (by decide), if_pos (by decide)]
    obtain ⟨g1, rfl⟩ : ∃ g1, g = g1 + 1 := ⟨g - 1, by omega⟩
    simp only [readQuote, List.drop_succ_cons, List.drop_zero]
    have hdisp : dispatch g1 cfg [40]
        ([40] :: (itemsFlat (d0 :: ds) ++ ([[41]] ++ rest))) =
        .ok (.list (itemsExprOf (d0 :: ds)), rest) := by
      obtain ⟨g2, rfl⟩ : ∃ g2, g1 = g2 + 1 := ⟨g1 - 1, by omega⟩
      simp only [dispatch]
      rw [if_pos (by decide)]
      obtain ⟨g3, rfl⟩ : ∃ g3, g2 = g3 + 1 := ⟨g2 - 1, by omega⟩
      simp only [readExp, List.drop_succ_cons, List.drop_zero]
      rw [parse_items g3 cfg (d0 :: ds) [] rest hgi (by omega)]
      simp
    simp only [hdisp]
    simp [exprOf]
  | fuel, cfg, .map kwrds tb, rest, hg, hf => by
    simp only [goodData, Bool.and_eq_true] at hg
    obtain ⟨⟨⟨⟨hke, hka⟩, hsort⟩, htab⟩, hmem⟩ := hg
    have hlen : (toksOf (Data.map kwrds tb)).length =
        (rowsFlat kwrds tb).length + 3 := by
      simp only [toksOf, List.length_append, List.length_cons, List.length_nil]
      omega
    rw [hlen] at hf
    obtain ⟨g, rfl⟩ : ∃ g, fuel = g + 1 := ⟨fuel - 1, by omega⟩
    rw [show toksOf (Data.map kwrds tb) ++ rest =
      [39] :: ([40] :: (rowsFlat kwrds tb ++ ([[41]] ++ rest))) from
      by simp [toksOf, List.append_assoc]]
    rw [show (toksOf (Data.map kwrds tb)).headD [] = [39] from
      by simp [toksOf]]
    simp only [dispatch]
    rw [if_neg (by decide), if_pos (by decide)]
    obtain ⟨g1, rfl⟩ : ∃ g1, g = g1 + 1 := ⟨g - 1, by omega⟩
    simp only [readQuote, List.drop_succ_cons, List.drop_zero]
    have hdisp : dispatch g1 cfg [40]
        ([40] :: (rowsFlat kwrds tb ++ ([[41]] ++ rest))) =
        .ok (.list (rowsExprOf kwrds tb), rest) := by
      obtain ⟨g2, rfl⟩ : ∃ g2, g1 = g2 + 1 := ⟨g1 - 1, by omega⟩
      simp only [dispatch]
      rw [if_pos (by decide)]
      obtain ⟨g3, rfl⟩ : ∃ g3, g2 = g3 + 1 := ⟨g2 - 1, by omega⟩
      simp only [readExp, List.drop_succ_cons, List.drop_zero]
      rw [parse_rows g3 cfg kwrds tb [] rest hka htab (by omega)]
      simp
    simp only [hdisp]
    simp [exprOf]
termination_by fuel cfg d _ => sizeOf d

/-- The `read_exp` loop over rendered pair rows, stopped by `)`. -/
theorem parse_pairs :
    ∀ (fuel : Nat) (cfg : Bool) (args : List (Expr × Data)) (acc : List Expr)
      (rest : List Str),
    goodPairs cfg args = true → 3 * (pairsFlat args).length + 1 ≤ fuel →
    readExpLoop fuel cfg (pairsFlat args ++ ([[41]] ++ rest)) acc =
      .ok (.list (acc ++ pairsExprOf args), rest)
  | fuel, cfg, [], acc, rest, _, hf => by
    obtain ⟨f, rfl⟩ : ∃ f, fuel = f + 1 := ⟨fuel - 1, by omega⟩
    rw [show pairsFlat [] ++ ([[41]] ++ rest) = [41] :: rest from
      by simp [pairsFlat]]
    simp only [readExpLoop]
    rw [if_pos (by decide)]
    simp [pairsExprOf]
  | fuel, cfg, [(k, v)], acc, rest, hg, hf => by
    obtain ⟨kt, hk, hkt, hv, -⟩ := goodPairs_elim cfg k v [] hg
    subst hk
    have hlen : (pairsFlat [((.atom ⟨.keyword kt⟩ : Expr), v)]).length =
        (toksOf v).length + 3 := by
      simp only [pairsFlat, keyToks, List.length_append, List.length_cons,
        List.length_nil]
      omega
    rw [hlen] at hf
    obtain ⟨t0, ts0, htv, ht41, ht32, ht10⟩ := toksOf_head cfg v hv
    obtain ⟨f, rfl⟩ : ∃ f, fuel = f + 1 := ⟨fuel - 1, by omega⟩
    rw [show pairsFlat [((.atom ⟨.keyword kt⟩ : Expr), v)] ++ ([[41]] ++ rest) =
      [58] :: (kt :: ([32] :: (toksOf v ++ ([[41]] ++ rest)))) from
      by simp [pairsFlat, keyToks, List.append_assoc]]
    simp only [readExpLoop]
    rw [if_neg (by decide), if_neg (by decide)]
    have hdisp : dispatch f cfg [58]
        ([58] :: (kt :: ([32] :: (toksOf v ++ ([[41]] ++ rest))))) =
        .ok (.atom ⟨.keyword kt⟩,
          [32] :: (toksOf v ++ ([[41]] ++ rest))) := by
      obtain ⟨f1, rfl⟩ : ∃ f1, f = f1 + 1 := ⟨f - 1, by omega⟩
      simp [dispatch, tokOpen, tokQuote, tokDq, tokColon, readKeyword]
    simp only [hdisp]
    obtain ⟨f1, rfl⟩ : ∃ f1, f = f1 + 1 := ⟨f - 1, by omega⟩
    simp only [readExpLoop]
    rw [if_neg (by decide), if_pos (Or.inl (by decide))]
    obtain ⟨f2, rfl⟩ : ∃ f2, f1 = f2 + 1 := ⟨f1 - 1, by omega⟩
    have hdispv := parse_data f2 cfg v ([[41]] ++ rest) hv (by omega)
    rw [htv] at hdispv ⊢
    simp only [List.headD_cons, List.cons_append, List.nil_append] at hdispv
    simp only [List.cons_append, List.nil_append, readExpLoop]
    rw [if_neg (by simpa using ht41), if_neg (not_ws ht32 ht10)]
    simp only [hdispv]
    obtain ⟨f3, rfl⟩ : ∃ f3, f2 = f3 + 1 := ⟨f2 - 1, by omega⟩
    simp only [List.singleton_append, readExpLoop]
    rw [if_pos (by decide)]
    simp [pairsExprOf, List.append_assoc]
  | fuel, cfg, (k, v) :: (ek, ev) :: rest2, acc, rest, hg, hf => by
    obtain ⟨kt, hk, hkt, hv, hg'⟩ := goodPairs_elim cfg k v ((ek, ev) :: rest2) hg
    subst hk
    have hlen : (pairsFlat (((.atom ⟨.keyword kt⟩ : Expr), v) ::
        (ek, ev) :: rest2)).length =
        (toksOf v).length + (pairsFlat ((ek, ev) :: rest2)).length + 4 := by
      simp only [pairsFlat, keyToks, List.length_append, List.length_cons,
        List.length_nil]
      omega
    rw [hlen] at hf
    obtain ⟨t0, ts0, htv, ht41, ht32, ht10⟩ := toksOf_head cfg v hv
    obtain ⟨f, rfl⟩ : ∃ f, fuel = f + 1 := ⟨fuel - 1, by omega⟩
    rw [show pairsFlat (((.atom ⟨.keyword kt⟩ : Expr), v) ::
        (ek, ev) :: rest2) ++ ([[41]] ++ rest) =
      [58] :: (kt :: ([32] :: (toksOf v ++ ([[32]] ++
        (pairsFlat ((ek, ev) :: rest2) ++ ([[41]] ++ rest)))))) from
      by simp [pairsFlat, keyToks, List.append_assoc]]
    simp only [readExpLoop]
    rw [if_neg (by decide), if_neg (by decide)]
    have hdisp : dispatch f cfg [58]
        ([58] :: (kt :: ([32] :: (toksOf v ++ ([[32]] ++
          (pairsFlat ((ek, ev) :: rest2) ++ ([[41]] ++ rest))))))) =
        .ok (.atom ⟨.keyword kt⟩,
          [32] :: (toksOf v ++ ([[32]] ++
            (pairsFlat ((ek, ev) :: rest2) ++ ([[41]] ++ rest))))) := by
      obtain ⟨f1, rfl⟩ : ∃ f1, f = f1 + 1 := ⟨f - 1, by omega⟩
      simp [dispatch, tokOpen, tokQuote, tokDq, tokColon, readKeyword]
    simp only [hdisp]
    obtain ⟨f1, rfl⟩ : ∃ f1, f = f1 + 1 := ⟨f - 1, by omega⟩
    simp only [readExpLoop]
    rw [if_neg (by decide), if_pos (Or.inl (by decide))]
    obtain ⟨f2, rfl⟩ : ∃ f2, f1 = f2 + 1 := ⟨f1 - 1, by omega⟩
    have hdispv := parse_data f2 cfg v
      ([[32]] ++ (pairsFlat ((ek, ev) :: rest2) ++ ([[41]] ++ rest))) hv
      (by omega)
    rw [htv] at hdispv ⊢
    simp only [List.headD_cons, List.cons_append, List.nil_append] at hdispv
    simp only [List.cons_append, List.nil_append, readExpLoop]
    rw [if_neg (by simpa using ht41), if_neg (not_ws ht32 ht10)]
    simp only [hdispv]
    obtain ⟨f3, rfl⟩ : ∃ f3, f2 = f3 + 1 := ⟨f2 - 1, by omega⟩
    simp only [List.singleton_append, readExpLoop]
    rw [if_neg (by decide), if_pos (Or.inl (by decide))]
    have hrec := parse_pairs f3 cfg ((ek, ev) :: rest2)
      ((acc ++ [Expr.atom ⟨.keyword kt⟩]) ++ [exprOf v]) rest hg' (by omega)
    simp only [List.singleton_append] at hrec
    rw [hrec]
    simp [pairsExprOf, List.append_assoc]
termination_by fuel cfg args _ _ => sizeOf args

/-- The `read_exp` loop over rendered list elements, stopped by `)`. -/
theorem parse_items :
    ∀ (fuel : Nat) (cfg : Bool) (ds : List Data) (acc : List Expr)
      (rest : List Str),
    goodItems cfg ds = true → 3 * (itemsFlat ds).length + 1 ≤ fuel →
    readExpLoop fuel cfg (itemsFlat ds ++ ([[41]] ++ rest)) acc =
      .ok (.list (acc ++ itemsExprOf ds), rest)
  | fuel, cfg, [], acc, rest, _, hf => by
    obtain ⟨f, rfl⟩ : ∃ f, fuel = f + 1 := ⟨fuel - 1, by omega⟩
    rw [show itemsFlat [] ++ ([[41]] ++ rest) = [41] :: rest from
      by simp [itemsFlat]]
    simp only [readExpLoop]
    rw [if_pos (by decide)]
    simp [itemsExprOf]
  | fuel, cfg, [d], acc, rest, hg, hf => by
    have hd : goodData cfg d = true := by simpa [goodItems] using hg
    have hlen : (itemsFlat [d]).length = (toksOf d).length := by
      simp [itemsFlat]
    rw [hlen] at hf
    obtain ⟨t0, ts0, htv, ht41, ht32, ht10⟩ := toksOf_head cfg d hd
    have hpos : 1 ≤ (toksOf d).length := by rw [htv]; simp
    obtain ⟨f, rfl⟩ : ∃ f, fuel = f + 1 := ⟨fuel - 1, by omega⟩
    rw [show itemsFlat [d] ++ ([[41]] ++ rest) = toksOf d ++ ([[41]] ++ rest)
      from by simp [itemsFlat]]
    have hdispv := parse_data f cfg d ([[41]] ++ rest) hd (by omega)
    rw [htv] at hdispv ⊢
    simp only [List.headD_cons, List.cons_append, List.nil_append] at hdispv
    simp only [List.cons_append, List.nil_append, readExpLoop]
    rw [if_neg (by simpa using ht41), if_neg (not_ws ht32 ht10)]
    simp only [hdispv]
    obtain ⟨f1, rfl⟩ : ∃ f1, f = f1 + 1 := ⟨f - 1, by omega⟩
    simp only [List.singleton_append, readExpLoop]
    rw [if_pos (by decide)]
    simp [itemsExprOf]
  | fuel, cfg, d :: e :: rest2, acc, rest, hg, hf => by
    have hd : goodData cfg d = true := by
      simp only [goodItems, Bool.and_eq_true] at hg
      exact hg.1
    have hg' : goodItems cfg (e :: rest2) = true := by
      simp only [goodItems, Bool.and_eq_true] at hg ⊢
      exact hg.2
    have hlen : (itemsFlat (d :: e :: rest2)).length =
        (toksOf d).length + (itemsFlat (e :: rest2)).length + 1 := by
      simp only [itemsFlat, List.length_append, List.length_cons,
        List.length_nil]
      omega
    rw [hlen] at hf
    obtain ⟨t0, ts0, htv, ht41, ht32, ht10⟩ := toksOf_head cfg d hd
    obtain ⟨f, rfl⟩ : ∃ f, fuel = f + 1 := ⟨fuel - 1, by omega⟩
    rw [show itemsFlat (d :: e :: rest2) ++ ([[41]] ++ rest) =
      toksOf d ++ ([[32]] ++ (itemsFlat (e :: rest2) ++ ([[41]] ++ rest)))
      from by simp [itemsFlat, List.append_assoc]]
    have hdispv := parse_data f cfg d
      ([[32]] ++ (itemsFlat (e :: rest2) ++ ([[41]] ++ rest))) hd (by omega)
    rw [htv] at hdispv ⊢
    simp only [List.headD_cons, List.cons_append, List.nil_append] at hdispv
    simp only [List.cons_append, List.nil_append, readExpLoop]
    rw [if_neg (by simpa using ht41), if_neg (not_ws ht32 ht10)]
    simp only [hdispv]
    obtain ⟨f1, rfl⟩ : ∃ f1, f = f1 + 1 := ⟨f - 1, by omega⟩
    simp only [List.singleton_append, readExpLoop]
    rw [if_neg (by decide), if_pos (Or.inl (by decide))]
    have hrec := parse_items f1 cfg (e :: rest2) (acc ++ [exprOf d]) rest hg'
      (by omega)
    simp only [List.singleton_append] at hrec
    rw [hrec]
    simp [itemsExprOf, List.append_assoc]
termination_by fuel cfg ds _ _ => sizeOf ds

/-- The `read_exp` loop over rendered map rows, stopped by `)`. -/
theorem parse_rows :
    ∀ (fuel : Nat) (cfg : Bool) (ks : List Str) (tb : List (Str × Data))
      (acc : List Expr) (rest : List Str),
    ks.all goodTok = true → goodTable cfg ks tb = true →
    3 * (rowsFlat ks tb).length + 1 ≤ fuel →
    readExpLoop fuel cfg (rowsFlat ks tb ++ ([[41]] ++ rest)) acc =
      .ok (.list (acc ++ rowsExprOf ks tb), rest)
  | fuel, cfg, [], tb, acc, rest, _, _, hf => by
    obtain ⟨f, rfl⟩ : ∃ f, fuel = f + 1 := ⟨fuel - 1, by omega⟩
    rw [show rowsFlat [] tb ++ ([[41]] ++ rest) = [41] :: rest from
      by simp [rowsFlat]]
    simp only [readExpLoop]
    rw [if_pos (by decide)]
    simp [rowsExprOf]
  | fuel, cfg, [kk], tb, acc, rest, hks, htab, hf => by
    have hkt : goodTok kk = true := by simpa using hks
    have hl : lookupGood cfg kk tb = true := by simpa [goodTable] using htab
    have hfd := lookup_found cfg kk tb hl
    have hlen : (rowsFlat [kk] tb).length = (lookupToks kk tb).length + 3 := by
      simp only [rowsFlat, List.length_append, List.length_cons,
        List.length_nil]
      omega
    rw [hlen] at hf
    obtain ⟨t0, ts0, htv, ht41, ht32, ht10⟩ := by
      have := toksOf_head cfg (lookupData kk tb) hfd.1
      rw [← hfd.2.2.1] at this
      exact this
    obtain ⟨f, rfl⟩ : ∃ f, fuel = f + 1 := ⟨fuel - 1, by omega⟩
    rw [show rowsFlat [kk] tb ++ ([[41]] ++ rest) =
      [58] :: (kk :: ([32] :: (lookupToks kk tb ++ ([[41]] ++ rest)))) from
      by simp [rowsFlat, List.append_assoc]]
    simp only [readExpLoop]
    rw [if_neg (by decide), if_neg (by decide)]
    have hdisp : dispatch f cfg [58]
        ([58] :: (kk :: ([32] :: (lookupToks kk tb ++ ([[41]] ++ rest))))) =
        .ok (.atom ⟨.keyword kk⟩,
          [32] :: (lookupToks kk tb ++ ([[41]] ++ rest))) := by
      obtain ⟨f1, rfl⟩ : ∃ f1, f = f1 + 1 := ⟨f - 1, by omega⟩
      simp [dispatch, tokOpen, tokQuote, tokDq, tokColon, readKeyword]
    simp only [hdisp]
    obtain ⟨f1, rfl⟩ : ∃ f1, f = f1 + 1 := ⟨f - 1, by omega⟩
    simp only [readExpLoop]
    rw [if_neg (by decide), if_pos (Or.inl (by decide))]
    obtain ⟨f2, rfl⟩ : ∃ f2, f1 = f2 + 1 := ⟨f1 - 1, by omega⟩
    have hdispv := parse_lookup f2 cfg kk tb ([[41]] ++ rest) hl (by omega)
    rw [htv] at hdispv ⊢
    simp only [List.headD_cons, List.cons_append, List.nil_append] at hdispv
    simp only [List.cons_append, List.nil_append, readExpLoop]
    rw [if_neg (by simpa using ht41), if_neg (not_ws ht32 ht10)]
    simp only [hdispv]
    obtain ⟨f3, rfl⟩ : ∃ f3, f2 = f3 + 1 := ⟨f2 - 1, by omega⟩
    simp only [List.singleton_append, readExpLoop]
    rw [if_pos (by decide)]
    simp [rowsExprOf, List.append_assoc]
  | fuel, cfg, kk :: k2 :: ks, tb, acc, rest, hks, htab, hf => by
    have hkt : goodTok kk = true := by
      simp only [List.all_cons, Bool.and_eq_true] at hks
      exact hks.1
    have hks' : (k2 :: ks).all goodTok = true := by
      simp only [List.all_cons, Bool.and_eq_true] at hks ⊢
      exact hks.2
    have hl : lookupGood cfg kk tb = true := by
      simp only [goodTable, Bool.and_eq_true] at htab
      exact htab.1
    have htab' : goodTable cfg (k2 :: ks) tb = true := by
      simp only [goodTable, Bool.and_eq_true] at htab ⊢
      exact htab.2
    have hfd := lookup_found cfg kk tb hl
    have hlen : (rowsFlat (kk :: k2 :: ks) tb).length =
        (lookupToks kk tb).length + (rowsFlat (k2 :: ks) tb).length + 4 := by
      simp only [rowsFlat, List.length_append, List.length_cons,
        List.length_nil]
      omega
    rw [hlen] at hf
    obtain ⟨t0, ts0, htv, ht41, ht32, ht10⟩ := by
      have := toksOf_head cfg (lookupData kk tb) hfd.1
      rw [← hfd.2.2.1] at this
      exact this
    obtain ⟨f, rfl⟩ : ∃ f, fuel = f + 1 := ⟨fuel - 1, by omega⟩
    rw [show rowsFlat (kk :: k2 :: ks) tb ++ ([[41]] ++ rest) =
      [58] :: (kk :: ([32] :: (lookupToks kk tb ++ ([[32]] ++
        (rowsFlat (k2 :: ks) tb ++ ([[41]] ++ rest)))))) from
      by simp [rowsFlat, List.append_assoc]]
    simp only [readExpLoop]
    rw [if_neg (by decide), if_neg (by decide)]
    have hdisp : dispatch f cfg [58]
        ([58] :: (kk :: ([32] :: (lookupToks kk tb ++ ([[32]] ++
          (rowsFlat (k2 :: ks) tb ++ ([[41]] ++ rest))))))) =
        .ok (.atom ⟨.keyword kk⟩,
          [32] :: (lookupToks kk tb ++ ([[32]] ++
            (rowsFlat (k2 :: ks) tb ++ ([[41]] ++ rest))))) := by
      obtain ⟨f1, rfl⟩ : ∃ f1, f = f1 + 1 := ⟨f - 1, by omega⟩
      simp [dispatch, tokOpen, tokQuote, tokDq, tokColon, readKeyword]
    simp only [hdisp]
    obtain ⟨f1, rfl⟩ : ∃ f1, f = f1 + 1 := ⟨f - 1, by omega⟩
    simp only [readExpLoop]
    rw [if_neg (by decide), if_pos (Or.inl (by decide))]
    obtain ⟨f2, rfl⟩ : ∃ f2, f1 = f2 + 1 := ⟨f1 - 1, by omega⟩
    have hdispv := parse_lookup f2 cfg kk tb
      ([[32]] ++ (rowsFlat (k2 :: ks) tb ++ ([[41]] ++ rest))) hl (by omega)
    rw [htv] at hdispv ⊢
    simp only [List.headD_cons, List.cons_append, List.nil_append] at hdispv
    simp only [List.cons_append, List.nil_append, readExpLoop]
    rw [if_neg (by simpa using ht41), if_neg (not_ws ht32 ht10)]
    simp only [hdispv]
    obtain ⟨f3, rfl⟩ : ∃ f3, f2 = f3 + 1 := ⟨f2 - 1, by omega⟩
    simp only [List.singleton_append, readExpLoop]
    rw [if_neg (by decide), if_pos (Or.inl (by decide))]
    have hrec := parse_rows f3 cfg (k2 :: ks) tb
      ((acc ++ [Expr.atom ⟨.keyword kk⟩]) ++ [lookupExprOf kk tb]) rest
      hks' htab' (by omega)
    simp only [List.singleton_append] at hrec
    rw [hrec]
    simp [rowsExprOf, List.append_assoc]
termination_by fuel cfg ks tb _ _ => sizeOf ks + sizeOf tb

/-- Reading back the rendered entry found under key `k`. -/
theorem parse_lookup :
    ∀ (fuel : Nat) (cfg : Bool) (k : Str) (tb : List (Str × Data))
      (rest : List Str),
    lookupGood cfg k tb = true → 3 * (lookupToks k tb).length ≤ fuel →
    dispatch fuel cfg ((lookupToks k tb).headD []) (lookupToks k tb ++ rest) =
      .ok (lookupExprOf k tb, rest)
  | fuel, cfg, k, [], rest, hg, hf => by simp [lookupGood] at hg
  | fuel, cfg, k, (k', v) :: rest', rest, hg, hf => by
    by_cases hk : k = k'
    · subst hk
      have hv : goodData cfg v = true := by simpa [lookupGood] using hg
      have h1 : lookupToks k ((k, v) :: rest') = toksOf v := by
        simp [lookupToks]
      have h2 : lookupExprOf k ((k, v) :: rest') = exprOf v := by
        simp [lookupExprOf]
      rw [h1] at hf ⊢
      rw [h2]
      exact parse_data fuel cfg v rest hv hf
    · have hg' : lookupGood cfg k rest' = true := by
        simpa [lookupGood, hk] using hg
      have h1 : lookupToks k ((k', v) :: rest') = lookupToks k rest' := by
        simp [lookupToks, hk]
      have h2 : lookupExprOf k ((k', v) :: rest') = lookupExprOf k rest' := by
        simp [lookupExprOf, hk]
      rw [h1] at hf ⊢
      rw [h2]
      exact parse_lookup fuel cfg k rest' rest hg' hf
termination_by fuel cfg k tb _ => sizeOf tb

end


/-! ### Lifting the re-parsed expression back to `Data` -/

theorem exprOf_value (v : TypeValue) : exprOf (.value v) = .atom ⟨v⟩ := by
  simp [exprOf]

theorem pairsExprOf_length :
    ∀ args : List (Expr × Data), (pairsExprOf args).length = 2 * args.length
  | [] => by simp [pairsExprOf]
  | (k, v) :: rest => by
    simp [pairsExprOf, pairsExprOf_length rest]
    omega

theorem mapKwrdsOf_rows :
    ∀ (ks : List Str) (tb : List (Str × Data)),
    mapKwrdsOf (rowsExprOf ks tb) = .ok ks
  | [], tb => by simp [rowsExprOf, mapKwrdsOf]
  | k :: ks, tb => by
    rw [show rowsExprOf (k :: ks) tb =
      .atom ⟨.keyword k⟩ :: (lookupExprOf k tb :: rowsExprOf ks tb) from
      by simp [rowsExprOf]]
    simp only [mapKwrdsOf, mapKwrdsOf_rows ks tb]

theorem rows_lastChunkVal :
    ∀ (ks : List Str) (tb : List (Str × Data)) (k : Str),
    lastChunkVal k (rowsExprOf ks tb) =
      if k ∈ ks then some (lookupExprOf k tb) else none
  | [], tb, k => by simp [rowsExprOf, lastChunkVal]
  | k0 :: ks, tb, k => by
    rw [show rowsExprOf (k0 :: ks) tb =
      .atom ⟨.keyword k0⟩ :: (lookupExprOf k0 tb :: rowsExprOf ks tb) from
      by simp [rowsExprOf]]
    simp only [lastChunkVal, rows_lastChunkVal ks tb k]
    by_cases hmem : k ∈ ks
    · simp [hmem]
    · by_cases hk : k0 = k
      · subst hk
        simp [hmem]
      · have hne : ¬ k = k0 := fun hh => hk hh.symm
        simp [hmem, hk, hne]

theorem goodTable_mem :
    ∀ (cfg : Bool) (ks : List Str) (tb : List (Str × Data)) (k : Str),
    goodTable cfg ks tb = true → k ∈ ks → lookupGood cfg k tb = true
  | cfg, [], tb, k, _, hmem => by simp at hmem
  | cfg, k0 :: ks, tb, k, hg, hmem => by
    simp only [goodTable, Bool.and_eq_true] at hg
    rcases List.mem_cons.mp hmem with hk | hk
    · subst hk
      exact hg.1
    · exact goodTable_mem cfg ks tb k hg.2 hk

theorem lookupGood_mapGet :
    ∀ (cfg : Bool) (k : Str) (tb : List (Str × Data)),
    lookupGood cfg k tb = true → mapGet k tb = some (lookupData k tb)
  | cfg, k, [], hg => by simp [lookupGood] at hg
  | cfg, k, (k', v) :: rest, hg => by
    by_cases hk : k = k'
    · subst hk
      simp [mapGet, lookupData]
    · have hg' : lookupGood cfg k rest = true := by
        simpa [lookupGood, hk] using hg
      have ih := lookupGood_mapGet cfg k rest hg'
      simp [mapGet, lookupData, hk] at ih ⊢
      exact ih

theorem mapGet_none_of_no_key :
    ∀ (kwrds : List Str) (tb : List (Str × Data)) (k : Str),
    (tb.all fun p => decide (p.1 ∈ kwrds)) = true → ¬ k ∈ kwrds →
    mapGet k tb = none
  | kwrds, [], k, _, _ => rfl
  | kwrds, (k', v) :: rest, k, hall, hmem => by
    simp only [List.all_cons, Bool.and_eq_true, decide_eq_true_eq] at hall
    have hk : k ≠ k' := fun hh => hmem (hh ▸ hall.1)
    simp only [mapGet, if_neg hk]
    exact mapGet_none_of_no_key kwrds rest k hall.2 hmem

mutual

/-- `Data::from_expr` inverts the re-parsed expression of a good value. -/
theorem fromExpr_data :
    ∀ (cfg : Bool) (d : Data), goodData cfg d = true →
    dataFromExpr (exprOf d) = .ok d
  | cfg, .value (.number n), _ => by simp [exprOf, dataFromExpr]
  | cfg, .value (.keyword k), _ => by simp [exprOf, dataFromExpr]
  | cfg, .value (.string s), _ => by simp [exprOf, dataFromExpr]
  | cfg, .value (.symbol s), hg => by simp [goodData] at hg
  | cfg, .error e, hg => by simp [goodData] at hg
  | cfg, .data name args, hg => by
    simp only [goodData, Bool.and_eq_true] at hg
    obtain ⟨hn, hp⟩ := hg
    have hlen2 := pairsExprOf_length args
    rw [show exprOf (Data.data name args) =
      .list (.atom ⟨.symbol name⟩ :: pairsExprOf args) from by simp [exprOf]]
    simp only [dataFromExpr, exprDataFromList]
    rw [if_neg (by simp), if_neg (by
      simp only [List.length_cons, hlen2, ne_eq, Decidable.not_not]
      omega)]
    simp only [fromExpr_pairs cfg args hp]
  | cfg, .list [], hg => by simp [goodData] at hg
  | cfg, .list (d0 :: ds), hg => by
    have hgi : goodItems cfg (d0 :: ds) = true := by
      simp only [goodData, goodItems, Bool.and_eq_true] at hg ⊢
      exact hg.2
    have hhead : isGoodListHead d0 = true := by
      simp only [goodData, Bool.and_eq_true] at hg
      exact hg.1
    have hconv := fromExpr_items cfg (d0 :: ds) hgi
    have hitems : ∀ v : TypeValue, itemsExprOf (Data.value v :: ds) =
        .atom ⟨v⟩ :: itemsExprOf ds := by
      intro v
      simp [itemsExprOf, exprOf_value]
    match d0, hhead with
    | .value (.string s), _ =>
      rw [hitems (.string s)] at hconv
      rw [show exprOf (Data.list (.value (.string s) :: ds)) =
        .quote (.list (.atom ⟨.string s⟩ :: itemsExprOf ds)) from
        by simp [exprOf, itemsExprOf, exprOf_value]]
      simp only [dataFromExpr, hconv]
    | .value (.number n), _ =>
      rw [hitems (.number n)] at hconv
      rw [show exprOf (Data.list (.value (.number n) :: ds)) =
        .quote (.list (.atom ⟨.number n⟩ :: itemsExprOf ds)) from
        by simp [exprOf, itemsExprOf, exprOf_value]]
      simp only [dataFromExpr, hconv]
  | cfg, .map kwrds tb, hg => by
    simp only [goodData, Bool.and_eq_true] at hg
    obtain ⟨⟨⟨⟨hke, hka⟩, hsort⟩, htab⟩, hmem⟩ := hg
    cases kwrds with
    | nil => simp at hke
    | cons k0 ks =>
      obtain ⟨tb', hrun⟩ := fromExpr_rows_ok cfg (k0 :: ks) tb [] htab
      have hsorted' := dataMapFromExprs_sorted (rowsExprOf (k0 :: ks) tb) []
        tb' rfl hrun
      have hext : ∀ k, mapGet k tb' = mapGet k tb := by
        intro k
        by_cases hmemk : k ∈ (k0 :: ks)
        · have hl := goodTable_mem cfg (k0 :: ks) tb k htab hmemk
          have hfe := fromExpr_lookup cfg k tb hl
          have hlast : lastChunkVal k (rowsExprOf (k0 :: ks) tb) =
              some (lookupExprOf k tb) := by
            rw [rows_lastChunkVal]
            simp [hmemk]
          obtain ⟨d, hd1, hd2⟩ :=
            (dataMapFromExprs_get k (rowsExprOf (k0 :: ks) tb) [] tb' hrun).1
              _ hlast
          rw [hfe] at hd1
          injection hd1 with hd1
          rw [hd2, ← hd1, lookupGood_mapGet cfg k tb hl]
        · have hlast : lastChunkVal k (rowsExprOf (k0 :: ks) tb) = none := by
            rw [rows_lastChunkVal]
            simp [hmemk]
          have h1 :=
            (dataMapFromExprs_get k (rowsExprOf (k0 :: ks) tb) [] tb' hrun).2
              hlast
          rw [h1, mapGet_none_of_no_key (k0 :: ks) tb k hmem hmemk]
          rfl
      have htb : tb' = tb := sorted_ext tb' tb hsorted' hsort hext
      rw [htb] at hrun
      have hkw := mapKwrdsOf_rows (k0 :: ks) tb
      have hshape : rowsExprOf (k0 :: ks) tb =
          .atom ⟨.keyword k0⟩ :: (lookupExprOf k0 tb :: rowsExprOf ks tb) := by
        simp [rowsExprOf]
      rw [hshape] at hkw hrun
      rw [show exprOf (Data.map (k0 :: ks) tb) =
        .quote (.list (.atom ⟨.keyword k0⟩ ::
          (lookupExprOf k0 tb :: rowsExprOf ks tb))) from
        by simp [exprOf, hshape]]
      simp only [dataFromExpr, hkw, hrun]
termination_by cfg d _ => sizeOf d

/-- `ExprData::from_expr`'s chunk loop inverts the re-parsed pair rows. -/
theorem fromExpr_pairs :
    ∀ (cfg : Bool) (args : List (Expr × Data)), goodPairs cfg args = true →
    pairsFromChunks (pairsExprOf args) = .ok args
  | cfg, [], _ => by simp [pairsExprOf, pairsFromChunks]
  | cfg, (k, v) :: rest, hg => by
    obtain ⟨kt, hk, hkt, hv, hg'⟩ := goodPairs_elim cfg k v rest hg
    subst hk
    rw [show pairsExprOf ((Expr.atom ⟨.keyword kt⟩, v) :: rest) =
      .atom ⟨.keyword kt⟩ :: (exprOf v :: pairsExprOf rest) from
      by simp [pairsExprOf]]
    simp only [pairsFromChunks, fromExpr_data cfg v hv,
      fromExpr_pairs cfg rest hg']
termination_by cfg args _ => sizeOf args

/-- `ListData::from_expr`'s loop inverts the re-parsed elements. -/
theorem fromExpr_items :
    ∀ (cfg : Bool) (ds : List Data), goodItems cfg ds = true →
    dataListFromExprs (itemsExprOf ds) = .ok ds
  | cfg, [], _ => by simp [itemsExprOf, dataListFromExprs]
  | cfg, d :: ds, hg => by
    have hd : goodData cfg d = true := by
      simp only [goodItems, Bool.and_eq_true] at hg
      exact hg.1
    have hg' : goodItems cfg ds = true := by
      simp only [goodItems, Bool.and_eq_true] at hg
      exact hg.2
    rw [show itemsExprOf (d :: ds) = exprOf d :: itemsExprOf ds from
      by simp [itemsExprOf]]
    simp only [dataListFromExprs, fromExpr_data cfg d hd,
      fromExpr_items cfg ds hg']
termination_by cfg ds _ => sizeOf ds

/-- `DataMap::from_exprs` succeeds on re-parsed rows of a good table. -/
theorem fromExpr_rows_ok :
    ∀ (cfg : Bool) (ks : List Str) (tb : List (Str × Data))
      (acc : List (Str × Data)),
    goodTable cfg ks tb = true →
    ∃ tb', dataMapFromExprs acc (rowsExprOf ks tb) = .ok tb'
  | cfg, [], tb, acc, _ => ⟨acc, by simp [rowsExprOf, dataMapFromExprs]⟩
  | cfg, k :: ks, tb, acc, hg => by
    have hl : lookupGood cfg k tb = true := by
      simp only [goodTable, Bool.and_eq_true] at hg
      exact hg.1
    have hg' : goodTable cfg ks tb = true := by
      simp only [goodTable, Bool.and_eq_true] at hg ⊢
      exact hg.2
    have hfe := fromExpr_lookup cfg k tb hl
    obtain ⟨tb', ih⟩ := fromExpr_rows_ok cfg ks tb
      (mapInsert k (lookupData k tb) acc) hg'
    refine ⟨tb', ?_⟩
    rw [show rowsExprOf (k :: ks) tb =
      .atom ⟨.keyword k⟩ :: (lookupExprOf k tb :: rowsExprOf ks tb) from
      by simp [rowsExprOf]]
    simp only [dataMapFromExprs, hfe, ih]
termination_by cfg ks tb _ _ => sizeOf ks + sizeOf tb

/-- `Data::from_expr` inverts a re-parsed entry found under key `k`. -/
theorem fromExpr_lookup :
    ∀ (cfg : Bool) (k : Str) (tb : List (Str × Data)),
    lookupGood cfg k tb = true →
    dataFromExpr (lookupExprOf k tb) = .ok (lookupData k tb)
  | cfg, k, [], hg => by simp [lookupGood] at hg
  | cfg, k, (k', v) :: rest, hg => by
    by_cases hk : k = k'
    · subst hk
      have hv : goodData cfg v = true := by simpa [lookupGood] using hg
      rw [show lookupExprOf k ((k, v) :: rest) = exprOf v from
        by simp [lookupExprOf]]
      rw [show lookupData k ((k, v) :: rest) = v from by simp [lookupData, mapGet]]
      exact fromExpr_data cfg v hv
    · have hg' : lookupGood cfg k rest = true := by
        simpa [lookupGood, hk] using hg
      rw [show lookupExprOf k ((k', v) :: rest) = lookupExprOf k rest from
        by simp [lookupExprOf, hk]]
      rw [show lookupData k ((k', v) :: rest) = lookupData k rest from
        by simp [lookupData, mapGet, hk]]
      exact fromExpr_lookup cfg k rest hg'
termination_by cfg k tb _ => sizeOf tb

end


/-! ### C1: the round trip -/

/-- Serialize-then-parse recovers every good value exactly. -/
theorem dataFromStr_render :
    ∀ (cfg : Bool) (d : Data), goodData cfg d = true →
    dataFromStr cfg (dataToString d) = .ok d := by
  intro cfg d hg
  obtain ⟨t0, ts0, htoks, -, -, -⟩ := toksOf_head cfg d hg
  have hdisp := parse_data (entryFuel (toksOf d)) cfg d [] hg (by
    simp only [entryFuel]
    omega)
  simp only [List.append_nil] at hdisp
  simp only [dataFromStr, tokenize_render cfg d hg]
  rw [htoks] at hdisp ⊢
  simp only [List.headD_cons] at hdisp
  simp only [hdisp]
  exact fromExpr_data cfg d hg

/-- The parsed form of spec scenario B
`(get-book :title "hello world" :version '(1 2 3 4) :map '(:a 2 :r 4))`. -/
def scenarioB : Data :=
  .data (ascii "get-book")
    [(.atom ⟨.keyword (ascii "title")⟩, .value (.string (ascii "hello world"))),
     (.atom ⟨.keyword (ascii "version")⟩,
       .list [.value (.number 1), .value (.number 2), .value (.number 3),
         .value (.number 4)]),
     (.atom ⟨.keyword (ascii "map")⟩,
       .map [ascii "a", ascii "r"]
         [(ascii "a", .value (.number 2)), (ascii "r", .value (.number 4))])]

def scenarioBText : Str :=
  ascii "(get-book :title \"hello world\" :version '(1 2 3 4) :map '(:a 2 :r 4))"

/-- Scenario B serializes back to its source text byte-for-byte. -/
theorem scenarioB_render : dataToString scenarioB = scenarioBText := by
  have h1 : intRender 1 = [49] := by simp [intRender, natDigits]
  have h2 : intRender 2 = [50] := by simp [intRender, natDigits]
  have h3 : intRender 3 = [51] := by simp [intRender, natDigits]
  have h4 : intRender 4 = [52] := by simp [intRender, natDigits]
  simp only [scenarioB, dataToString, pairStrings, dataStrings, kwRows,
    lookupRender, typeValueToString, exprIntoTokens, dataErrorRender,
    h1, h2, h3, h4]
  decide

/-- Scenario B lies in the good fragment. -/
theorem scenarioB_good : goodData true scenarioB = true := by
  simp only [scenarioB, goodData, goodPairs, goodItems, goodTable, lookupGood,
    goodName, isGoodListHead]
  decide

/-- C1 (amended): on the lexically safe fragment — no Symbol scalars, string
contents free of `"`, `\` and double spaces with valid UTF-8 runs, names and
keywords nonempty delimiter-free valid-UTF-8 tokens, record names not lexing
as an i64 when `read_number` is on, number values only with `read_number` on
and within i64 range, Lists nonempty with a string or number head, Maps
nonempty with a canonical sorted table matching the keyword list — `to_string`
followed by `from_str` returns the original value exactly, and the scenario B
record serializes back to its source text byte-for-byte and parses back to
itself. -/
theorem c1_round_trip_good_fragment :
    (∀ (cfg : Bool) (d : Data), goodData cfg d = true →
      dataFromStr cfg (dataToString d) = .ok d) ∧
    dataToString scenarioB = scenarioBText ∧
    dataFromStr true scenarioBText = .ok scenarioB := by
  refine ⟨dataFromStr_render, scenarioB_render, ?_⟩
  rw [← scenarioB_render]
  exact dataFromStr_render true scenarioB scenarioB_good

/-- The value `(f :a 'sym)` parses to (source text shape). -/
def ceSymbolRecord : Data :=
  .data (ascii "f")
    [(.atom ⟨.keyword (ascii "a")⟩, .value (.symbol (ascii "sym")))]

/-- C1 counterexample: a record holding a quoted-symbol value is obtained by
parsing well-formed input, but serializing prints the symbol bare, and
re-parsing then rejects it (`cannot generate Data from the symbol`), so
`parse(serialize(d)) = d` fails for a parseable value. -/
theorem c1_parsed_symbol_breaks_round_trip :
    dataFromStr true (ascii "(f :a 'sym)") = .ok ceSymbolRecord ∧
    dataToString ceSymbolRecord = ascii "(f :a sym)" ∧
    dataFromStr true (dataToString ceSymbolRecord) =
      .err (.data ⟨"cannot generate Data from the symbol", .invalidInput⟩) := by
  have hser : dataToString ceSymbolRecord = ascii "(f :a sym)" := by
    simp only [ceSymbolRecord, dataToString, pairStrings, typeValueToString,
      exprIntoTokens]
    decide
  refine ⟨rfl, hser, ?_⟩
  rw [hser]
  rfl

/-- Witness: the scenario B record is in the good fragment and round-trips. -/
theorem c1_round_trip_good_fragment_witness :
    goodData true scenarioB = true ∧
    dataFromStr true (dataToString scenarioB) = .ok scenarioB :=
  ⟨scenarioB_good, c1_round_trip_good_fragment.1 true scenarioB scenarioB_good⟩

end LispRpc
